import Mathlib

/-!
# tools/mkdeps.c

A shallow embedding of the NuttX dependency-generation wrapper `mkdeps`
(the `HOST_CYGWIN` build, the only one in which `g_winpath` is declared)
and the properties of its argument parser, path search, command assembly
and Windows-path expansion.

Modelling conventions:

* a C string is the list of its characters before the terminating NUL;
  `NULL` is `none`;
* string lengths are natural numbers: argument vectors are far shorter than
  `INT_MAX`, so the `int` length counters of the source never wrap;
* `strdup` and `malloc` are taken to succeed;
* `exit` ends the run: every function that may call it returns an `Outcome`;
* text written to the standard streams, the commands handed to `system()`
  and every access at an index outside the fixed-size array it addresses
  are recorded, in order, in a `Trace`.  After such an access the run goes
  on as on a flat memory in which the byte next to the array belongs to no
  live object;
* passing `NULL` to `strlen`, `strdup` or `strtok_r` is a `fault`; `main`
  never does so;
* `stat`, `system` and the Cygwin path conversion are parameters (`Host`).
-/

namespace Mkdeps

/-! ## Strings and constants -/

/-- A C string: its characters before the terminating NUL. -/
abbrev Str := List Char

def MAX_BUFFER : Nat := 4096
def MAX_EXPAND : Nat := 2048
def MAX_PATH : Nat := 512

def EXIT_SUCCESS : Int := 0
def EXIT_FAILURE : Int := 1

/-- The backslash character. -/
def BSLASH : Char := Char.ofNat 92
/-- The double-quote character. -/
def DQUOTE : Char := Char.ofNat 34
/-- The newline character. -/
def NL : Char := Char.ofNat 10

/-- Decimal rendering of an integer, as printed by `%d` and `%lu`. -/
def dec (n : Int) : Str := (toString n).toList

/-! ## Observable behaviour -/

inductive Stream
  | stdout
  | stderr
deriving DecidableEq, Repr

/-- The fixed-size arrays of the program. -/
inductive Buffer
  | g_command
  | g_expand
  | g_path
  | g_dequoted
  | g_posixpath
deriving DecidableEq, Repr

/-- What a run has done so far, oldest entry first. -/
structure Trace where
  /-- text written with `printf`/`fprintf`, one entry per call -/
  out : List (Stream × Str)
  /-- commands handed to `system()` -/
  cmds : List Str
  /-- accesses at an index outside the array they address -/
  oob : List (Buffer × Int)
deriving DecidableEq, Repr

def Trace.empty : Trace := ⟨[], [], []⟩

def Trace.print (t : Trace) (s : Stream) (text : Str) : Trace :=
  { t with out := t.out ++ [(s, text)] }

def Trace.ran (t : Trace) (cmd : Str) : Trace :=
  { t with cmds := t.cmds ++ [cmd] }

/-- An access (load or store) `b[i]` to an array of `cap` elements. -/
def Trace.access (t : Trace) (b : Buffer) (i : Int) (cap : Nat) : Trace :=
  if 0 ≤ i ∧ i < cap then t else { t with oob := t.oob ++ [(b, i)] }

/-- Result of a piece of code that may call `exit`. -/
inductive Outcome (α : Type)
  /-- control returns to the caller -/
  | cont (a : α) (t : Trace)
  /-- `exit(code)` was called -/
  | exit (code : Int) (t : Trace)
  /-- a `NULL` pointer was dereferenced -/
  | fault (t : Trace)
deriving DecidableEq, Repr

def Outcome.bind {α β : Type} (o : Outcome α) (f : α → Trace → Outcome β) : Outcome β :=
  match o with
  | .cont a t => f a t
  | .exit c t => .exit c t
  | .fault t => .fault t

def Outcome.trace {α : Type} : Outcome α → Trace
  | .cont _ t => t
  | .exit _ t => t
  | .fault t => t

/-! ## MY_strtok_r (lines 129–193) -/

/-- The test `strchr(delim, c) != NULL` for a character `c` of the string. -/
def isDelim (delim : Str) (c : Char) : Bool := delim.contains c

/-- One call `MY_strtok_r(str, delim, saveptr)`: the token returned (or
`NULL`) and the new value of `*saveptr`. -/
def MY_strtok_r (str : Option Str) (delim : Str) (saveptr : Option Str) :
    Option Str × Option Str :=
  match (match str with | some s => some s | none => saveptr) with
  | none => (none, saveptr)
  | some p =>
    -- find the beginning of the next token
    match p.dropWhile (isDelim delim) with
    | [] => (none, saveptr)
    | c :: cs =>
      -- find the end of the token, starting at pbegin + 1
      let tok := c :: cs.takeWhile (fun x => !isDelim delim x)
      match cs.dropWhile (fun x => !isDelim delim x) with
      | [] => (some tok, some [])
      | _ :: pend => (some tok, some pend)

/-- The loop `while ((tok = strtok_r(str, " ", &lasts)) != NULL) { ...; str = NULL; }`:
the tokens it visits, in order. -/
def strtok_loop : Nat → Option Str → Option Str → List Str
  | 0, _, _ => []
  | fuel + 1, str, lasts =>
    match MY_strtok_r str [' '] lasts with
    | (none, _) => []
    | (some tok, lasts1) => tok :: strtok_loop fuel none lasts1

/-- All tokens of `s` as visited by the `strtok_r` loops of `main` and
`do_dependency`; `lasts` starts uninitialised and is not read by the first
call. -/
def strtok_all (s : Str) : List Str := strtok_loop (s.length + 1) (some s) none

/-! ## append (lines 199–230) -/

/-- The call `snprintf(buf, size, fmt, ...)`: `buf` receives the first `size - 1`
characters of the formatted text. -/
def snprintf (size : Nat) (formatted : Str) : Str := formatted.take (size - 1)

/-- The call `append(&base, str)`: the new value of `base`. -/
def append (base : Option Str) (str : Str) : Option Str :=
  match base with
  | none => some str
  | some oldbase =>
    let alloclen := oldbase.length + str.length + 2
    some (snprintf alloclen (oldbase ++ [' '] ++ str ++ [NL]))

/-! ## show_usage (lines 232–279) -/

/-- The lines written by `show_usage` after the optional message. -/
def usage_lines (progname : Str) : List Str :=
  [ [NL],
    progname ++ "  [OPTIONS] CC -- CFLAGS -- file [file [file...]]".toList ++ [NL],
    [NL],
    "Where:".toList ++ [NL],
    "  CC".toList ++ [NL],
    "    A variable number of arguments that define how to execute the compiler".toList ++ [NL],
    "  CFLAGS".toList ++ [NL],
    "    The compiler compilation flags".toList ++ [NL],
    "  file".toList ++ [NL],
    "    One or more C files whose dependencies will be checked.  Each file is expected".toList ++ [NL],
    "    to reside in the current directory unless --dep-path is provided on the command line".toList ++ [NL],
    [NL],
    "And [OPTIONS] include:".toList ++ [NL],
    "  --dep-debug".toList ++ [NL],
    "    Enable script debug".toList ++ [NL],
    "  --dep-path <path>".toList ++ [NL],
    "    Do not look in the current directory for the file.  Instead, look in <path> to see".toList ++ [NL],
    "    if the file resides there.  --dep-path may be used multiple times to specify".toList ++ [NL],
    "    multiple alternative location".toList ++ [NL],
    "  --obj-path <path>".toList ++ [NL],
    "    The final objects will not reside in this path but, rather, at the path provided by".toList ++ [NL],
    "    <path>.  if provided multiple time, only the last --obj-path will be used.".toList ++ [NL],
    "  --obj-suffix <suffix>".toList ++ [NL],
    "    If and object path is provided, then the extension will be assumed to be .o.  This".toList ++ [NL],
    "    default suffix can be overrided with this command line option.".toList ++ [NL],
    "  --winnative".toList ++ [NL],
    "    By default, a POSIX-style environment is assumed (e.g., Linux, Cygwin, etc.)  This option is".toList ++ [NL],
    "    inform the tool that is working in a pure Windows native environment.".toList ++ [NL],
    "  --winpaths <TOPDIR>".toList ++ [NL],
    "    This option is useful when using a Windows native toolchain in a POSIX environment (such".toList ++ [NL],
    "    such as Cygwin).  In this case, will CC generates dependency lists using Windows paths".toList ++ [NL],
    "    (e.g., C:".toList ++ [BSLASH] ++ "blablah".toList ++ [BSLASH]
      ++ "blabla).  This switch instructs the script to use 'cygpath' to convert".toList ++ [NL],
    "    the Windows paths to Cygwin POSIXE paths.".toList ++ [NL],
    "  --help".toList ++ [NL],
    "    Shows this message and exits".toList ++ [NL] ]

/-- All of `lines` written to standard error, one `fprintf` each. -/
def Trace.errs (t : Trace) (lines : List Str) : Trace :=
  { t with out := t.out ++ lines.map (fun l => (Stream.stderr, l)) }

/-- The call `show_usage(progname, msg, exitcode)`; it never returns. -/
def show_usage {α : Type} (progname : Str) (msg : Option Str) (exitcode : Int)
    (t : Trace) : Outcome α :=
  let t1 := match msg with
    | some m => t.errs [[NL], m ++ [':', NL]]
    | none => t
  .exit exitcode (t1.errs (usage_lines progname))

/-! ## parse_args (lines 281–412) -/

/-- The global configuration variables (lines 102–112). -/
structure Globals where
  g_cc : Option Str
  g_cflags : Option Str
  g_files : Option Str
  g_altpath : Option Str
  g_objpath : Option Str
  g_suffix : Str
  g_debug : Nat
  g_winnative : Bool
  g_winpath : Bool
deriving DecidableEq, Repr

/-- The initial values of the globals. -/
def Globals.init : Globals :=
  { g_cc := none, g_cflags := none, g_files := none, g_altpath := none,
    g_objpath := none, g_suffix := ".o".toList, g_debug := 0,
    g_winnative := false, g_winpath := false }

/-- The `for` loop of `parse_args` over `argv[argidx..]`, with the local
`args` and the globals as state. -/
def parse_loop (progname : Str) :
    List Str → Option Str → Globals → Trace → Outcome (Option Str × Globals)
  | [], args, g, t => .cont (args, g) t
  | arg :: rest, args, g, t =>
    if arg = "--".toList then
      parse_loop progname rest none { g with g_cc := g.g_cflags, g_cflags := args } t
    else if arg = "--dep-debug".toList then
      parse_loop progname rest args { g with g_debug := g.g_debug + 1 } t
    else if arg = "--dep-path".toList then
      match rest with
      | [] => show_usage progname (some "ERROR: Missing argument to --dep-path".toList)
                EXIT_FAILURE t
      | val :: rest1 =>
        if args.isSome then
          parse_loop progname rest1 (append args val) g t
        else
          parse_loop progname rest1 args { g with g_altpath := append g.g_altpath val } t
    else if arg = "--obj-path".toList then
      match rest with
      | [] => show_usage progname (some "ERROR: Missing argument to --obj-path".toList)
                EXIT_FAILURE t
      | val :: rest1 => parse_loop progname rest1 args { g with g_objpath := some val } t
    else if arg = "--obj-suffix".toList then
      match rest with
      | [] => show_usage progname (some "ERROR: Missing argument to --obj-suffix".toList)
                EXIT_FAILURE t
      | val :: rest1 => parse_loop progname rest1 args { g with g_suffix := val } t
    else if arg = "--winnative".toList then
      parse_loop progname rest args { g with g_winnative := true } t
    else if arg = "--winpath".toList then
      parse_loop progname rest args { g with g_winpath := true } t
    else if arg = "--help".toList then
      show_usage progname none EXIT_SUCCESS t
    else
      parse_loop progname rest (append args arg) g t

/-- The text `s ? s : "(None)"` of the debug listing. -/
def orNone (s : Option Str) : Str := s.getD "(None)".toList

/-- The text `b ? "TRUE" : "FALSE"` of the debug listing. -/
def boolText (b : Bool) : Str := if b then "TRUE".toList else "FALSE".toList

/-- The `SELECTIONS` listing written when `g_debug` is set (lines 368–389). -/
def selections (g : Globals) : List Str :=
  [ "SELECTIONS".toList ++ [NL],
    "  CC             : [".toList ++ orNone g.g_cc ++ [']', NL],
    "  CFLAGS         : [".toList ++ orNone g.g_cflags ++ [']', NL],
    "  FILES          : [".toList ++ orNone g.g_files ++ [']', NL],
    "  PATHS          : [".toList ++ orNone g.g_altpath ++ [']', NL] ]
  ++ (match g.g_objpath with
      | some o => [ "  OBJDIR         : [".toList ++ o ++ [']', NL],
                    "  SUFFIX         : [".toList ++ g.g_suffix ++ [']', NL] ]
      | none => [ "  OBJDIR         : (None)".toList ++ [NL] ])
  ++ [ "  Windows Paths  : [".toList ++ boolText g.g_winpath ++ [']', NL],
       "  Windows Native : [".toList ++ boolText g.g_winnative ++ [']', NL] ]

/-- The part of `parse_args` after the loop (lines 357–411). -/
def parse_finish (progname : Str) (args : Option Str) (g0 : Globals) (t : Trace) :
    Outcome Globals :=
  -- the final thing accumulated is the list of files
  let g1 := { g0 with g_files := args }
  -- if no paths were specified, then look in the current directory only
  let g := if g1.g_altpath.isNone then { g1 with g_altpath := some ['.'] } else g1
  let t1 := if g.g_debug ≠ 0 then t.errs (selections g) else t
  if g.g_cc.isNone then
    show_usage progname (some "ERROR: No compiler specified".toList) EXIT_FAILURE t1
  else if g.g_files.isNone then
    .exit EXIT_SUCCESS
      (t1.print .stdout ("# No files specified for dependency generataion".toList ++ [NL]))
  else if g.g_winnative && g.g_winpath then
    show_usage progname (some "ERROR: Both --winnative and --winpath makes no sense".toList)
      EXIT_FAILURE t1
  else
    .cont g t1

/-- The call `parse_args(argc, argv)` from the globals `g`: `argv[0]` is the
program name and the loop starts at `argv[1]`. -/
def parse_args (argv : List Str) (g : Globals) (t : Trace) : Outcome Globals :=
  (parse_loop (argv.headD []) argv.tail none g t).bind
    (fun r t1 => parse_finish (argv.headD []) r.1 r.2 t1)

/-! ## The host -/

/-- What `stat()` reports about a path. -/
inductive StatRes
  /-- the call returns a negative value -/
  | fail
  /-- the call succeeds and `S_ISREG(buf.st_mode)` holds -/
  | regular
  /-- the call succeeds and `S_ISREG(buf.st_mode)` does not hold -/
  | other
deriving DecidableEq, Repr

/-- The platform the program runs on.  The oracles `stat` and `system` see
the commands executed so far, so the file system and the compiler may react
to earlier commands. -/
structure Host where
  /-- the constant `NAME_MAX` of `<limits.h>` -/
  NAME_MAX : Nat
  /-- whether the macro `WEXITSTATUS` is defined (line 792) -/
  have_WEXITSTATUS : Bool
  /-- the call `stat(path, &buf)` after the given commands -/
  stat : List Str → Str → StatRes
  /-- the value returned by `system(cmd)` after the given commands -/
  system : List Str → Str → Int
  /-- the call `cygwin_conv_path(CCP_POSIX_TO_WIN_A | CCP_RELATIVE, path, NULL, 0)` -/
  cygwin_conv_size : Str → Int
  /-- the call `cygwin_conv_path(CCP_POSIX_TO_WIN_A | CCP_RELATIVE, path, buf, MAX_PATH-3)`:
  the value returned and the string left in `buf` -/
  cygwin_conv : Str → Int × Str
  /-- the text of `strerror(errno)` after a failed call on the given string -/
  strerror : Str → Str

/-- The macro `WEXITSTATUS(ret)`, that is `(ret >> 8) & 0xff`, for `ret >= 0`. -/
def WEXITSTATUS (ret : Int) : Nat := ret.toNat / 256 % 256

/-! ## do_expand (lines 414–486) -/

/-- The loops of `do_expand` from the state `(src, dest, len)`; the flag tells
whether control is inside the `do ... while (*src == BSLASH)` loop (lines
444–452) or at the head of the outer `while`.  Returns the state in which the
outer loop is left. -/
def expand_loop : Str → Bool → Str → Nat → Str × Str × Nat
  | [], _, dest, len => ([], dest, len)
  | c :: src, false, dest, len =>
    -- while (*src && len < MAX_EXPAND)
    if len < MAX_EXPAND then
      if c = BSLASH then
        -- copy backslash
        if len + 1 ≥ MAX_EXPAND then (src, dest ++ [c], len + 1)
        else
          match src with
          | c1 :: _ =>
            if c1 = BSLASH then
              -- already expanded: copy all consecutive backslashes
              expand_loop src true (dest ++ [c]) (len + 1)
            else if len + 2 ≥ MAX_EXPAND then (src, dest ++ [c, BSLASH], len + 2)
            else expand_loop src false (dest ++ [c, BSLASH]) (len + 2)
          | [] =>
            if len + 2 ≥ MAX_EXPAND then (src, dest ++ [c, BSLASH], len + 2)
            else expand_loop src false (dest ++ [c, BSLASH]) (len + 2)
      else
        expand_loop src false (dest ++ [c]) (len + 1)
    else (c :: src, dest, len)
  | c :: src, true, dest, len =>
    -- body of the do/while: *dest++ = *src++; if (++len >= MAX_EXPAND) break;
    if len + 1 ≥ MAX_EXPAND then (src, dest ++ [c], len + 1)
    else
      match src with
      | c1 :: _ =>
        if c1 = BSLASH then expand_loop src true (dest ++ [c]) (len + 1)
        else expand_loop src false (dest ++ [c]) (len + 1)
      | [] => expand_loop src false (dest ++ [c]) (len + 1)

/-- The call `do_expand(argument)`: the string returned. -/
def do_expand (g_winpath : Bool) (argument : Str) (t : Trace) : Outcome Str :=
  if g_winpath then
    match expand_loop argument false [] 0 with
    | (src, dest, len) =>
      if src ≠ [] then
        .exit EXIT_FAILURE
          (t.print .stderr ("ERROR: Truncated during expansion string is too long [".toList
            ++ dec argument.length ++ ['/'] ++ dec MAX_EXPAND ++ [']', NL]))
      else
        -- *dest = 0, at g_expand[len]
        .cont dest (t.access .g_expand len MAX_EXPAND)
  else
    .cont argument t

/-! ## dequote_path and convert_path (lines 489–575) -/

/-- The loop of `dequote_path` from the state `(src, dest, len, quoted)`. -/
def dequote_loop : Str → Str → Nat → Bool → Str × Str × Nat × Bool
  | [], dest, len, quoted => ([], dest, len, quoted)
  | c :: src, dest, len, quoted =>
    if len < MAX_PATH then
      if c ≠ BSLASH ∨ (src.head? ≠ some ' ' ∧ src.head? ≠ some '(' ∧ src.head? ≠ some ')') then
        dequote_loop src (dest ++ [c]) (len + 1) quoted
      else
        dequote_loop src dest len true
    else (c :: src, dest, len, quoted)

/-- The call `dequote_path(winpath)`: the value returned and the string left
in `g_dequoted`. -/
def dequote_path (winpath : Str) (t : Trace) : Outcome (Bool × Str) :=
  match dequote_loop winpath [] 0 false with
  | (src, dest, len, quoted) =>
    if src ≠ [] ∨ len ≥ MAX_PATH then
      .exit EXIT_FAILURE (t.print .stderr ("# ERROR: Path truncated".toList ++ [NL]))
    else
      .cont (quoted, dest) (t.access .g_dequoted len MAX_PATH)

/-- The store `buf[i] = c` into `g_posixpath`; `none` is the NUL byte. -/
def poke (buf : List (Option Char)) (i : Int) (c : Option Char) (t : Trace) :
    List (Option Char) × Trace :=
  (if 0 ≤ i then buf.set i.toNat c else buf, t.access .g_posixpath i MAX_PATH)

/-- The C string that starts at `buf[off]`. -/
def cstr_at (buf : List (Option Char)) (off : Nat) : Str :=
  ((buf.drop off).takeWhile Option.isSome).filterMap id

/-- The call `convert_path(path)`: the string returned.  The bytes of
`g_posixpath` that the conversion does not write are taken as NUL. -/
def convert_path (h : Host) (g : Globals) (path : Str) (t : Trace) : Outcome Str :=
  if g.g_winpath then
    (dequote_path path t).bind fun r t1 =>
      let quoted := r.1
      let g_dequoted := r.2
      let size := h.cygwin_conv_size g_dequoted
      if size > (MAX_PATH : Int) - 3 then
        .exit EXIT_FAILURE
          (t1.print .stderr ("# ERROR: POSIX path too long: ".toList ++ dec size ++ [NL]))
      else
        let conv := h.cygwin_conv g_dequoted
        if conv.1 < 0 then
          .exit EXIT_FAILURE
            (t1.print .stderr ("# ERROR: cygwin_conv_path '".toList ++ g_dequoted
              ++ "' failed: ".toList ++ h.strerror g_dequoted ++ [NL]))
        else
          let buf0 : List (Option Char) :=
            ((none :: (conv.2.take (MAX_PATH - 4)).map some) ++ List.replicate MAX_PATH none).take
              MAX_PATH
          if quoted then
            let size1 := size + 1
            let b1 := poke buf0 0 (some DQUOTE) t1
            let b2 := poke b1.1 size1 (some DQUOTE) b1.2
            let b3 := poke b2.1 (size1 + 1) none b2.2
            .cont (cstr_at b3.1 0) b3.2
          else
            let b3 := poke buf0 (size + 1) none t1
            .cont (cstr_at b3.1 1) b3.2
  else
    .cont path t

/-! ## do_dependency (lines 577–824) -/

/-- The function `basename` of `<libgen.h>` (POSIX; a host library function):
trailing slashes are dropped and the text after the last remaining slash is
returned; the empty string gives `.` and a string of slashes gives `/`. -/
def basename (path : Str) : Str :=
  if path = [] then ['.']
  else
    let stripped := (path.reverse.dropWhile (fun c => c = '/')).reverse
    if stripped = [] then ['/']
    else (stripped.reverse.takeWhile (fun c => c ≠ '/')).reverse

/-- Lines 626–630: `objname` cut at the position found by `strrchr(objname, '.')`. -/
def cut_last_dot (objname : Str) : Str :=
  if '.' ∈ objname then (objname.reverse.dropWhile (fun c => c ≠ '.')).tail.reverse
  else objname

/-- Line 594: the path separator. -/
def separator (g : Globals) : Char :=
  if g.g_winnative || g.g_winpath then BSLASH else '/'

/-- The string constant `moption`. -/
def moption : Str := " -M ".toList

/-- Lines 618–633: the contents of `tmp` after the `snprintf`. -/
def target_option (h : Host) (g : Globals) (objpath file : Str) : Str :=
  snprintf (h.NAME_MAX + 6)
    (" -MT ".toList ++ objpath ++ [separator g] ++ cut_last_dot (basename file)
      ++ g.g_suffix ++ [' '])

/-- The message `<what> string is too long [cmdlen/MAX_BUFFER]: <text>`. -/
def too_long (what : Str) (len : Nat) (text : Str) : Str :=
  "ERROR: ".toList ++ what ++ " string is too long [".toList ++ dec len ++ ['/']
    ++ dec MAX_BUFFER ++ "]: ".toList ++ text ++ [NL]

/-- Lines 596–683 of `do_dependency`: the command buffer `g_command` and the
counter `cmdlen` up to and including the space that follows the flags. -/
def build_command (h : Host) (g : Globals) (file : Str) (t : Trace) : Outcome (Str × Nat) :=
  match g.g_cc with
  | none => .fault t
  | some cc =>
    -- copy the compiler into the command buffer
    if cc.length ≥ MAX_BUFFER then
      .exit EXIT_FAILURE (t.print .stderr (too_long "Compiler".toList cc.length cc))
    else
      let t0 := t.access .g_command cc.length MAX_BUFFER
      -- copy " -MT "
      (match g.g_objpath with
        | some objpath =>
          (do_expand g.g_winpath (target_option h g objpath file) t0).bind fun expanded t1 =>
            let cmdlen := cc.length + expanded.length
            if cmdlen ≥ MAX_BUFFER then
              .exit EXIT_FAILURE (t1.print .stderr (too_long "Option".toList cmdlen moption))
            else
              .cont (cc ++ expanded, cmdlen)
                (t1.access .g_command (cc ++ expanded).length MAX_BUFFER)
        | none => .cont (cc, cc.length) t0).bind fun c1 t1 =>
      -- copy " -M "
      let cmdlen2 := c1.2 + moption.length
      if cmdlen2 ≥ MAX_BUFFER then
        .exit EXIT_FAILURE (t1.print .stderr (too_long "Option".toList cmdlen2 moption))
      else
        let t2 := t1.access .g_command (c1.1 ++ moption).length MAX_BUFFER
        -- copy the CFLAGS into the command buffer
        (match g.g_cflags with
          | some cflags =>
            (do_expand g.g_winpath cflags t2).bind fun expanded t3 =>
              let cmdlen3 := cmdlen2 + expanded.length
              if cmdlen3 ≥ MAX_BUFFER then
                .exit EXIT_FAILURE (t3.print .stderr (too_long "CFLAG".toList cmdlen3 cflags))
              else
                .cont (c1.1 ++ moption ++ expanded, cmdlen3)
                  (t3.access .g_command (c1.1 ++ moption ++ expanded).length MAX_BUFFER)
          | none => .cont (c1.1 ++ moption, cmdlen2) t2).bind fun c3 t3 =>
        -- add a space: g_command[cmdlen] = ' '; cmdlen++; g_command[cmdlen] = 0
        .cont (if c3.2 ≤ c3.1.length then c3.1.take c3.2 ++ [' '] else c3.1, c3.2 + 1)
          ((t3.access .g_command c3.2 MAX_BUFFER).access .g_command (c3.2 + 1 : Nat) MAX_BUFFER)

/-- Lines 766–819 of `do_dependency`: the file was found at `g_path`; its
expanded path is appended to the command, which is then run. -/
def execute (h : Host) (g : Globals) (g_command : Str) (cmdlen : Nat) (g_path : Str)
    (t : Trace) : Outcome Unit :=
  -- append the expanded path to the command
  (do_expand g.g_winpath g_path t).bind fun expanded t5 =>
    let totallen := cmdlen + expanded.length
    if totallen ≥ MAX_BUFFER then
      .exit EXIT_FAILURE (t5.print .stderr (too_long "Path".toList totallen g_path))
    else
      let command := g_command ++ expanded
      let t6 := t5.access .g_command command.length MAX_BUFFER
      let t7 := if g.g_debug ≠ 0 then
          t6.print .stderr ("Executing: ".toList ++ command ++ [NL])
        else t6
      let ret := h.system t7.cmds command
      let t8 := t7.ran command
      if ret < 0 ∨ (h.have_WEXITSTATUS = true ∧ WEXITSTATUS ret ≠ 0) then
        let t9 := if ret < 0 then
            t8.print .stderr ("ERROR: system failed: ".toList ++ h.strerror command ++ [NL])
          else
            t8.print .stderr ("ERROR: ".toList ++ g.g_cc.getD [] ++ " failed: ".toList
              ++ dec (WEXITSTATUS ret) ++ [NL])
        .exit EXIT_FAILURE (t9.print .stderr ("       command: ".toList ++ command ++ [NL]))
      else
        -- we don't really know that the command succeeded; assume that it did
        .cont () t8

/-- Lines 717–730: `g_path` after the separator has been added to the
directory `path` when its last character is not the separator. -/
def with_separator (g : Globals) (path : Str) : Str :=
  if path.getLast? ≠ some (separator g) then path ++ [separator g] else path

/-- Lines 717–730: the counter `pathlen` after the separator has been added. -/
def sep_len (g : Globals) (path : Str) : Nat :=
  if path.getLast? ≠ some (separator g) then path.length + 1 else path.length

/-- Lines 717–730: the accesses to `g_path`: the NUL that ends `strcpy(g_path, path)`
at `g_path[pathlen]`, the test of `g_path[pathlen-1]` and, when the separator is
added, the stores `g_path[pathlen] = separator` and `g_path[pathlen+1] = 0`. -/
def sep_trace (g : Globals) (path : Str) (t : Trace) : Trace :=
  let t0 := (t.access .g_path path.length MAX_PATH).access .g_path
    ((path.length : Int) - 1) MAX_PATH
  if path.getLast? ≠ some (separator g) then
    (t0.access .g_path path.length MAX_PATH).access .g_path (path.length + 1 : Nat) MAX_PATH
  else t0

/-- Lines 741–749: the NUL that ends `strcat(g_path, file)` and the debug line. -/
def try_trace (g : Globals) (path file : Str) (t : Trace) : Trace :=
  let g_path := with_separator g path ++ file
  let t2 := (sep_trace g path t).access .g_path g_path.length MAX_PATH
  if g.g_debug ≠ 0 then
    t2.print .stderr ("Trying path=".toList ++ path ++ " file=".toList ++ file
      ++ " fullpath=".toList ++ g_path ++ [NL])
  else t2

/-- The `while` loop of `do_dependency` (lines 702–820) over the tokens of the
copy of `g_altpath`, followed by lines 822–823. -/
def search (h : Host) (g : Globals) (file : Str) (g_command : Str) (cmdlen : Nat) :
    List Str → Trace → Outcome Unit
  | [], t =>
    .exit EXIT_FAILURE
      (t.print .stdout ("# ERROR: File ".toList ++ [DQUOTE] ++ file ++ [DQUOTE]
        ++ " not found at any location".toList ++ [NL]))
  | path :: rest, t =>
    -- create a full path to the file
    if path.length ≥ MAX_PATH then
      .exit EXIT_FAILURE
        (t.print .stderr ("ERROR: Path is too long [".toList ++ dec path.length ++ ['/']
          ++ dec MAX_PATH ++ "]: ".toList ++ path ++ [NL]))
    else if sep_len g path + file.length ≥ MAX_PATH then
      .exit EXIT_FAILURE
        ((sep_trace g path t).print .stderr ("ERROR: Path+file is too long [".toList
          ++ dec (sep_len g path + file.length) ++ ['/'] ++ dec MAX_PATH ++ [']', NL]))
    else
      -- check that a file actually exists at this path
      (convert_path h g (with_separator g path ++ file) (try_trace g path file t)).bind
        fun converted t4 =>
          match h.stat t4.cmds converted with
          | .fail => search h g file g_command cmdlen rest t4
          | .other =>
            .exit EXIT_FAILURE
              (t4.print .stderr ("ERROR: File ".toList ++ (with_separator g path ++ file)
                ++ " exists but is not a regular file".toList ++ [NL]))
          | .regular => execute h g g_command cmdlen (with_separator g path ++ file) t4

/-- The call `do_dependency(file)`. -/
def do_dependency (h : Host) (g : Globals) (file : Str) (t : Trace) : Outcome Unit :=
  (build_command h g file t).bind fun c t1 =>
    match g.g_altpath with
    | none => .fault t1
    | some altpath => search h g file c.1 c.2 (strtok_all altpath) t1

/-! ## main (lines 830–857) -/

/-- The body of the `while` loop of `main`, once per token of `g_files`. -/
def main_loop (h : Host) (g : Globals) : List Str → Trace → Outcome Unit
  | [], t => .cont () t
  | file :: rest, t => (do_dependency h g file t).bind fun _ t1 => main_loop h g rest t1

/-- The program: the value returned by `main`, or the `exit` that ended it. -/
def main (h : Host) (argv : List Str) : Outcome Int :=
  (parse_args argv Globals.init Trace.empty).bind fun g t =>
    match g.g_files with
    | none => .fault t
    | some files => (main_loop h g (strtok_all files) t).bind fun _ t1 => .cont EXIT_SUCCESS t1

/-! ## Specification-side notions -/

/-- Tokens joined by single spaces. -/
def join_tokens (l : List Str) : Str := List.intercalate [' '] l

/-- The accumulated value of a list of tokens: `NULL` when there is none. -/
def join_opt (l : List Str) : Option Str :=
  if l = [] then none else some (join_tokens l)

/-- The option names that `parse_args` recognises, and the separator. -/
def reserved : List Str :=
  ["--".toList, "--dep-debug".toList, "--dep-path".toList, "--obj-path".toList,
   "--obj-suffix".toList, "--winnative".toList, "--winpath".toList, "--help".toList]

/-- The maximal space-free non-empty pieces of a string, in order. -/
def pieces (s : Str) : List Str := (s.splitOn ' ').filter (fun p => !p.isEmpty)

/-- A host for the worked examples: the regular files are `./a.c`, `./b.c` and
`d2/src/foo.c`, every other path is absent, and every command succeeds. -/
def host_demo : Host where
  NAME_MAX := 255
  have_WEXITSTATUS := true
  stat := fun _ p =>
    if p = "./a.c".toList ∨ p = "./b.c".toList ∨ p = "d2/src/foo.c".toList then StatRes.regular
    else StatRes.fail
  system := fun _ _ => 0
  cygwin_conv_size := fun p => p.length + 1
  cygwin_conv := fun p => (0, p)
  strerror := fun _ => []

/-- The meaning of the tokens of `argv[1..]`, as `parse_args` reads them. -/
inductive Item
  /-- the separator `--` -/
  | sep
  /-- the option `--dep-debug` -/
  | debug
  /-- the option `--dep-path` with its value -/
  | dep_path (val : Str)
  /-- the option `--obj-path` with its value -/
  | obj_path (val : Str)
  /-- the option `--obj-suffix` with its value -/
  | obj_suffix (val : Str)
  /-- the option `--winnative` -/
  | winnative
  /-- the option `--winpath` -/
  | winpath
  /-- the option `--help` -/
  | help
  /-- an option that expects a value, as the last token -/
  | missing (opt : Str)
  /-- any other token -/
  | plain (tok : Str)
deriving DecidableEq, Repr

/-- The tokens of `argv[1..]` read from left to right: an option that takes a
value consumes the next token, whatever it is. -/
def decode : List Str → List Item
  | [] => []
  | arg :: rest =>
    if arg = "--".toList then .sep :: decode rest
    else if arg = "--dep-debug".toList then .debug :: decode rest
    else if arg = "--dep-path".toList then
      match rest with
      | [] => [.missing arg]
      | val :: rest1 => .dep_path val :: decode rest1
    else if arg = "--obj-path".toList then
      match rest with
      | [] => [.missing arg]
      | val :: rest1 => .obj_path val :: decode rest1
    else if arg = "--obj-suffix".toList then
      match rest with
      | [] => [.missing arg]
      | val :: rest1 => .obj_suffix val :: decode rest1
    else if arg = "--winnative".toList then .winnative :: decode rest
    else if arg = "--winpath".toList then .winpath :: decode rest
    else if arg = "--help".toList then .help :: decode rest
    else .plain arg :: decode rest

/-- The effect of the items on the local `args` and the globals. -/
def parse_items (progname : Str) :
    List Item → Option Str → Globals → Trace → Outcome (Option Str × Globals)
  | [], args, g, t => .cont (args, g) t
  | .sep :: rest, args, g, t =>
    parse_items progname rest none { g with g_cc := g.g_cflags, g_cflags := args } t
  | .debug :: rest, args, g, t =>
    parse_items progname rest args { g with g_debug := g.g_debug + 1 } t
  | .dep_path val :: rest, args, g, t =>
    if args.isSome then parse_items progname rest (append args val) g t
    else parse_items progname rest args { g with g_altpath := append g.g_altpath val } t
  | .obj_path val :: rest, args, g, t =>
    parse_items progname rest args { g with g_objpath := some val } t
  | .obj_suffix val :: rest, args, g, t =>
    parse_items progname rest args { g with g_suffix := val } t
  | .winnative :: rest, args, g, t =>
    parse_items progname rest args { g with g_winnative := true } t
  | .winpath :: rest, args, g, t =>
    parse_items progname rest args { g with g_winpath := true } t
  | .help :: _, _, _, t => show_usage progname none EXIT_SUCCESS t
  | .missing opt :: _, _, _, t =>
    show_usage progname (some ("ERROR: Missing argument to ".toList ++ opt)) EXIT_FAILURE t
  | .plain tok :: rest, args, g, t => parse_items progname rest (append args tok) g t

/-- The values of the `--dep-path` options met while nothing is accumulated
in the current segment (no ordinary token since the start or since the last
`--`); `acc` tells whether something is accumulated when the scan starts. -/
def search_dirs : List Item → Bool → List Str
  | [], _ => []
  | .sep :: rest, _ => search_dirs rest false
  | .dep_path val :: rest, false => val :: search_dirs rest false
  | .dep_path _ :: rest, true => search_dirs rest true
  | .plain _ :: rest, _ => search_dirs rest true
  | .help :: _, _ => []
  | .missing _ :: _, _ => []
  | .debug :: rest, acc => search_dirs rest acc
  | .obj_path _ :: rest, acc => search_dirs rest acc
  | .obj_suffix _ :: rest, acc => search_dirs rest acc
  | .winnative :: rest, acc => search_dirs rest acc
  | .winpath :: rest, acc => search_dirs rest acc

/-- The expansion as the specification words it, character by character: a
backslash whose neighbours are not backslashes (a maximal run of length one)
becomes two backslashes, every other character is kept.  `prev` is the
character before the string. -/
def expand_spec_aux (prev : Option Char) : Str → Str
  | [] => []
  | c :: rest =>
    (if c = BSLASH ∧ prev ≠ some BSLASH ∧ rest.head? ≠ some BSLASH then [BSLASH, BSLASH]
     else [c]) ++ expand_spec_aux (some c) rest

/-- The expansion of a whole string. -/
def expand_spec (s : Str) : Str := expand_spec_aux none s

/-- No backslash of the string stands alone: every maximal run of backslashes
has length at least two.  `prev` is the character before the string. -/
def no_lone_backslash (prev : Option Char) : Str → Prop
  | [] => True
  | c :: rest =>
    ¬ (c = BSLASH ∧ prev ≠ some BSLASH ∧ rest.head? ≠ some BSLASH)
      ∧ no_lone_backslash (some c) rest

/-- The trace `a` followed by the trace `b`. -/
def Trace.append (a b : Trace) : Trace :=
  ⟨a.out ++ b.out, a.cmds ++ b.cmds, a.oob ++ b.oob⟩

/-- The outcome `o` of a piece of code that started after the trace `t`. -/
def Outcome.after {α : Type} (t : Trace) : Outcome α → Outcome α
  | .cont a e => .cont a (t.append e)
  | .exit c e => .exit c (t.append e)
  | .fault e => .fault (t.append e)

/-- What the search loop learns about the candidate path `p` after the
commands `cmds`: the answer of `stat` on the converted path, or `none` when
`convert_path` ends the run. -/
def probe (h : Host) (g : Globals) (cmds : List Str) (p : Str) : Option StatRes :=
  match convert_path h g p Trace.empty with
  | .cont c _ => some (h.stat cmds c)
  | _ => none

/-- The text that `do_expand` inserts for `s` when the expansion fits. -/
def expansion (w : Bool) (s : Str) : Str := if w then expand_spec s else s

/-- The candidate path for `file` in the search directory `dir`: the
directory, then the separator unless the directory already ends with it,
then the file name. -/
def candidate (g : Globals) (dir file : Str) : Str :=
  dir ++ (if dir.getLast? = some (separator g) then [] else [separator g]) ++ file

/-- The directory and the candidate path are short enough for `g_path`
(the tests of lines 710 and 734 pass). -/
def path_fits (g : Globals) (dir file : Str) : Prop :=
  dir.length < MAX_PATH ∧ (candidate g dir file).length < MAX_PATH

/-- The test of lines 793 and 808 on the value returned by `system()` passes. -/
def system_ok (h : Host) (ret : Int) : Prop :=
  ¬ (ret < 0 ∨ (h.have_WEXITSTATUS = true ∧ WEXITSTATUS ret ≠ 0))

instance (h : Host) (ret : Int) : Decidable (system_ok h ret) := by
  unfold system_ok; infer_instance

instance (g : Globals) (dir file : Str) : Decidable (path_fits g dir file) := by
  unfold path_fits; infer_instance

/-- The `-MT` part of the command: the expanded contents of `tmp` when an
object directory is configured, nothing otherwise. -/
def target_part (h : Host) (g : Globals) (file : Str) : Str :=
  match g.g_objpath with
  | some objpath => expansion g.g_winpath (target_option h g objpath file)
  | none => []

/-- The flags part of the command: the expanded flags, nothing when there
are none. -/
def flags_part (g : Globals) : Str :=
  match g.g_cflags with
  | some cflags => expansion g.g_winpath cflags
  | none => []

/-- The expansions of the `-MT` part and of the flags fit `g_expand`. -/
def expand_fits (h : Host) (g : Globals) (file : Str) : Prop :=
  g.g_winpath = true →
    (∀ objpath, g.g_objpath = some objpath →
      (expand_spec (target_option h g objpath file)).length < MAX_EXPAND)
    ∧ (∀ cflags, g.g_cflags = some cflags → (expand_spec cflags).length < MAX_EXPAND)

/-- The outcome is a return or an `exit(EXIT_FAILURE)`. -/
def Outcome.cont_or_failure {α : Type} : Outcome α → Prop
  | .cont _ _ => True
  | .exit c _ => c = EXIT_FAILURE
  | .fault _ => False

/-- The code passed to `exit`, when the outcome is an exit. -/
def Outcome.status {α : Type} : Outcome α → Option Int
  | .exit c _ => some c
  | _ => none

/-- The value returned, when the outcome is a return. -/
def Outcome.result {α : Type} : Outcome α → Option α
  | .cont a _ => some a
  | _ => none

/-- The `-MT` text that `snprintf` formats into `tmp` (line 632). -/
def target_text (g : Globals) (objpath file : Str) : Str :=
  " -MT ".toList ++ objpath ++ [separator g] ++ cut_last_dot (basename file) ++ g.g_suffix ++ [' ']

/-- The configuration `--obj-path /out --obj-suffix .obj gcc -- -- src/foo.c`
with the search directories `d1` and `d2`. -/
def globals_demo : Globals :=
  { Globals.init with
      g_cc := some "gcc".toList, g_objpath := some "/out".toList, g_suffix := ".obj".toList,
      g_files := some "src/foo.c".toList, g_altpath := some "d1 d2".toList }

/-- A host of the Windows-path mode: the conversion returns its argument, the
regular files are `.\\a.c` and `d2\\a.c` (one backslash each), every command
succeeds. -/
def host_win : Host where
  NAME_MAX := 255
  have_WEXITSTATUS := true
  stat := fun _ p =>
    if p = ['.', BSLASH, 'a', '.', 'c'] ∨ p = ['d', '2', BSLASH, 'a', '.', 'c'] then
      StatRes.regular
    else StatRes.fail
  system := fun _ _ => 0
  cygwin_conv_size := fun p => p.length + 1
  cygwin_conv := fun p => (0, p)
  strerror := fun _ => []

/-- A host on which `d1/a.c` is a directory and `d2/a.c` a regular file. -/
def host_dir : Host where
  NAME_MAX := 255
  have_WEXITSTATUS := true
  stat := fun _ p =>
    if p = "d1/a.c".toList then StatRes.other
    else if p = "d2/a.c".toList then StatRes.regular
    else StatRes.fail
  system := fun _ _ => 0
  cygwin_conv_size := fun p => p.length + 1
  cygwin_conv := fun p => (0, p)
  strerror := fun _ => []

/-- The configuration `--winpath cl -- -Ia\\b --` (one backslash in the flag)
with the default search directory. -/
def globals_win : Globals :=
  { Globals.init with
      g_cc := some "cl".toList, g_cflags := some ("-Ia".toList ++ [BSLASH, 'b']),
      g_files := some "a.c".toList, g_altpath := some ".".toList, g_winpath := true }

/-- The configuration `gcc -- --` with the search directories `d1` and `d2`. -/
def globals_two_dirs : Globals :=
  { Globals.init with
      g_cc := some "gcc".toList, g_files := some "a.c".toList,
      g_altpath := some "d1 d2".toList }

/-- The configuration `gcc -- --` whose first search directory has `MAX_PATH`
characters and whose second is `d2`. -/
def globals_long_dir : Globals :=
  { Globals.init with
      g_cc := some "gcc".toList, g_files := some "a.c".toList,
      g_altpath := some (List.replicate MAX_PATH 'x' ++ " d2".toList) }

/-- The message of line 822. -/
def not_found_message (file : Str) : Str :=
  "# ERROR: File ".toList ++ [DQUOTE] ++ file ++ [DQUOTE]
    ++ " not found at any location".toList ++ [NL]

/-- The configuration `--winpath cl -- --` with the search directories `d1`
and `d2`. -/
def globals_win_two_dirs : Globals :=
  { Globals.init with
      g_cc := some "cl".toList, g_files := some "a.c".toList,
      g_altpath := some "d1 d2".toList, g_winpath := true }

/-- A host on which no file exists. -/
def host_none : Host where
  NAME_MAX := 255
  have_WEXITSTATUS := true
  stat := fun _ _ => StatRes.fail
  system := fun _ _ => 0
  cygwin_conv_size := fun p => p.length + 1
  cygwin_conv := fun p => (0, p)
  strerror := fun _ => []

/-- The tokens that a segment holds after one more item: an ordinary token
joins it, and so does the value of a `--dep-path` option met while the
segment is not empty. -/
def segment_step (cur : List Str) : Item → List Str
  | .plain tok => cur ++ [tok]
  | .dep_path val => if cur = [] then [] else cur ++ [val]
  | _ => cur

/-- The segments into which the separators `--` split the command line, the
current segment holding `cur` when the scan starts. -/
def segments_from : List Str → List Item → List (List Str)
  | cur, [] => [cur]
  | cur, .sep :: rest => cur :: segments_from [] rest
  | cur, it :: rest => segments_from (segment_step cur it) rest

/-- The segments `s0, ..., sk` of a command line with `k` separators. -/
def segments (items : List Item) : List (List Str) := segments_from [] items

/-- The segments made of the ordinary tokens alone. -/
def plain_segments : List Item → List (List Str)
  | [] => [[]]
  | .sep :: rest => [] :: plain_segments rest
  | .plain tok :: rest =>
    match plain_segments rest with
    | [] => [[tok]]
    | s :: ss => (tok :: s) :: ss
  | _ :: rest => plain_segments rest

/-- The last segment `sk`: the file list. -/
def files_segment (items : List Item) : Option (List Str) := (segments items).getLast?

/-- The segment `s(k-1)`: the flags. -/
def flags_segment (items : List Item) : Option (List Str) :=
  (segments items).dropLast.getLast?

/-- The segment `s(k-2)`: the compiler. -/
def compiler_segment (items : List Item) : Option (List Str) :=
  (segments items).dropLast.dropLast.getLast?

/-- An item at which the scan of the command line stops: `--help`, or an
option that misses its value. -/
def Item.stops : Item → Bool
  | .help => true
  | .missing _ => true
  | _ => false

/-- An option that misses its value: it is the last token of the line. -/
def Item.dangling : Item → Bool
  | .missing _ => true
  | _ => false

/-- No option of the command line misses its value. -/
def no_dangling (items : List Item) : Prop := ∀ it ∈ items, it.dangling = false

instance (items : List Item) : Decidable (no_dangling items) := by
  unfold no_dangling
  infer_instance

/-- The scan of the command line reaches its end: no `--help` and no option
that misses its value. -/
def scans_to_end (items : List Item) : Prop := ∀ it ∈ items, it.stops = false

instance (items : List Item) : Decidable (scans_to_end items) := by
  unfold scans_to_end
  infer_instance

/-- The options that take a value from the next token. -/
def value_options : List Str :=
  ["--dep-path".toList, "--obj-path".toList, "--obj-suffix".toList]

/-- The token of the command line that an item starts with. -/
def Item.token : Item → Str
  | .sep => "--".toList
  | .debug => "--dep-debug".toList
  | .dep_path _ => "--dep-path".toList
  | .obj_path _ => "--obj-path".toList
  | .obj_suffix _ => "--obj-suffix".toList
  | .winnative => "--winnative".toList
  | .winpath => "--winpath".toList
  | .help => "--help".toList
  | .missing opt => opt
  | .plain tok => tok

/-- The outcome is a usage error: a message and the usage text on the
standard error, then `exit(EXIT_FAILURE)`. -/
def is_usage_error {α : Type} (progname : Str) (o : Outcome α) : Prop :=
  ∃ (msg : Str) (t : Trace), o = show_usage progname (some msg) EXIT_FAILURE t

/-- The globals that `parse_args` leaves: the file list is set and the
search directories default to the current directory. -/
def finish_globals (args : Option Str) (g0 : Globals) : Globals :=
  if g0.g_altpath.isNone then { g0 with g_files := args, g_altpath := some ['.'] }
  else { g0 with g_files := args }

/-- The trace after the debug listing of `parse_args`. -/
def finish_trace (args : Option Str) (g0 : Globals) (t : Trace) : Trace :=
  if (finish_globals args g0).g_debug ≠ 0 then t.errs (selections (finish_globals args g0)) else t

/-- The item is a `--dep-path` option with its value. -/
def Item.is_dep_path : Item → Bool
  | .dep_path _ => true
  | _ => false

/-- The command line has no `--dep-path` option. -/
def no_dep_path (items : List Item) : Prop := ∀ it ∈ items, it.is_dep_path = false

instance (items : List Item) : Decidable (no_dep_path items) := by
  unfold no_dep_path
  infer_instance

/-- The globals after `mkdeps A -- B -- C -- f`. -/
def globals_abc : Globals :=
  { Globals.init with
      g_cc := some "B".toList, g_cflags := some "C".toList, g_files := some "f".toList,
      g_altpath := some ".".toList }

/-- What one call of `do_dependency` after the commands `cmds` may do: return
after exactly one command whose result passes the test, or end the run with
`EXIT_FAILURE` after no command or after one command whose result fails the
test. -/
def one_command (h : Host) (cmds : List Str) : Outcome Unit → Prop
  | .cont _ t1 => ∃ c, t1.cmds = cmds ++ [c] ∧ system_ok h (h.system cmds c)
  | .exit code t1 =>
    code = EXIT_FAILURE
    ∧ (t1.cmds = cmds ∨ ∃ c, t1.cmds = cmds ++ [c] ∧ ¬ system_ok h (h.system cmds c))
  | .fault _ => False

/-- A host on which `./a.c` is a regular file and every command is killed by
signal 9: `system()` returns the wait status 9. -/
def host_signal : Host where
  NAME_MAX := 255
  have_WEXITSTATUS := true
  stat := fun _ p => if p = "./a.c".toList then StatRes.regular else StatRes.fail
  system := fun _ _ => 9
  cygwin_conv_size := fun p => p.length + 1
  cygwin_conv := fun p => (0, p)
  strerror := fun _ => []

/-- The configuration `gcc -- -- a.c` with the default search directory. -/
def globals_plain : Globals :=
  { Globals.init with
      g_cc := some "gcc".toList, g_files := some "a.c".toList, g_altpath := some ".".toList }

/-- The configuration `--obj-path ooo...o gcc -- -- a.c` whose object
directory has 300 characters. -/
def globals_long_objpath : Globals :=
  { Globals.init with
      g_cc := some "gcc".toList, g_objpath := some (List.replicate 300 'o'),
      g_files := some "a.c".toList, g_altpath := some ".".toList }

/-- Every character of a string with the character that follows it (`none`
after the last one). -/
def with_next (s : Str) : List (Char × Option Char) := s.zip (s.tail.map some ++ [none])

/-- A backslash that is immediately followed by a space, `(` or `)`. -/
def is_quoting (p : Char × Option Char) : Bool :=
  p.1 = BSLASH ∧ (p.2 = some ' ' ∨ p.2 = some '(' ∨ p.2 = some ')')

/-- The string without its quoting backslashes, every other character kept
in order. -/
def dequote_spec (s : Str) : Str :=
  ((with_next s).filter (fun p => !is_quoting p)).map Prod.fst

/-- The number of quoting backslashes of a string. -/
def quoting_count (s : Str) : Nat := ((with_next s).filter is_quoting).length

/-- The number of files at the head of the list that `do_dependency`
processes without failure (it returns), each one started after the commands
of the files before it. -/
def processed (h : Host) (g : Globals) : List Str → Trace → Nat
  | [], _ => 0
  | file :: rest, t =>
    match do_dependency h g file t with
    | .cont _ t1 => processed h g rest t1 + 1
    | _ => 0

/-- `file_by_file h g files t n cs o`: taking the files in the listed order
from the trace `t`, the first `n` files are processed without failure and
each of them runs exactly one command, whose result passes the test; the
run then ends with the outcome `o`, either because the list is exhausted or
because the next file fails with `EXIT_FAILURE`, before any command (search
or length failure) or after its command (failed compiler run); `cs` lists
the commands in the order in which they are run, and no command is run for
a later file. -/
inductive file_by_file (h : Host) (g : Globals) :
    List Str → Trace → Nat → List Str → Outcome Unit → Prop
  | all_done (t : Trace) : file_by_file h g [] t 0 [] (.cont () t)
  | file_ok (file : Str) (rest : List Str) (t t1 : Trace) (c : Str) (n : Nat) (cs : List Str)
      (o : Outcome Unit) :
      do_dependency h g file t = .cont () t1 → t1.cmds = t.cmds ++ [c] →
      system_ok h (h.system t.cmds c) →
      file_by_file h g rest t1 n cs o → file_by_file h g (file :: rest) t (n + 1) (c :: cs) o
  | file_failed (file : Str) (rest : List Str) (t t1 : Trace) (cs : List Str) :
      do_dependency h g file t = .exit EXIT_FAILURE t1 → t1.cmds = t.cmds ++ cs →
      (cs = [] ∨ ∃ c, cs = [c] ∧ ¬ system_ok h (h.system t.cmds c)) →
      file_by_file h g (file :: rest) t 0 cs (.exit EXIT_FAILURE t1)

/-- A run that ends with a non-zero status has written its last line to the
standard error, or that line is the "not found" line on the standard
output. -/
def Outcome.reported {α : Type} : Outcome α → Prop
  | .exit c t =>
    c ≠ 0 → (∃ x, t.out.getLast? = some (Stream.stderr, x))
      ∨ (∃ f, t.out.getLast? = some (Stream.stdout, not_found_message f))
  | _ => True

/-- An out-of-bounds access that is one past the end of its buffer when the
buffer is `g_command` or `g_path`: index `MAX_BUFFER` of `g_command`, index
`MAX_PATH` of `g_path` (accesses to the other buffers are not restricted). -/
def one_past_end (e : Buffer × Int) : Prop :=
  (e.1 = Buffer.g_command → e.2 = MAX_BUFFER) ∧ (e.1 = Buffer.g_path → e.2 = MAX_PATH)

instance (e : Buffer × Int) : Decidable (one_past_end e) := by
  unfold one_past_end
  infer_instance

/-- Every out-of-bounds access of the trace to `g_command` or `g_path` is one
past the end of the buffer. -/
def Trace.bounded (t : Trace) : Prop := ∀ e ∈ t.oob, one_past_end e

/-- The trace of the outcome is bounded. -/
def Outcome.bounded {α : Type} (o : Outcome α) : Prop := o.trace.bounded

/-- The outcome of a step that builds the command: its trace is bounded and,
when the step returns, the counter is the length of the text and is below
`lim`. -/
def cmd_ok (lim : Nat) : Outcome (Str × Nat) → Prop
  | .cont c t => c.1.length = c.2 ∧ c.2 < lim ∧ t.bounded
  | .exit _ t => t.bounded
  | .fault t => t.bounded

/-- The trace `t1` still holds every out-of-bounds access of the trace `t`. -/
def Trace.keeps (t t1 : Trace) : Prop := ∀ e ∈ t.oob, e ∈ t1.oob

/-- The trace of the outcome still holds every out-of-bounds access of `t`. -/
def Outcome.keeps {α : Type} (t : Trace) (o : Outcome α) : Prop := t.keeps o.trace

/-- The configuration `gcc -- -- a.c` whose compiler string has
`MAX_BUFFER - 5` characters, with the default search directory. -/
def globals_full_command : Globals :=
  { Globals.init with
      g_cc := some (List.replicate (MAX_BUFFER - 5) 'c'), g_files := some "a.c".toList,
      g_altpath := some ".".toList }

/-- The configuration `gcc -- -- a.c` whose only search directory has
`MAX_PATH - 1` characters. -/
def globals_full_dir : Globals :=
  { Globals.init with
      g_cc := some "gcc".toList, g_files := some "a.c".toList,
      g_altpath := some (List.replicate (MAX_PATH - 1) 'x') }

/-- The run has made no access outside a buffer: the log of the accesses at
an index outside the array they address is empty.  Past such an access the
behaviour of the C program is undefined (the byte belongs to a neighbouring
object), and the model, which goes on with every string intact, no longer
describes it. -/
def Outcome.in_bounds {α : Type} (o : Outcome α) : Prop := o.trace.oob = []

instance {α : Type} (o : Outcome α) : Decidable o.in_bounds := by
  unfold Outcome.in_bounds
  infer_instance

/-! ## Theorems -/

/-! ### Traces and outcomes -/

@[simp]
theorem Trace.print_cmds (t : Trace) (s : Stream) (x : Str) :
    (t.print s x).cmds = t.cmds := rfl

@[simp]
theorem Trace.errs_cmds (t : Trace) (l : List Str) : (t.errs l).cmds = t.cmds := rfl

@[simp]
theorem Trace.access_cmds (t : Trace) (b : Buffer) (i : Int) (cap : Nat) :
    (t.access b i cap).cmds = t.cmds := by
  unfold Trace.access; split_ifs <;> rfl

@[simp]
theorem Trace.ran_cmds (t : Trace) (c : Str) : (t.ran c).cmds = t.cmds ++ [c] := rfl

@[simp]
theorem Outcome.trace_cont {α : Type} (a : α) (t : Trace) :
    (Outcome.cont a t).trace = t := rfl

@[simp]
theorem Outcome.trace_exit {α : Type} (c : Int) (t : Trace) :
    (Outcome.exit c t : Outcome α).trace = t := rfl

@[simp]
theorem Outcome.trace_fault {α : Type} (t : Trace) :
    (Outcome.fault t : Outcome α).trace = t := rfl

@[simp]
theorem Outcome.bind_cont {α β : Type} (a : α) (t : Trace)
    (f : α → Trace → Outcome β) : (Outcome.cont a t).bind f = f a t := rfl

@[simp]
theorem Outcome.bind_exit {α β : Type} (c : Int) (t : Trace)
    (f : α → Trace → Outcome β) : (Outcome.exit c t : Outcome α).bind f = .exit c t := rfl

@[simp]
theorem Outcome.bind_fault {α β : Type} (t : Trace)
    (f : α → Trace → Outcome β) : (Outcome.fault t : Outcome α).bind f = .fault t := rfl

/-! ### append and the argument loop -/

theorem append_some (o s : Str) : append (some o) s = some (o ++ ' ' :: s) := by
  simp only [append, snprintf]
  congr 1
  have h : o.length + s.length + 2 - 1 = (o ++ [' '] ++ s).length := by
    simp; omega
  rw [h, List.take_left']
  · simp
  · rfl

theorem join_tokens_cons (a : Str) (l : List Str) :
    join_tokens (a :: l) = a ++ (l.map (fun x => ' ' :: x)).flatten := by
  induction l generalizing a with
  | nil => simp [join_tokens, List.intercalate]
  | cons b l ih =>
    have := ih b
    simp only [join_tokens, List.intercalate, List.intersperse, List.flatten_cons, List.map_cons] at this ⊢
    rw [this]; simp

theorem foldl_append_some (l : List Str) (s : Str) :
    l.foldl append (some s) = some (s ++ (l.map (fun x => ' ' :: x)).flatten) := by
  induction l generalizing s with
  | nil => simp
  | cons a l ih => simp [List.foldl_cons, append_some, ih]

theorem foldl_append_none (l : List Str) : l.foldl append none = join_opt l := by
  cases l with
  | nil => simp [join_opt]
  | cons a l =>
    simp [join_opt, List.foldl_cons, append, foldl_append_some, join_tokens_cons]

theorem parse_loop_plain (progname : Str) (l rest : List Str) (args : Option Str)
    (g : Globals) (t : Trace) (hl : ∀ a ∈ l, a ∉ reserved) :
    parse_loop progname (l ++ rest) args g t
      = parse_loop progname rest (l.foldl append args) g t := by
  induction l generalizing args with
  | nil => rfl
  | cons a l ih =>
    have ha := hl a (List.mem_cons_self _ _)
    simp only [reserved, List.mem_cons, List.mem_singleton, not_or, List.not_mem_nil,
      not_false_eq_true, and_true] at ha
    obtain ⟨h1, h2, h3, h4, h5, h6, h7, h8⟩ := ha
    rw [List.cons_append, parse_loop.eq_def]
    simp only [h1, h2, h3, h4, h5, h6, h7, h8, if_false]
    rw [ih _ (fun b hb => hl b (List.mem_cons_of_mem _ hb))]
    rfl

theorem isDelim_space (c : Char) : isDelim [' '] c = (c == ' ') := by
  cases h : (c == ' ') <;> simp [isDelim, List.contains, List.elem, h]

theorem pieces_cons_space (s : Str) : pieces (' ' :: s) = pieces s := by
  simp [pieces, List.splitOn, List.splitOnP_cons]

theorem pieces_spaces (s : Str) (h : ∀ c ∈ s, c = ' ') : pieces s = [] := by
  induction s with
  | nil => simp [pieces, List.splitOn]
  | cons a s ih =>
    have ha : a = ' ' := h a (List.mem_cons_self _ _)
    subst ha
    rw [pieces_cons_space]
    exact ih (fun c hc => h c (List.mem_cons_of_mem _ hc))

theorem pieces_word (w : Str) (hw : w ≠ []) (h : ∀ c ∈ w, c ≠ ' ') : pieces w = [w] := by
  have : w.splitOn ' ' = [w] := by
    rw [List.splitOn, List.splitOnP_eq_single]
    intro x hx; simpa using h x hx
  simp [pieces, this, hw]

theorem pieces_word_space (w rest : Str) (hw : w ≠ []) (h : ∀ c ∈ w, c ≠ ' ') :
    pieces (w ++ ' ' :: rest) = w :: pieces rest := by
  have : (w ++ ' ' :: rest).splitOn ' ' = w :: rest.splitOn ' ' := by
    rw [List.splitOn, List.splitOnP_first _ _ (by simpa using h) ' ' (by simp)]
    rfl
  simp [pieces, this, hw]

theorem pieces_dropWhile (s : Str) : pieces (s.dropWhile (fun c => c == ' ')) = pieces s := by
  induction s with
  | nil => rfl
  | cons a s ih =>
    by_cases ha : a = ' '
    · subst ha; simp [List.dropWhile_cons, pieces_cons_space, ih]
    · simp [List.dropWhile_cons, ha]

theorem isDelim_fun : isDelim [' '] = fun c => c == ' ' := funext isDelim_space

theorem strtok_loop_nil (fuel : Nat) : strtok_loop fuel none (some []) = [] := by
  cases fuel <;> simp [strtok_loop, MY_strtok_r]

theorem strtok_loop_eq (fuel : Nat) (s : Str) (h : s.length < fuel) :
    strtok_loop fuel none (some s) = pieces s := by
  induction fuel generalizing s with
  | zero => omega
  | succ fuel ih =>
    have hsplit := List.takeWhile_append_dropWhile (fun c => c == ' ') s
    have hlen : (s.dropWhile (fun c => c == ' ')).length ≤ s.length :=
      (List.dropWhile_sublist _).length_le
    rw [← pieces_dropWhile s]
    simp only [strtok_loop, MY_strtok_r, isDelim_fun]
    cases hp : s.dropWhile (fun c => c == ' ') with
    | nil => simp [pieces, List.splitOn]
    | cons c cs =>
      have hc : c ≠ ' ' := by
        have := List.head_dropWhile_not (fun c => c == ' ') s (by simp [hp])
        simpa [hp] using this
      rw [hp] at hlen
      have hw := List.takeWhile_append_dropWhile (fun x => !(x == ' ')) cs
      have htw : ∀ x ∈ c :: cs.takeWhile (fun x => !(x == ' ')), x ≠ ' ' := by
        intro x hx
        rcases List.mem_cons.1 hx with rfl | hx
        · exact hc
        · simpa using List.mem_takeWhile_imp hx
      cases hd : cs.dropWhile (fun x => !(x == ' ')) with
      | nil =>
        rw [hd, List.append_nil] at hw
        simp only [hd, strtok_loop_nil]
        rw [hw] at htw ⊢
        rw [pieces_word _ (by simp) htw]
      | cons d pend =>
        have hd2 : d = ' ' := by
          have := List.head_dropWhile_not (fun x => !(x == ' ')) cs (by simp [hd])
          simpa [hd] using this
        subst hd2
        rw [hd] at hw
        have hlen2 : pend.length < fuel := by
          have := congrArg List.length hw
          simp at this hlen; omega
        simp only [hd]
        rw [ih pend hlen2]
        have : c :: cs = (c :: cs.takeWhile (fun x => !(x == ' '))) ++ ' ' :: pend := by
          rw [List.cons_append, hw]
        rw [this, pieces_word_space _ _ (by simp) htw]

theorem strtok_loop_first (fuel : Nat) (s : Str) :
    strtok_loop fuel (some s) none = strtok_loop fuel none (some s) := by
  cases fuel with
  | zero => rfl
  | succ fuel =>
    simp only [strtok_loop, MY_strtok_r]
    cases s.dropWhile (isDelim [' ']) <;> rfl

/-- The `strtok_r` traversal visits exactly the pieces of the string. -/
theorem strtok_all_eq (s : Str) : strtok_all s = pieces s := by
  rw [strtok_all, strtok_loop_first, strtok_loop_eq _ _ (Nat.lt_succ_self _)]

theorem pieces_join_tokens (l : List Str) (h : ∀ f ∈ l, f ≠ [] ∧ ' ' ∉ f) :
    pieces (join_tokens l) = l := by
  by_cases hl : l = []
  · subst hl; simp [pieces, join_tokens, List.splitOn, List.intercalate]
  · rw [pieces, join_tokens, List.splitOn_intercalate _ ' ' (fun f hf => (h f hf).2) hl]
    rw [List.filter_eq_self]
    intro f hf
    simpa [List.isEmpty_iff] using (h f hf).1

theorem parse_loop_sep (progname : Str) (rest : List Str) (args : Option Str)
    (g : Globals) (t : Trace) :
    parse_loop progname ("--".toList :: rest) args g t
      = parse_loop progname rest none { g with g_cc := g.g_cflags, g_cflags := args } t := by
  rw [parse_loop.eq_def]; simp

theorem parse_loop_two_sep (prog : Str) (A B F : List Str)
    (hAp : ∀ a ∈ A, a ∉ reserved) (hBp : ∀ a ∈ B, a ∉ reserved)
    (hFp : ∀ a ∈ F, a ∉ reserved) (g : Globals) (t : Trace) :
    parse_loop prog (A ++ ["--".toList] ++ B ++ ["--".toList] ++ F) none g t
      = .cont (join_opt F, { g with g_cc := join_opt A, g_cflags := join_opt B }) t := by
  have e : A ++ ["--".toList] ++ B ++ ["--".toList] ++ F
      = A ++ ("--".toList :: (B ++ ("--".toList :: (F ++ [])))) := by simp
  rw [e, parse_loop_plain _ _ _ _ _ _ hAp, parse_loop_sep, parse_loop_plain _ _ _ _ _ _ hBp,
    parse_loop_sep, parse_loop_plain _ _ _ _ _ _ hFp]
  simp [parse_loop, foldl_append_none]

/-- C1: for `argv = prog A -- B -- F` with `A` non-empty and no token of `A`,
`B`, `F` equal to `--` or to an option name, the loop of `parse_args` leaves the
compiler `A`, the flags `B` and the file list `F`, each joined by single spaces
and nothing else (an empty `B` or `F` leaves `NULL`); with `F` non-empty
`parse_args` returns these values; and when the tokens of `F` are non-empty
and free of spaces, `main` runs `do_dependency` on exactly the files of `F`,
in order. -/
theorem parse_args_compiler_flags_files (h : Host) (prog : Str) (A B F : List Str)
    (hA : A ≠ []) (hAp : ∀ a ∈ A, a ∉ reserved) (hBp : ∀ a ∈ B, a ∉ reserved)
    (hFp : ∀ a ∈ F, a ∉ reserved) :
    parse_loop prog (A ++ ["--".toList] ++ B ++ ["--".toList] ++ F) none Globals.init
        Trace.empty
      = .cont (join_opt F,
          { Globals.init with g_cc := some (join_tokens A), g_cflags := join_opt B })
          Trace.empty
    ∧ (F ≠ [] →
        parse_args (prog :: (A ++ ["--".toList] ++ B ++ ["--".toList] ++ F)) Globals.init
            Trace.empty
          = .cont { Globals.init with
                      g_cc := some (join_tokens A), g_cflags := join_opt B,
                      g_files := some (join_tokens F), g_altpath := some ['.'] }
              Trace.empty)
    ∧ (F ≠ [] → (∀ f ∈ F, f ≠ [] ∧ ' ' ∉ f) →
        strtok_all (join_tokens F) = F
        ∧ main h (prog :: (A ++ ["--".toList] ++ B ++ ["--".toList] ++ F))
          = (main_loop h
              { Globals.init with
                  g_cc := some (join_tokens A), g_cflags := join_opt B,
                  g_files := some (join_tokens F), g_altpath := some ['.'] }
              F Trace.empty).bind (fun _ t1 => .cont EXIT_SUCCESS t1)) := by
  have hloop := parse_loop_two_sep prog A B F hAp hBp hFp Globals.init Trace.empty
  have hjA : join_opt A = some (join_tokens A) := by simp [join_opt, hA]
  rw [hjA] at hloop
  have hargs : F ≠ [] →
      parse_args (prog :: (A ++ ["--".toList] ++ B ++ ["--".toList] ++ F)) Globals.init
          Trace.empty
        = .cont { Globals.init with
                    g_cc := some (join_tokens A), g_cflags := join_opt B,
                    g_files := some (join_tokens F), g_altpath := some ['.'] }
            Trace.empty := by
    intro hF
    have hjF : join_opt F = some (join_tokens F) := by simp [join_opt, hF]
    simp only [parse_args, List.headD_cons, List.tail_cons, hloop, Outcome.bind, hjF]
    simp [parse_finish, Globals.init]
  refine ⟨hloop, hargs, ?_⟩
  intro hF hFs
  have htok : strtok_all (join_tokens F) = F := by
    rw [strtok_all_eq, pieces_join_tokens F hFs]
  refine ⟨htok, ?_⟩
  rw [main, hargs hF]
  simp only [Outcome.bind, htok]

/-- C1 at `mkdeps gcc -E -- -I. -DX -- a.c b.c`, both files being in the
current directory: the compiler is `gcc -E`, the flags are `-I. -DX`, the
files are `a.c b.c`, and one command per file is executed, in this order. -/
theorem parse_args_compiler_flags_files_witness :
    parse_args ["mkdeps".toList, "gcc".toList, "-E".toList, "--".toList, "-I.".toList,
        "-DX".toList, "--".toList, "a.c".toList, "b.c".toList] Globals.init Trace.empty
      = .cont { Globals.init with
                  g_cc := some "gcc -E".toList, g_cflags := some "-I. -DX".toList,
                  g_files := some "a.c b.c".toList, g_altpath := some ['.'] }
          Trace.empty
    ∧ (main host_demo ["mkdeps".toList, "gcc".toList, "-E".toList, "--".toList,
        "-I.".toList, "-DX".toList, "--".toList, "a.c".toList, "b.c".toList]).trace.cmds
      = ["gcc -E -M -I. -DX ./a.c".toList, "gcc -E -M -I. -DX ./b.c".toList] :=
  ⟨(parse_args_compiler_flags_files host_demo "mkdeps".toList ["gcc".toList, "-E".toList]
      ["-I.".toList, "-DX".toList] ["a.c".toList, "b.c".toList] (by decide) (by decide)
      (by decide) (by decide)).2.1 (by decide),
    (congrArg (fun o => (Outcome.trace o).cmds)
      ((parse_args_compiler_flags_files host_demo "mkdeps".toList ["gcc".toList, "-E".toList]
        ["-I.".toList, "-DX".toList] ["a.c".toList, "b.c".toList] (by decide) (by decide)
        (by decide) (by decide)).2.2 (by decide) (by decide)).2).trans (by decide)⟩

/-! ### The search directories -/

theorem parse_loop_cons (progname : Str) (arg : Str) (rest : List Str) (args : Option Str)
    (g : Globals) (t : Trace) :
    parse_loop progname (arg :: rest) args g t =
    if arg = "--".toList then
      parse_loop progname rest none { g with g_cc := g.g_cflags, g_cflags := args } t
    else if arg = "--dep-debug".toList then
      parse_loop progname rest args { g with g_debug := g.g_debug + 1 } t
    else if arg = "--dep-path".toList then
      match rest with
      | [] => show_usage progname (some "ERROR: Missing argument to --dep-path".toList)
                EXIT_FAILURE t
      | val :: rest1 =>
        if args.isSome then
          parse_loop progname rest1 (append args val) g t
        else
          parse_loop progname rest1 args { g with g_altpath := append g.g_altpath val } t
    else if arg = "--obj-path".toList then
      match rest with
      | [] => show_usage progname (some "ERROR: Missing argument to --obj-path".toList)
                EXIT_FAILURE t
      | val :: rest1 => parse_loop progname rest1 args { g with g_objpath := some val } t
    else if arg = "--obj-suffix".toList then
      match rest with
      | [] => show_usage progname (some "ERROR: Missing argument to --obj-suffix".toList)
                EXIT_FAILURE t
      | val :: rest1 => parse_loop progname rest1 args { g with g_suffix := val } t
    else if arg = "--winnative".toList then
      parse_loop progname rest args { g with g_winnative := true } t
    else if arg = "--winpath".toList then
      parse_loop progname rest args { g with g_winpath := true } t
    else if arg = "--help".toList then
      show_usage progname none EXIT_SUCCESS t
    else
      parse_loop progname rest (append args arg) g t := by
  cases rest <;> rfl

theorem decode_cons (arg : Str) (rest : List Str) :
    decode (arg :: rest) =
    if arg = "--".toList then .sep :: decode rest
    else if arg = "--dep-debug".toList then .debug :: decode rest
    else if arg = "--dep-path".toList then
      match rest with
      | [] => [.missing arg]
      | val :: rest1 => .dep_path val :: decode rest1
    else if arg = "--obj-path".toList then
      match rest with
      | [] => [.missing arg]
      | val :: rest1 => .obj_path val :: decode rest1
    else if arg = "--obj-suffix".toList then
      match rest with
      | [] => [.missing arg]
      | val :: rest1 => .obj_suffix val :: decode rest1
    else if arg = "--winnative".toList then .winnative :: decode rest
    else if arg = "--winpath".toList then .winpath :: decode rest
    else if arg = "--help".toList then .help :: decode rest
    else .plain arg :: decode rest := by
  cases rest <;> rfl

theorem parse_loop_decode_aux (progname : Str) (n : Nat) :
    ∀ (argv : List Str), argv.length ≤ n → ∀ (args : Option Str) (g : Globals) (t : Trace),
    parse_loop progname argv args g t = parse_items progname (decode argv) args g t := by
  induction n with
  | zero =>
    intro argv hn args g t
    have : argv = [] := List.length_eq_zero.1 (Nat.le_zero.1 hn)
    subst this; rfl
  | succ n ih =>
    intro argv hn args g t
    match argv, hn with
    | [], _ => rfl
    | arg :: rest, hn =>
      have h1 : rest.length ≤ n := by simpa using hn
      have ih1 := ih rest h1
      have ih2 : ∀ val rest1, rest = val :: rest1 → ∀ (args : Option Str) (g : Globals) (t : Trace),
          parse_loop progname rest1 args g t = parse_items progname (decode rest1) args g t := by
        intro val rest1 e
        apply ih
        rw [e] at h1; simp at h1; omega
      rw [parse_loop_cons, decode_cons]
      by_cases c1 : arg = "--".toList
      · rw [if_pos c1, if_pos c1, parse_items, ih1]
      rw [if_neg c1, if_neg c1]
      by_cases c2 : arg = "--dep-debug".toList
      · rw [if_pos c2, if_pos c2, parse_items, ih1]
      rw [if_neg c2, if_neg c2]
      by_cases c3 : arg = "--dep-path".toList
      · rw [if_pos c3, if_pos c3]
        cases rest with
        | nil => simp only [parse_items, c3]; rfl
        | cons val rest1 => simp only [parse_items, ih2 val rest1 rfl]
      rw [if_neg c3, if_neg c3]
      by_cases c4 : arg = "--obj-path".toList
      · rw [if_pos c4, if_pos c4]
        cases rest with
        | nil => simp only [parse_items, c4]; rfl
        | cons val rest1 => simp only [parse_items, ih2 val rest1 rfl]
      rw [if_neg c4, if_neg c4]
      by_cases c5 : arg = "--obj-suffix".toList
      · rw [if_pos c5, if_pos c5]
        cases rest with
        | nil => simp only [parse_items, c5]; rfl
        | cons val rest1 => simp only [parse_items, ih2 val rest1 rfl]
      rw [if_neg c5, if_neg c5]
      by_cases c6 : arg = "--winnative".toList
      · rw [if_pos c6, if_pos c6, parse_items, ih1]
      rw [if_neg c6, if_neg c6]
      by_cases c7 : arg = "--winpath".toList
      · rw [if_pos c7, if_pos c7, parse_items, ih1]
      rw [if_neg c7, if_neg c7]
      by_cases c8 : arg = "--help".toList
      · rw [if_pos c8, if_pos c8, parse_items]
      rw [if_neg c8, if_neg c8, parse_items, ih1]

/-- The loop of `parse_args` reads `argv[1..]` item by item. -/
theorem parse_loop_decode (progname : Str) (argv : List Str) (args : Option Str)
    (g : Globals) (t : Trace) :
    parse_loop progname argv args g t = parse_items progname (decode argv) args g t :=
  parse_loop_decode_aux progname argv.length argv (Nat.le_refl _) args g t

theorem parse_loop_dep_path_none (progname : Str) (val : Str) (rest : List Str)
    (g : Globals) (t : Trace) :
    parse_loop progname ("--dep-path".toList :: val :: rest) none g t
      = parse_loop progname rest none { g with g_altpath := append g.g_altpath val } t := by
  rw [parse_loop_cons]; simp

theorem parse_loop_dep_path_some (progname : Str) (val : Str) (rest : List Str) (a : Str)
    (g : Globals) (t : Trace) :
    parse_loop progname ("--dep-path".toList :: val :: rest) (some a) g t
      = parse_loop progname rest (some (a ++ ' ' :: val)) g t := by
  rw [parse_loop_cons]; simp [append_some]

theorem append_isSome (base : Option Str) (s : Str) : (append base s).isSome = true := by
  cases base <;> simp [append]

theorem parse_items_altpath (progname : Str) (items : List Item) :
    ∀ (args : Option Str) (g : Globals) (t : Trace) (r : Option Str × Globals) (t1 : Trace),
    parse_items progname items args g t = .cont r t1 →
    r.2.g_altpath = (search_dirs items args.isSome).foldl append g.g_altpath := by
  induction items with
  | nil =>
    intro args g t r t1 h
    simp only [parse_items, Outcome.cont.injEq] at h
    simp [search_dirs, ← h.1]
  | cons it rest ih =>
    intro args g t r t1 h
    cases it with
    | sep => simpa [search_dirs] using ih _ _ _ _ _ h
    | debug => simpa [search_dirs] using ih _ _ _ _ _ h
    | dep_path val =>
      cases args with
      | none => simpa [search_dirs] using ih _ _ _ _ _ h
      | some a => simpa [search_dirs, append_isSome] using ih _ _ _ _ _ h
    | obj_path val => simpa [search_dirs] using ih _ _ _ _ _ h
    | obj_suffix val => simpa [search_dirs] using ih _ _ _ _ _ h
    | winnative => simpa [search_dirs] using ih _ _ _ _ _ h
    | winpath => simpa [search_dirs] using ih _ _ _ _ _ h
    | help => simp [parse_items, show_usage] at h
    | missing opt => simp [parse_items, show_usage] at h
    | plain tok => simpa [search_dirs, append_isSome] using ih _ _ _ _ _ h

theorem parse_finish_cont (progname : Str) (args : Option Str) (g0 g : Globals) (t t1 : Trace)
    (h : parse_finish progname args g0 t = .cont g t1) :
    g = { g0 with g_files := args, g_altpath := some (g0.g_altpath.getD ['.']) } := by
  unfold parse_finish at h
  simp only [show_usage] at h
  split_ifs at h <;> simp only [Outcome.cont.injEq, reduceCtorEq] at h
  all_goals
    rw [← h.1]
    cases hg : g0.g_altpath <;> simp_all

/-- When `parse_args` returns, the compiler, the search directories and the
file list are set (not `NULL`), and the two Windows modes are not both on. -/
theorem parse_args_returns (argv : List Str) (g0 g : Globals) (t t1 : Trace)
    (hret : parse_args argv g0 t = .cont g t1) :
    (∃ cc, g.g_cc = some cc) ∧ (∃ altpath, g.g_altpath = some altpath)
    ∧ (∃ files, g.g_files = some files) ∧ ¬ (g.g_winnative = true ∧ g.g_winpath = true) := by
  unfold parse_args at hret
  cases hl : parse_loop (argv.headD []) argv.tail none g0 t with
  | exit c t0 => rw [hl] at hret; simp at hret
  | fault t0 => rw [hl] at hret; simp at hret
  | cont r t0 =>
    rw [hl] at hret
    simp only [Outcome.bind_cont] at hret
    have h1 := parse_finish_cont _ _ _ _ _ _ hret
    unfold parse_finish at hret
    simp only [show_usage] at hret
    split_ifs at hret with ha hd hc hf hw hd2 hc2 hf2 hw2 <;>
      simp only [Outcome.cont.injEq, reduceCtorEq] at hret
    all_goals
      obtain ⟨hg, _⟩ := hret
      subst hg
      simp only [Option.isNone_iff_eq_none, Bool.and_eq_true, ne_eq] at *
      refine ⟨Option.ne_none_iff_exists'.1 ‹_›, ?_, Option.ne_none_iff_exists'.1 ‹_›, ‹_›⟩
      first
        | exact ⟨_, rfl⟩
        | exact Option.ne_none_iff_exists'.1 ‹_›

/-- C2 (amended): a `--dep-path <dir>` met while nothing is accumulated in the
current segment appends `<dir>` to the search directories and leaves the
accumulation empty; one met while something is accumulated appends `<dir>` to
that accumulation (compiler, flags or files) and leaves the search directories
alone; so whenever `parse_args` returns, `g_altpath` is the values of the
first kind, in command-line order, joined by single spaces (`.` when there
is none), and `strtok_r` recovers exactly these values when they are non-empty
and free of spaces. -/
theorem dep_path_appends_when_nothing_accumulated (argv : List Str) (g : Globals) (t : Trace)
    (hret : parse_args argv Globals.init Trace.empty = .cont g t) :
    (∀ (prog val : Str) (rest : List Str) (g0 : Globals) (t0 : Trace),
      parse_loop prog ("--dep-path".toList :: val :: rest) none g0 t0
        = parse_loop prog rest none { g0 with g_altpath := append g0.g_altpath val } t0)
    ∧ (∀ (prog val a : Str) (rest : List Str) (g0 : Globals) (t0 : Trace),
      parse_loop prog ("--dep-path".toList :: val :: rest) (some a) g0 t0
        = parse_loop prog rest (some (a ++ ' ' :: val)) g0 t0)
    ∧ g.g_altpath = some (if search_dirs (decode argv.tail) false = [] then ['.']
        else join_tokens (search_dirs (decode argv.tail) false))
    ∧ ((∀ d ∈ search_dirs (decode argv.tail) false, d ≠ [] ∧ ' ' ∉ d) →
        g.g_altpath.map strtok_all
          = some (if search_dirs (decode argv.tail) false = [] then [['.']]
              else search_dirs (decode argv.tail) false)) := by
  have halt : g.g_altpath = some (if search_dirs (decode argv.tail) false = [] then ['.']
      else join_tokens (search_dirs (decode argv.tail) false)) := by
    unfold parse_args at hret
    cases hl : parse_loop (argv.headD []) argv.tail none Globals.init Trace.empty with
    | exit c t0 => rw [hl] at hret; simp [Outcome.bind] at hret
    | fault t0 => rw [hl] at hret; simp [Outcome.bind] at hret
    | cont r t0 =>
      rw [hl] at hret
      simp only [Outcome.bind] at hret
      have h1 := parse_finish_cont _ _ _ _ _ _ hret
      rw [parse_loop_decode] at hl
      have h2 := parse_items_altpath _ _ _ _ _ _ _ hl
      simp only [Option.isSome_none] at h2
      rw [h1]
      simp only [h2, Globals.init, foldl_append_none, join_opt]
      split_ifs <;> simp
  refine ⟨fun prog val rest g0 t0 => parse_loop_dep_path_none prog val rest g0 t0,
    fun prog val a rest g0 t0 => parse_loop_dep_path_some prog val rest a g0 t0, halt, ?_⟩
  intro hd
  rw [halt]
  simp only [Option.map_some']
  split_ifs with he
  · simp [strtok_all_eq, pieces_word]
  · rw [strtok_all_eq, pieces_join_tokens _ hd]

/-- C2 (amended) at `mkdeps --dep-path d1 --dep-path d2 gcc -- -I. -- a.c`. -/
theorem dep_path_appends_when_nothing_accumulated_witness :
    (some "d1 d2".toList).map strtok_all = some ["d1".toList, "d2".toList] :=
  (dep_path_appends_when_nothing_accumulated
    ["mkdeps".toList, "--dep-path".toList, "d1".toList, "--dep-path".toList, "d2".toList,
      "gcc".toList, "--".toList, "-I.".toList, "--".toList, "a.c".toList]
    { Globals.init with
        g_cc := some "gcc".toList, g_cflags := some "-I.".toList,
        g_files := some "a.c".toList, g_altpath := some "d1 d2".toList }
    Trace.empty (by decide)).2.2.2 (by decide)

/-- C2 fails at `mkdeps gcc --dep-path d2 -- -I. -- a.c`: the value `d2` joins
the compiler and the search directories stay at the default `.`. -/
theorem dep_path_after_compiler_token :
    parse_args ["mkdeps".toList, "gcc".toList, "--dep-path".toList, "d2".toList,
        "--".toList, "-I.".toList, "--".toList, "a.c".toList] Globals.init Trace.empty
      = .cont { Globals.init with
                  g_cc := some "gcc d2".toList, g_cflags := some "-I.".toList,
                  g_files := some "a.c".toList, g_altpath := some ".".toList }
          Trace.empty
    ∧ strtok_all ".".toList ≠ ["d2".toList] := by
  decide

/-! ### do_expand -/

theorem expand_spec_aux_length (prev : Option Char) (s : Str) :
    s.length ≤ (expand_spec_aux prev s).length := by
  induction s generalizing prev with
  | nil => simp [expand_spec_aux]
  | cons c rest ih =>
    have := ih (some c)
    simp only [expand_spec_aux, List.length_append, List.length_cons]
    split_ifs <;> simp <;> omega

theorem expand_loop_false (c : Char) (src dest : Str) (len : Nat) :
    expand_loop (c :: src) false dest len =
    if len < MAX_EXPAND then
      if c = BSLASH then
        if len + 1 ≥ MAX_EXPAND then (src, dest ++ [c], len + 1)
        else if src.head? = some BSLASH then expand_loop src true (dest ++ [c]) (len + 1)
        else if len + 2 ≥ MAX_EXPAND then (src, dest ++ [c, BSLASH], len + 2)
        else expand_loop src false (dest ++ [c, BSLASH]) (len + 2)
      else expand_loop src false (dest ++ [c]) (len + 1)
    else (c :: src, dest, len) := by
  cases src with
  | nil => simp [expand_loop]
  | cons c1 src1 => simp [expand_loop]

theorem expand_loop_true (c : Char) (src dest : Str) (len : Nat) :
    expand_loop (c :: src) true dest len =
    if len + 1 ≥ MAX_EXPAND then (src, dest ++ [c], len + 1)
    else if src.head? = some BSLASH then expand_loop src true (dest ++ [c]) (len + 1)
    else expand_loop src false (dest ++ [c]) (len + 1) := by
  cases src with
  | nil => simp [expand_loop]
  | cons c1 src1 => simp [expand_loop]

theorem expand_loop_spec (src : Str) :
    ∀ (mode : Bool) (dest : Str) (len : Nat) (prev : Option Char),
    (mode = true → prev = some BSLASH ∧ src.head? = some BSLASH) →
    (mode = false → prev ≠ some BSLASH ∨ src.head? ≠ some BSLASH) →
    len + (expand_spec_aux prev src).length < MAX_EXPAND →
    expand_loop src mode dest len
      = ([], dest ++ expand_spec_aux prev src, len + (expand_spec_aux prev src).length) := by
  induction src with
  | nil => intro mode dest len prev _ _ _; simp [expand_loop, expand_spec_aux]
  | cons c src ih =>
    intro mode dest len prev ht hf hfit
    have hlen := expand_spec_aux_length (some c) src
    cases mode with
    | false =>
      have hf := hf rfl
      simp only [List.head?_cons, Option.some.injEq] at hf
      rw [expand_loop_false]
      by_cases hc : c = BSLASH
      · subst hc
        have hprev : prev ≠ some BSLASH := by
          rcases hf with h | h
          · exact h
          · exact absurd rfl h
        by_cases hh : src.head? = some BSLASH
        · have e : expand_spec_aux prev (BSLASH :: src)
              = BSLASH :: expand_spec_aux (some BSLASH) src := by
            simp [expand_spec_aux, hh]
          rw [e] at hfit ⊢
          simp only [List.length_cons] at hfit
          have h1 : len < MAX_EXPAND := by omega
          have h2 : ¬ len + 1 ≥ MAX_EXPAND := by omega
          simp only [h1, h2, hh, if_true, if_false]
          rw [ih true _ _ (some BSLASH) (fun _ => ⟨rfl, hh⟩) (by simp) (by omega)]
          simp; omega
        · have e : expand_spec_aux prev (BSLASH :: src)
              = BSLASH :: BSLASH :: expand_spec_aux (some BSLASH) src := by
            simp [expand_spec_aux, hprev, hh]
          rw [e] at hfit ⊢
          simp only [List.length_cons] at hfit
          have h1 : len < MAX_EXPAND := by omega
          have h2 : ¬ len + 1 ≥ MAX_EXPAND := by omega
          have h3 : ¬ len + 2 ≥ MAX_EXPAND := by omega
          simp only [h1, h2, h3, hh, if_true, if_false]
          rw [ih false _ _ (some BSLASH) (by simp) (fun _ => Or.inr hh) (by omega)]
          simp; omega
      · have e : expand_spec_aux prev (c :: src) = c :: expand_spec_aux (some c) src := by
          simp [expand_spec_aux, hc]
        rw [e] at hfit ⊢
        simp only [List.length_cons] at hfit
        have h1 : len < MAX_EXPAND := by omega
        simp only [h1, hc, if_true, if_false]
        rw [ih false _ _ (some c) (by simp) (by simp [hc]) (by omega)]
        simp; omega
    | true =>
      obtain ⟨hprev, hhead⟩ := ht rfl
      simp only [List.head?_cons, Option.some.injEq] at hhead
      subst hhead
      have e : expand_spec_aux prev (BSLASH :: src)
          = BSLASH :: expand_spec_aux (some BSLASH) src := by
        simp [expand_spec_aux, hprev]
      rw [e] at hfit ⊢
      simp only [List.length_cons] at hfit
      rw [expand_loop_true]
      have h2 : ¬ len + 1 ≥ MAX_EXPAND := by omega
      simp only [h2, if_false]
      by_cases hh : src.head? = some BSLASH
      · simp only [hh, if_true]
        rw [ih true _ _ (some BSLASH) (fun _ => ⟨rfl, hh⟩) (by simp) (by omega)]
        simp; omega
      · simp only [hh, if_false]
        rw [ih false _ _ (some BSLASH) (by simp) (fun _ => Or.inr hh) (by omega)]
        simp; omega

theorem expand_spec_aux_head (prev : Option Char) (c : Char) (rest : Str) :
    (expand_spec_aux prev (c :: rest)).head? = some c := by
  simp only [expand_spec_aux]
  split_ifs with h
  · simp [h.1]
  · simp

theorem expand_spec_aux_no_lone (s : Str) :
    ∀ prev, no_lone_backslash prev s → expand_spec_aux prev s = s := by
  induction s with
  | nil => intro prev _; rfl
  | cons c rest ih =>
    intro prev h
    obtain ⟨h1, h2⟩ := h
    simp only [expand_spec_aux, if_neg h1, ih _ h2]
    rfl

theorem expand_spec_aux_idem (s : Str) :
    ∀ prev, no_lone_backslash prev (expand_spec_aux prev s) := by
  induction s with
  | nil => intro prev; simp [expand_spec_aux, no_lone_backslash]
  | cons c rest ih =>
    intro prev
    by_cases h : c = BSLASH ∧ prev ≠ some BSLASH ∧ rest.head? ≠ some BSLASH
    · simp only [expand_spec_aux, if_pos h, List.cons_append, List.nil_append,
        no_lone_backslash, List.head?_cons]
      refine ⟨by simp, by simp, ?_⟩
      have := ih (some c)
      rw [h.1] at this ⊢
      exact this
    · simp only [expand_spec_aux, if_neg h, List.cons_append, List.nil_append,
        no_lone_backslash]
      refine ⟨?_, ih (some c)⟩
      rintro ⟨hc, hp, hn⟩
      apply h
      refine ⟨hc, hp, ?_⟩
      intro hr
      apply hn
      cases rest with
      | nil => simp at hr
      | cons c1 r1 =>
        rw [expand_spec_aux_head]
        simpa using hr

theorem do_expand_fits (s : Str) (t : Trace) (hfit : (expand_spec s).length < MAX_EXPAND) :
    do_expand true s t = .cont (expand_spec s) t := by
  have h := expand_loop_spec s false [] 0 none (by simp) (by simp)
    (by simpa [expand_spec] using hfit)
  simp only [do_expand, if_true, h]
  simp [expand_spec, Trace.access]
  intro h1
  simp only [expand_spec] at hfit
  omega

theorem expand_spec_aux_run (prev : Option Char) (n : Nat) (post : Str)
    (hprev : prev ≠ some BSLASH) (hpost : post.head? ≠ some BSLASH) (hn : 0 < n) :
    expand_spec_aux prev (List.replicate n BSLASH ++ post)
      = List.replicate (if n = 1 then 2 else n) BSLASH ++ expand_spec_aux (some BSLASH) post := by
  have key : ∀ m, expand_spec_aux (some BSLASH) (List.replicate m BSLASH ++ post)
      = List.replicate m BSLASH ++ expand_spec_aux (some BSLASH) post := by
    intro m
    induction m with
    | zero => simp
    | succ m ihm =>
      simp only [List.replicate_succ, List.cons_append, expand_spec_aux]
      simp [ihm]
  obtain ⟨m, rfl⟩ : ∃ m, n = m + 1 := ⟨n - 1, by omega⟩
  cases m with
  | zero =>
    simp [expand_spec_aux, hprev, hpost, List.replicate]
  | succ m =>
    have h2 : (List.replicate (m + 1) BSLASH ++ post).head? = some BSLASH := by
      simp [List.replicate_succ]
    rw [List.replicate_succ, List.cons_append, expand_spec_aux]
    simp only [h2, ne_eq, not_true_eq_false, and_false, if_false, key]
    simp [List.replicate_succ]

/-- C8: in Windows-path mode, when the expansion fits `g_expand` with its
terminator, `do_expand` returns the expansion of its argument, in which a
backslash with no backslash next to it is doubled and everything else is
kept: a maximal run of one backslash becomes two, a longer run is copied, any
other character is copied; outside that mode the argument is returned
unchanged. -/
theorem do_expand_doubles_single_backslashes (s : Str) (t : Trace)
    (hfit : (expand_spec s).length < MAX_EXPAND) :
    do_expand true s t = .cont (expand_spec s) t
    ∧ do_expand false s t = .cont s t
    ∧ (∀ (prev : Option Char) (n : Nat) (post : Str), prev ≠ some BSLASH →
        post.head? ≠ some BSLASH → 0 < n →
        expand_spec_aux prev (List.replicate n BSLASH ++ post)
          = List.replicate (if n = 1 then 2 else n) BSLASH
              ++ expand_spec_aux (some BSLASH) post)
    ∧ (∀ (prev : Option Char) (c : Char) (rest : Str), c ≠ BSLASH →
        expand_spec_aux prev (c :: rest) = c :: expand_spec_aux (some c) rest) := by
  refine ⟨do_expand_fits s t hfit, by simp [do_expand], expand_spec_aux_run, ?_⟩
  intro prev c rest hc
  simp [expand_spec_aux, hc]

/-- C8 at `C:\\foo\\bar` written with single backslashes. -/
theorem do_expand_doubles_single_backslashes_witness :
    do_expand true ("C:".toList ++ [BSLASH] ++ "foo".toList ++ [BSLASH] ++ "bar".toList)
        Trace.empty
      = .cont ("C:".toList ++ [BSLASH, BSLASH] ++ "foo".toList ++ [BSLASH, BSLASH]
          ++ "bar".toList) Trace.empty :=
  (do_expand_doubles_single_backslashes
    ("C:".toList ++ [BSLASH] ++ "foo".toList ++ [BSLASH] ++ "bar".toList) Trace.empty
    (by decide)).1

/-- C9: expansion is idempotent, in either mode: when the expansion of `s`
fits the buffer, expanding the result again returns it unchanged, and a
string in which no backslash stands alone is returned unchanged. -/
theorem do_expand_idempotent (w : Bool) (s : Str) (t : Trace)
    (hfit : (expand_spec s).length < MAX_EXPAND) :
    (do_expand w s t).bind (fun e t1 => do_expand w e t1) = do_expand w s t
    ∧ (no_lone_backslash none s → do_expand w s t = .cont s t) := by
  cases w with
  | false => simp [do_expand, Outcome.bind]
  | true =>
    have hidem : expand_spec (expand_spec s) = expand_spec s :=
      expand_spec_aux_no_lone _ _ (expand_spec_aux_idem s none)
    constructor
    · rw [do_expand_fits s t hfit]
      simp only [Outcome.bind]
      rw [do_expand_fits _ t (by rw [hidem]; exact hfit), hidem]
    · intro hs
      have e : expand_spec s = s := expand_spec_aux_no_lone _ _ hs
      rw [do_expand_fits s t hfit, e]

/-- C9 at `a\\b` written with one backslash: the second expansion changes
nothing. -/
theorem do_expand_idempotent_witness :
    (do_expand true ['a', BSLASH, 'b'] Trace.empty).bind (fun e t1 => do_expand true e t1)
      = do_expand true ['a', BSLASH, 'b'] Trace.empty :=
  (do_expand_idempotent true ['a', BSLASH, 'b'] Trace.empty (by decide)).1

theorem expand_loop_plain (s : Str) :
    ∀ (rest dest : Str) (len : Nat), (∀ c ∈ s, c ≠ BSLASH) → len + s.length ≤ MAX_EXPAND →
    expand_loop (s ++ rest) false dest len = expand_loop rest false (dest ++ s) (len + s.length) := by
  induction s with
  | nil => intro rest dest len _ _; simp
  | cons c s ih =>
    intro rest dest len hs hlen
    have hc : c ≠ BSLASH := hs c (List.mem_cons_self _ _)
    simp only [List.length_cons] at hlen
    have h1 : len < MAX_EXPAND := by omega
    rw [List.cons_append, expand_loop_false]
    simp only [h1, hc, if_true, if_false]
    rw [ih rest _ _ (fun x hx => hs x (List.mem_cons_of_mem _ hx)) (by omega)]
    have e1 : dest ++ [c] ++ s = dest ++ c :: s := by simp
    have e2 : len + 1 + s.length = len + (s.length + 1) := by omega
    rw [e1, e2]
    rfl

theorem do_expand_plain_full (s : Str) (t : Trace) (hs : ∀ c ∈ s, c ≠ BSLASH)
    (hlen : s.length = MAX_EXPAND) :
    do_expand true s t = .cont s (t.access .g_expand (MAX_EXPAND : Int) MAX_EXPAND) := by
  have h := expand_loop_plain s [] [] 0 hs (by omega)
  rw [List.append_nil, List.nil_append, Nat.zero_add, hlen] at h
  have h2 : expand_loop [] false s MAX_EXPAND = ([], s, MAX_EXPAND) := rfl
  unfold do_expand
  rw [if_pos rfl, h, h2]
  simp

theorem do_expand_plain_backslash (s : Str) (t : Trace) (hs : ∀ c ∈ s, c ≠ BSLASH)
    (hlen : s.length + 1 = MAX_EXPAND) :
    do_expand true (s ++ [BSLASH]) t
      = .cont (s ++ [BSLASH]) (t.access .g_expand (MAX_EXPAND : Int) MAX_EXPAND) := by
  have h := expand_loop_plain s [BSLASH] [] 0 hs (by omega)
  rw [List.nil_append, Nat.zero_add] at h
  have h2 : expand_loop [BSLASH] false s s.length = ([], s ++ [BSLASH], MAX_EXPAND) := by
    rw [expand_loop_false, if_pos (by omega), if_pos rfl, if_pos (by omega), hlen]
  unfold do_expand
  rw [if_pos rfl, h, h2]
  simp

/-- C10 fails in Windows-path mode: for `MAX_EXPAND` characters without a
backslash `do_expand` does not exit; it returns all `MAX_EXPAND` characters
and stores the terminator at `g_expand[MAX_EXPAND]`; and for `MAX_EXPAND - 1`
such characters followed by one backslash it returns the argument with the
backslash not doubled. -/
theorem do_expand_full_buffer :
    do_expand true (List.replicate MAX_EXPAND 'a') Trace.empty
      = .cont (List.replicate MAX_EXPAND 'a')
          { out := [], cmds := [], oob := [(Buffer.g_expand, (MAX_EXPAND : Int))] }
    ∧ do_expand true (List.replicate (MAX_EXPAND - 1) 'a' ++ [BSLASH]) Trace.empty
      = .cont (List.replicate (MAX_EXPAND - 1) 'a' ++ [BSLASH])
          { out := [], cmds := [], oob := [(Buffer.g_expand, (MAX_EXPAND : Int))] } := by
  have ha : ∀ n, ∀ c ∈ List.replicate n 'a', c ≠ BSLASH := by
    intro n c hc
    rw [List.eq_of_mem_replicate hc]
    decide
  have ht : Trace.empty.access .g_expand (MAX_EXPAND : Int) MAX_EXPAND
      = { out := [], cmds := [], oob := [(Buffer.g_expand, (MAX_EXPAND : Int))] } := by
    simp [Trace.access, Trace.empty]
  constructor
  · rw [do_expand_plain_full _ _ (ha _) (List.length_replicate _ _), ht]
  · rw [do_expand_plain_backslash _ _ (ha _) (by rw [List.length_replicate]; decide), ht]

/-! ### Traces, the search loop and execute -/

/-- Binding keeps the commands when both parts do. -/
theorem Outcome.bind_cmds {α β : Type} (o : Outcome α) (f : α → Trace → Outcome β) (t : Trace)
    (ho : o.trace.cmds = t.cmds) (hf : ∀ a t1, t1.cmds = t.cmds → (f a t1).trace.cmds = t.cmds) :
    (o.bind f).trace.cmds = t.cmds := by
  cases o with
  | cont a t1 => exact hf a t1 ho
  | exit c t1 => exact ho
  | fault t1 => exact ho

theorem do_expand_cmds (w : Bool) (s : Str) (t : Trace) :
    (do_expand w s t).trace.cmds = t.cmds := by
  unfold do_expand
  split_ifs
  · simp only
    split_ifs <;> simp
  · simp

theorem dequote_path_cmds (p : Str) (t : Trace) : (dequote_path p t).trace.cmds = t.cmds := by
  unfold dequote_path
  simp only
  split_ifs <;> simp

theorem convert_path_cmds (h : Host) (g : Globals) (p : Str) (t : Trace) :
    (convert_path h g p t).trace.cmds = t.cmds := by
  unfold convert_path
  split_ifs
  · apply Outcome.bind_cmds _ _ _ (dequote_path_cmds p t)
    intro a t1 ht1
    simp only [poke]
    split_ifs <;> simp [ht1]
  · simp

theorem build_command_cmds (h : Host) (g : Globals) (file : Str) (t : Trace) :
    (build_command h g file t).trace.cmds = t.cmds := by
  unfold build_command
  cases g.g_cc with
  | none => simp
  | some cc =>
    simp only
    split_ifs
    · simp
    · apply Outcome.bind_cmds
      · cases g.g_objpath with
        | none => simp
        | some objpath =>
          simp only
          apply Outcome.bind_cmds _ _ _ (by rw [do_expand_cmds]; simp)
          intro a t1 ht1
          split_ifs <;> simp [ht1]
      · intro c1 t1 ht1
        split_ifs
        · simp [ht1]
        · apply Outcome.bind_cmds
          · cases g.g_cflags with
            | none => simp; exact ht1
            | some cflags =>
              simp only
              apply Outcome.bind_cmds _ _ _ (by rw [do_expand_cmds]; simp; exact ht1)
              intro a t2 ht2
              split_ifs <;> simp [ht2]
          · intro c3 t3 ht3
            simp [ht3]

/-- The commands that `execute` hands to `system()`: none, or the command
buffer followed by the expanded path. -/
theorem execute_cmds (h : Host) (g : Globals) (cmd : Str) (len : Nat) (p : Str) (t : Trace) :
    (execute h g cmd len p t).trace.cmds = t.cmds
    ∨ ∃ e, (execute h g cmd len p t).trace.cmds = t.cmds ++ [cmd ++ e] := by
  unfold execute
  cases hx : do_expand g.g_winpath p t with
  | exit c t1 => left; have := do_expand_cmds g.g_winpath p t; rw [hx] at this; simpa using this
  | fault t1 => left; have := do_expand_cmds g.g_winpath p t; rw [hx] at this; simpa using this
  | cont e t1 =>
    have ht1 : t1.cmds = t.cmds := by
      have := do_expand_cmds g.g_winpath p t; rw [hx] at this; simpa using this
    simp only [Outcome.bind_cont]
    split_ifs
    all_goals first
      | (left; simp [ht1]; done)
      | (right; refine ⟨e, ?_⟩; simp [ht1])

@[simp]
theorem sep_trace_cmds (g : Globals) (path : Str) (t : Trace) :
    (sep_trace g path t).cmds = t.cmds := by
  unfold sep_trace; simp only; split_ifs <;> simp

@[simp]
theorem try_trace_cmds (g : Globals) (path file : Str) (t : Trace) :
    (try_trace g path file t).cmds = t.cmds := by
  unfold try_trace; simp only; split_ifs <;> simp

/-- The commands that the search loop hands to `system()`: none, or one that
starts with the command buffer. -/
theorem search_cmds (h : Host) (g : Globals) (file cmd : Str) (len : Nat) (paths : List Str) :
    ∀ t, (search h g file cmd len paths t).trace.cmds = t.cmds
      ∨ ∃ e, (search h g file cmd len paths t).trace.cmds = t.cmds ++ [cmd ++ e] := by
  induction paths with
  | nil => intro t; left; simp [search]
  | cons path rest ih =>
    intro t
    rw [search]
    split_ifs
    · left; simp
    · left; simp
    · have hcp := convert_path_cmds h g (with_separator g path ++ file) (try_trace g path file t)
      cases hc : convert_path h g (with_separator g path ++ file) (try_trace g path file t) with
      | exit c t1 => left; rw [hc] at hcp; simpa using hcp
      | fault t1 => left; rw [hc] at hcp; simpa using hcp
      | cont conv t4 =>
        have ht4 : t4.cmds = t.cmds := by rw [hc] at hcp; simpa using hcp
        simp only [Outcome.bind_cont]
        cases h.stat t4.cmds conv with
        | fail => simp only; rw [← ht4]; exact ih t4
        | other => left; simp [ht4]
        | regular => simp only; rw [← ht4]; exact execute_cmds h g cmd len _ t4

theorem Trace.append_empty (t : Trace) : t.append Trace.empty = t := by
  simp [Trace.append, Trace.empty]

theorem Trace.print_eq_append (t : Trace) (s : Stream) (x : Str) :
    t.print s x = t.append (Trace.empty.print s x) := by
  simp [Trace.append, Trace.empty, Trace.print]

theorem Trace.access_eq_append (t : Trace) (b : Buffer) (i : Int) (cap : Nat) :
    t.access b i cap = t.append (Trace.empty.access b i cap) := by
  unfold Trace.access
  split_ifs <;> simp [Trace.append, Trace.empty]

theorem Trace.append_assoc (a b c : Trace) : (a.append b).append c = a.append (b.append c) := by
  simp [Trace.append]

theorem Trace.append_print (t e : Trace) (s : Stream) (x : Str) :
    (t.append e).print s x = t.append (e.print s x) := by
  simp [Trace.append, Trace.print]

theorem Trace.append_access (t e : Trace) (b : Buffer) (i : Int) (cap : Nat) :
    (t.append e).access b i cap = t.append (e.access b i cap) := by
  unfold Trace.access
  split_ifs <;> simp [Trace.append]

theorem dequote_path_after (p : Str) (t : Trace) :
    dequote_path p t = (dequote_path p Trace.empty).after t := by
  unfold dequote_path
  simp only
  split_ifs
  · simp [Outcome.after, Trace.print_eq_append t]
  · simp [Outcome.after, Trace.access_eq_append t]

theorem convert_path_after (h : Host) (g : Globals) (p : Str) (t : Trace) :
    convert_path h g p t = (convert_path h g p Trace.empty).after t := by
  unfold convert_path
  split_ifs
  · rw [dequote_path_after p t]
    cases dequote_path p Trace.empty with
    | exit c e => rfl
    | fault e => rfl
    | cont r e =>
      simp only [Outcome.after, Outcome.bind_cont, poke]
      split_ifs <;>
        simp only [Outcome.after, Trace.append_print, Trace.append_access]
  · simp [Outcome.after, Trace.append_empty]

theorem convert_path_probe (h : Host) (g : Globals) (p : Str) (t : Trace) (cmds : List Str)
    (r : StatRes) (hp : probe h g cmds p = some r) :
    ∃ c t1, convert_path h g p t = .cont c t1 ∧ t1.cmds = t.cmds ∧ h.stat cmds c = r := by
  unfold probe at hp
  rw [convert_path_after h g p t]
  have hc := convert_path_cmds h g p Trace.empty
  cases hcp : convert_path h g p Trace.empty with
  | exit c e => rw [hcp] at hp; simp at hp
  | fault e => rw [hcp] at hp; simp at hp
  | cont c e =>
    rw [hcp] at hp hc
    simp only [Option.some.injEq] at hp
    simp only [Outcome.trace_cont] at hc
    refine ⟨c, t.append e, rfl, ?_, hp⟩
    simp [Trace.append, hc, Trace.empty]

/-- Outside Windows-path mode the path is not converted: the search loop
learns the answer of `stat` on the candidate itself. -/
theorem probe_of_not_winpath (h : Host) (g : Globals) (cmds : List Str) (p : Str)
    (hw : g.g_winpath = false) : probe h g cmds p = some (h.stat cmds p) := by
  simp [probe, convert_path, hw]

theorem candidate_eq (g : Globals) (dir file : Str) :
    with_separator g dir ++ file = candidate g dir file := by
  unfold with_separator candidate
  split_ifs <;> simp_all

theorem candidate_length (g : Globals) (dir file : Str) :
    (candidate g dir file).length = sep_len g dir + file.length := by
  unfold candidate sep_len
  split_ifs <;> simp_all; omega

theorem search_cons_fits (h : Host) (g : Globals) (file cmd : Str) (len : Nat) (dir : Str)
    (rest : List Str) (t : Trace) (hf : path_fits g dir file) :
    search h g file cmd len (dir :: rest) t =
      (convert_path h g (candidate g dir file) (try_trace g dir file t)).bind
        fun converted t4 =>
          match h.stat t4.cmds converted with
          | .fail => search h g file cmd len rest t4
          | .other =>
            .exit EXIT_FAILURE
              (t4.print .stderr ("ERROR: File ".toList ++ candidate g dir file
                ++ " exists but is not a regular file".toList ++ [NL]))
          | .regular => execute h g cmd len (candidate g dir file) t4 := by
  obtain ⟨h1, h2⟩ := hf
  rw [candidate_length] at h2
  rw [search, if_neg (by omega), if_neg (by omega), candidate_eq]

/-- A directory whose candidate is absent is skipped. -/
theorem search_skip (h : Host) (g : Globals) (file cmd : Str) (len : Nat) (dir : Str)
    (rest : List Str) (t : Trace) (hf : path_fits g dir file)
    (hp : probe h g t.cmds (candidate g dir file) = some .fail) :
    ∃ t1 : Trace, t1.cmds = t.cmds
      ∧ search h g file cmd len (dir :: rest) t = search h g file cmd len rest t1 := by
  obtain ⟨c, t1, hc, hcm, hs⟩ := convert_path_probe h g _ (try_trace g dir file t) _ _ hp
  refine ⟨t1, by simpa using hcm, ?_⟩
  rw [search_cons_fits _ _ _ _ _ _ _ _ hf, hc]
  simp only [Outcome.bind_cont]
  rw [hcm, try_trace_cmds, hs]

theorem search_skip_all (h : Host) (g : Globals) (file cmd : Str) (len : Nat) (pre : List Str) :
    ∀ (rest : List Str) (t : Trace),
    (∀ d ∈ pre, path_fits g d file ∧ probe h g t.cmds (candidate g d file) = some .fail) →
    ∃ t1 : Trace, t1.cmds = t.cmds
      ∧ search h g file cmd len (pre ++ rest) t = search h g file cmd len rest t1 := by
  induction pre with
  | nil => intro rest t _; exact ⟨t, rfl, rfl⟩
  | cons d pre ih =>
    intro rest t hpre
    obtain ⟨hf, hp⟩ := hpre d (List.mem_cons_self _ _)
    obtain ⟨t1, hc1, e1⟩ := search_skip h g file cmd len d (pre ++ rest) t hf hp
    have hpre1 : ∀ x ∈ pre, path_fits g x file
        ∧ probe h g t1.cmds (candidate g x file) = some .fail := by
      intro x hx
      rw [hc1]
      exact hpre x (List.mem_cons_of_mem _ hx)
    obtain ⟨t2, hc2, e2⟩ := ih rest t1 hpre1
    exact ⟨t2, by rw [hc2, hc1], by rw [List.cons_append, e1, e2]⟩

/-- A directory whose candidate is a regular file ends the search: the
command is executed. -/
theorem search_regular (h : Host) (g : Globals) (file cmd : Str) (len : Nat) (dir : Str)
    (rest : List Str) (t : Trace) (hf : path_fits g dir file)
    (hp : probe h g t.cmds (candidate g dir file) = some .regular) :
    ∃ t1 : Trace, t1.cmds = t.cmds
      ∧ search h g file cmd len (dir :: rest) t
        = execute h g cmd len (candidate g dir file) t1 := by
  obtain ⟨c, t1, hc, hcm, hs⟩ := convert_path_probe h g _ (try_trace g dir file t) _ _ hp
  refine ⟨t1, by simpa using hcm, ?_⟩
  rw [search_cons_fits _ _ _ _ _ _ _ _ hf, hc]
  simp only [Outcome.bind_cont]
  rw [hcm, try_trace_cmds, hs]

/-- A directory whose candidate exists and is not a regular file ends the run. -/
theorem search_other (h : Host) (g : Globals) (file cmd : Str) (len : Nat) (dir : Str)
    (rest : List Str) (t : Trace) (hf : path_fits g dir file)
    (hp : probe h g t.cmds (candidate g dir file) = some .other) :
    ∃ t1 : Trace, t1.cmds = t.cmds
      ∧ search h g file cmd len (dir :: rest) t
        = .exit EXIT_FAILURE
            (t1.print .stderr ("ERROR: File ".toList ++ candidate g dir file
              ++ " exists but is not a regular file".toList ++ [NL])) := by
  obtain ⟨c, t1, hc, hcm, hs⟩ := convert_path_probe h g _ (try_trace g dir file t) _ _ hp
  refine ⟨t1, by simpa using hcm, ?_⟩
  rw [search_cons_fits _ _ _ _ _ _ _ _ hf, hc]
  simp only [Outcome.bind_cont]
  rw [hcm, try_trace_cmds, hs]

theorem expand_spec_aux_length_le (prev : Option Char) (s : Str) :
    (expand_spec_aux prev s).length ≤ 2 * s.length := by
  induction s generalizing prev with
  | nil => simp [expand_spec_aux]
  | cons c rest ih =>
    have := ih (some c)
    simp only [expand_spec_aux, List.length_append, List.length_cons]
    split_ifs <;> simp <;> omega

theorem do_expand_expansion (w : Bool) (s : Str) (t : Trace)
    (hfit : w = true → (expand_spec s).length < MAX_EXPAND) :
    do_expand w s t = .cont (expansion w s) t := by
  cases w with
  | false => simp [do_expand, expansion]
  | true => simpa [expansion] using do_expand_fits s t (hfit rfl)

/-- When the command with the expanded path fits `g_command`, `execute` hands
it to `system()` and continues exactly when the returned value passes the
test. -/
theorem execute_runs (h : Host) (g : Globals) (cmd : Str) (len : Nat) (p : Str) (t : Trace)
    (hp : p.length < MAX_PATH)
    (hlen : len + (expansion g.g_winpath p).length < MAX_BUFFER) :
    (execute h g cmd len p t).trace.cmds = t.cmds ++ [cmd ++ expansion g.g_winpath p]
    ∧ (system_ok h (h.system t.cmds (cmd ++ expansion g.g_winpath p)) →
        ∃ t1, execute h g cmd len p t = .cont () t1)
    ∧ (¬ system_ok h (h.system t.cmds (cmd ++ expansion g.g_winpath p)) →
        ∃ t1, execute h g cmd len p t = .exit EXIT_FAILURE t1) := by
  have hx : do_expand g.g_winpath p t = .cont (expansion g.g_winpath p) t := by
    apply do_expand_expansion
    intro _
    have := expand_spec_aux_length_le none p
    simp only [expand_spec, MAX_EXPAND]
    simp only [MAX_PATH] at hp
    omega
  have hge : ¬ (len + (expansion g.g_winpath p).length ≥ MAX_BUFFER) := by omega
  unfold execute
  rw [hx]
  simp only [Outcome.bind_cont, hge, if_false]
  have hcm : (if g.g_debug ≠ 0 then
      (t.access Buffer.g_command ↑(cmd ++ expansion g.g_winpath p).length MAX_BUFFER).print
        Stream.stderr ("Executing: ".toList ++ (cmd ++ expansion g.g_winpath p) ++ [NL])
      else t.access Buffer.g_command ↑(cmd ++ expansion g.g_winpath p).length MAX_BUFFER).cmds
      = t.cmds := by
    split_ifs <;> simp
  rw [hcm]
  unfold system_ok
  refine ⟨?_, ?_, ?_⟩
  · split_ifs <;> simp [hcm]
  · intro hok
    rw [if_neg hok]
    exact ⟨_, rfl⟩
  · intro hbad
    rw [if_pos (not_not.1 hbad)]
    exact ⟨_, rfl⟩

/-! ### The command buffer -/

theorem moption_length : moption.length = 4 := rfl

/-- When everything fits, the first part of `do_dependency` leaves in
`g_command` the compiler, the `-MT` part, ` -M `, the flags and a space. -/
theorem build_command_fits (h : Host) (g : Globals) (cc file : Str) (t : Trace)
    (hcc : g.g_cc = some cc) (hx : expand_fits h g file)
    (hlen : (cc ++ target_part h g file ++ moption ++ flags_part g).length < MAX_BUFFER) :
    ∃ t1 : Trace, t1.cmds = t.cmds
      ∧ build_command h g file t
        = .cont (cc ++ target_part h g file ++ moption ++ flags_part g ++ [' '],
            (cc ++ target_part h g file ++ moption ++ flags_part g).length + 1) t1 := by
  have hcmds := build_command_cmds h g file t
  unfold build_command at hcmds ⊢
  rw [hcc] at hcmds ⊢
  simp only [List.length_append, moption_length] at hlen
  simp only at hcmds ⊢
  rw [if_neg (by omega)] at hcmds ⊢
  cases ho : g.g_objpath with
  | none =>
    simp only [target_part, ho, List.length_nil, Nat.add_zero, List.append_nil] at hlen hcmds ⊢
    simp only [Outcome.bind_cont, moption_length] at hcmds ⊢
    rw [if_neg (by omega)] at hcmds ⊢
    cases hf : g.g_cflags with
    | none =>
      simp only [flags_part, hf, List.length_nil, Nat.add_zero, List.append_nil] at hlen hcmds ⊢
      simp only [Outcome.bind_cont, List.length_append, moption_length, le_refl, if_true,
        Outcome.trace_cont] at hcmds ⊢
      refine ⟨_, hcmds, ?_⟩
      rw [List.take_of_length_le (by simp only [List.length_append, moption_length]; omega)]
    | some cflags =>
      have hxf : do_expand g.g_winpath cflags
          (((t.access Buffer.g_command ↑cc.length MAX_BUFFER).access Buffer.g_command
            ↑(cc ++ moption).length MAX_BUFFER))
          = .cont (expansion g.g_winpath cflags) _ :=
        do_expand_expansion _ _ _ (fun hw => (hx hw).2 cflags hf)
      simp only [flags_part, hf] at hlen hcmds ⊢
      simp only [hxf, Outcome.bind_cont] at hcmds ⊢
      rw [if_neg (by omega)] at hcmds ⊢
      simp only [Outcome.bind_cont, List.length_append, moption_length, Outcome.trace_cont]
        at hcmds ⊢
      refine ⟨_, hcmds, ?_⟩
      rw [if_pos (le_refl _), List.take_of_length_le (by simp only [List.length_append, moption_length]; omega)]
  | some objpath =>
    have hxo : do_expand g.g_winpath (target_option h g objpath file)
        (t.access Buffer.g_command ↑cc.length MAX_BUFFER)
        = .cont (expansion g.g_winpath (target_option h g objpath file)) _ :=
      do_expand_expansion _ _ _ (fun hw => (hx hw).1 objpath ho)
    simp only [target_part, ho] at hlen hcmds ⊢
    simp only [hxo, Outcome.bind_cont] at hcmds ⊢
    rw [if_neg (by omega)] at hcmds ⊢
    simp only [Outcome.bind_cont, moption_length] at hcmds ⊢
    rw [if_neg (by omega)] at hcmds ⊢
    cases hf : g.g_cflags with
    | none =>
      simp only [flags_part, hf, List.length_nil, Nat.add_zero, List.append_nil] at hlen hcmds ⊢
      simp only [Outcome.bind_cont, List.length_append, moption_length, Outcome.trace_cont]
        at hcmds ⊢
      refine ⟨_, hcmds, ?_⟩
      rw [if_pos (le_refl _), List.take_of_length_le (by simp only [List.length_append, moption_length]; omega)]
    | some cflags =>
      have hxf : ∀ t0, do_expand g.g_winpath cflags t0
          = .cont (expansion g.g_winpath cflags) t0 :=
        fun t0 => do_expand_expansion _ _ _ (fun hw => (hx hw).2 cflags hf)
      simp only [flags_part, hf] at hlen hcmds ⊢
      simp only [hxf, Outcome.bind_cont] at hcmds ⊢
      rw [if_neg (by omega)] at hcmds ⊢
      simp only [Outcome.bind_cont, List.length_append, moption_length, Outcome.trace_cont]
        at hcmds ⊢
      refine ⟨_, hcmds, ?_⟩
      rw [if_pos (le_refl _), List.take_of_length_le (by simp only [List.length_append, moption_length]; omega)]

/-- When one of the length tests of the first part of `do_dependency` fails,
the run ends with `EXIT_FAILURE`. -/
theorem build_command_too_long (h : Host) (g : Globals) (cc file : Str) (t : Trace)
    (hcc : g.g_cc = some cc) (hx : expand_fits h g file)
    (hlen : ¬ (cc ++ target_part h g file ++ moption ++ flags_part g).length < MAX_BUFFER) :
    ∃ t1 : Trace, t1.cmds = t.cmds ∧ build_command h g file t = .exit EXIT_FAILURE t1 := by
  have hcmds := build_command_cmds h g file t
  have hxf : ∀ cflags, g.g_cflags = some cflags → ∀ t0, do_expand g.g_winpath cflags t0
      = .cont (expansion g.g_winpath cflags) t0 :=
    fun cflags hf t0 => do_expand_expansion _ _ _ (fun hw => (hx hw).2 cflags hf)
  have hxo : ∀ objpath, g.g_objpath = some objpath → ∀ t0,
      do_expand g.g_winpath (target_option h g objpath file) t0
      = .cont (expansion g.g_winpath (target_option h g objpath file)) t0 :=
    fun objpath ho t0 => do_expand_expansion _ _ _ (fun hw => (hx hw).1 objpath ho)
  unfold build_command at hcmds ⊢
  rw [hcc] at hcmds ⊢
  simp only [List.length_append, moption_length] at hlen
  simp only at hcmds ⊢
  by_cases h1 : cc.length ≥ MAX_BUFFER
  · rw [if_pos h1] at hcmds ⊢
    exact ⟨_, hcmds, rfl⟩
  rw [if_neg h1] at hcmds ⊢
  cases ho : g.g_objpath with
  | none =>
    rw [ho] at hcmds
    simp only [target_part, ho, List.length_nil, Nat.add_zero] at hlen
    simp only [Outcome.bind_cont, moption_length] at hcmds ⊢
    by_cases h2 : cc.length + 4 ≥ MAX_BUFFER
    · rw [if_pos h2] at hcmds ⊢
      exact ⟨_, hcmds, rfl⟩
    rw [if_neg h2] at hcmds ⊢
    cases hf : g.g_cflags with
    | none =>
      simp only [flags_part, hf, List.length_nil, Nat.add_zero] at hlen
      omega
    | some cflags =>
      rw [hf] at hcmds
      simp only [flags_part, hf] at hlen
      simp only [hxf cflags hf, Outcome.bind_cont] at hcmds ⊢
      rw [if_pos (by omega)] at hcmds ⊢
      exact ⟨_, hcmds, rfl⟩
  | some objpath =>
    rw [ho] at hcmds
    simp only [target_part, ho] at hlen
    simp only [hxo objpath ho, Outcome.bind_cont] at hcmds ⊢
    by_cases h2 : cc.length + (expansion g.g_winpath (target_option h g objpath file)).length
        ≥ MAX_BUFFER
    · rw [if_pos h2] at hcmds ⊢
      exact ⟨_, hcmds, rfl⟩
    rw [if_neg h2] at hcmds ⊢
    simp only [Outcome.bind_cont, moption_length] at hcmds ⊢
    by_cases h3 : cc.length + (expansion g.g_winpath (target_option h g objpath file)).length + 4
        ≥ MAX_BUFFER
    · rw [if_pos h3] at hcmds ⊢
      exact ⟨_, hcmds, rfl⟩
    rw [if_neg h3] at hcmds ⊢
    cases hf : g.g_cflags with
    | none =>
      simp only [flags_part, hf, List.length_nil, Nat.add_zero] at hlen
      omega
    | some cflags =>
      rw [hf] at hcmds
      simp only [flags_part, hf] at hlen
      simp only [hxf cflags hf, Outcome.bind_cont] at hcmds ⊢
      rw [if_pos (by omega)] at hcmds ⊢
      exact ⟨_, hcmds, rfl⟩

/-- The command buffer after the first part of `do_dependency`, whenever that
part returns. -/
theorem build_command_cont (h : Host) (g : Globals) (cc file : Str) (t : Trace)
    (hcc : g.g_cc = some cc) (hx : expand_fits h g file) (c : Str × Nat) (t1 : Trace)
    (hb : build_command h g file t = .cont c t1) :
    c = (cc ++ target_part h g file ++ moption ++ flags_part g ++ [' '],
          (cc ++ target_part h g file ++ moption ++ flags_part g).length + 1)
    ∧ (cc ++ target_part h g file ++ moption ++ flags_part g).length < MAX_BUFFER
    ∧ t1.cmds = t.cmds := by
  by_cases hlen : (cc ++ target_part h g file ++ moption ++ flags_part g).length < MAX_BUFFER
  · obtain ⟨t2, hc2, e2⟩ := build_command_fits h g cc file t hcc hx hlen
    rw [e2] at hb
    simp only [Outcome.cont.injEq] at hb
    exact ⟨hb.1.symm, hlen, by rw [← hb.2, hc2]⟩
  · obtain ⟨t2, _, e2⟩ := build_command_too_long h g cc file t hcc hx hlen
    rw [e2] at hb
    simp at hb

theorem basename_of_name (dir name : Str) (hn : name ≠ []) (hs : '/' ∉ name) :
    basename (dir ++ '/' :: name) = name ∧ basename name = name := by
  have hmem : ∀ x ∈ name.reverse, x ≠ '/' := by
    intro x hx e
    rw [List.mem_reverse] at hx
    exact hs (e ▸ hx)
  have hdrop : ∀ (l : Str), (name.reverse ++ l).dropWhile (fun c => decide (c = '/'))
      = name.reverse ++ l := by
    intro l
    cases hr : name.reverse with
    | nil => simp at hr; exact absurd hr hn
    | cons a r =>
      have : a ≠ '/' := hmem a (by rw [hr]; simp)
      simp [List.dropWhile_cons, this]
  have h2 : ∀ (l : Str), (name.reverse ++ '/' :: l).takeWhile (fun c => decide (c ≠ '/'))
      = name.reverse := by
    intro l
    rw [List.takeWhile_append_of_pos]
    · simp
    · intro x hx
      simpa using hmem x hx
  have h3 : name.reverse.takeWhile (fun c => decide (c ≠ '/')) = name.reverse := by
    rw [List.takeWhile_eq_self_iff]
    intro x hx
    simpa using hmem x hx
  constructor
  · have e1 : (dir ++ '/' :: name).reverse = name.reverse ++ '/' :: dir.reverse := by simp
    have hne : dir ++ '/' :: name ≠ [] := by simp
    have hne2 : (name.reverse ++ '/' :: dir.reverse).reverse ≠ [] := by simp
    unfold basename
    simp only [if_neg hne, e1, hdrop, if_neg hne2, List.reverse_reverse, h2]
  · have h1 := hdrop []
    rw [List.append_nil] at h1
    unfold basename
    simp only [if_neg hn, h1, List.reverse_reverse, h3]

theorem cut_last_dot_ext (pre ext : Str) (he : '.' ∉ ext) :
    cut_last_dot (pre ++ '.' :: ext) = pre := by
  unfold cut_last_dot
  rw [if_pos (by simp)]
  have e1 : (pre ++ '.' :: ext).reverse = ext.reverse ++ '.' :: pre.reverse := by simp
  have e2 : (ext.reverse ++ '.' :: pre.reverse).dropWhile (fun c => decide (c ≠ '.'))
      = '.' :: pre.reverse := by
    rw [List.dropWhile_append_of_pos]
    · simp
    · intro x hx
      have hx2 : x ∈ ext := by simpa using hx
      have : x ≠ '.' := fun e => he (e ▸ hx2)
      simpa using this
  rw [e1, e2]
  simp

theorem cut_last_dot_none (s : Str) (hs : '.' ∉ s) : cut_last_dot s = s := by
  unfold cut_last_dot
  rw [if_neg hs]

/-! ### Ends of the search -/

theorem Outcome.cont_or_failure_bind {α β : Type} (o : Outcome α) (f : α → Trace → Outcome β)
    (ho : o.cont_or_failure) (hf : ∀ a t, (f a t).cont_or_failure) :
    (o.bind f).cont_or_failure := by
  cases o with
  | cont a t => exact hf a t
  | exit c t => exact ho
  | fault t => exact ho

theorem do_expand_cont_or_failure (w : Bool) (s : Str) (t : Trace) :
    (do_expand w s t).cont_or_failure := by
  unfold do_expand
  split_ifs
  · simp only
    split_ifs <;> simp [Outcome.cont_or_failure]
  · simp [Outcome.cont_or_failure]

theorem dequote_path_cont_or_failure (p : Str) (t : Trace) :
    (dequote_path p t).cont_or_failure := by
  unfold dequote_path
  simp only
  split_ifs <;> simp [Outcome.cont_or_failure]

theorem convert_path_cont_or_failure (h : Host) (g : Globals) (p : Str) (t : Trace) :
    (convert_path h g p t).cont_or_failure := by
  unfold convert_path
  split_ifs
  · apply Outcome.cont_or_failure_bind _ _ (dequote_path_cont_or_failure p t)
    intro a t1
    simp only
    split_ifs <;> simp [Outcome.cont_or_failure]
  · simp [Outcome.cont_or_failure]

theorem build_command_cont_or_failure (h : Host) (g : Globals) (cc file : Str) (t : Trace)
    (hcc : g.g_cc = some cc) : (build_command h g file t).cont_or_failure := by
  unfold build_command
  rw [hcc]
  simp only
  split_ifs
  · simp [Outcome.cont_or_failure]
  · apply Outcome.cont_or_failure_bind
    · cases g.g_objpath with
      | none => simp [Outcome.cont_or_failure]
      | some objpath =>
        simp only
        apply Outcome.cont_or_failure_bind _ _ (do_expand_cont_or_failure _ _ _)
        intro a t1
        split_ifs <;> simp [Outcome.cont_or_failure]
    · intro c1 t1
      split_ifs
      · simp [Outcome.cont_or_failure]
      · apply Outcome.cont_or_failure_bind
        · cases g.g_cflags with
          | none => simp [Outcome.cont_or_failure]
          | some cflags =>
            simp only
            apply Outcome.cont_or_failure_bind _ _ (do_expand_cont_or_failure _ _ _)
            intro a t2
            split_ifs <;> simp [Outcome.cont_or_failure]
        · intro c3 t3
          simp [Outcome.cont_or_failure]

/-- The three ways in which the conversion of a candidate path can end. -/
theorem convert_path_cases (h : Host) (g : Globals) (p : Str) (t : Trace) (cmds : List Str) :
    (∃ c t1, convert_path h g p t = .cont c t1 ∧ t1.cmds = t.cmds
        ∧ probe h g cmds p = some (h.stat cmds c))
    ∨ (∃ t1, convert_path h g p t = .exit EXIT_FAILURE t1 ∧ t1.cmds = t.cmds
        ∧ probe h g cmds p = none) := by
  have hcf := convert_path_cont_or_failure h g p Trace.empty
  have hc := convert_path_cmds h g p Trace.empty
  rw [convert_path_after h g p t]
  unfold probe
  cases hcp : convert_path h g p Trace.empty with
  | cont c e =>
    left
    rw [hcp] at hc
    refine ⟨c, t.append e, rfl, ?_, rfl⟩
    simp only [Outcome.trace_cont] at hc
    simp [Trace.append, hc, Trace.empty]
  | exit c e =>
    right
    rw [hcp] at hc hcf
    simp only [Outcome.cont_or_failure] at hcf
    subst hcf
    refine ⟨t.append e, rfl, ?_, rfl⟩
    simp only [Outcome.trace_exit] at hc
    simp [Trace.append, hc, Trace.empty]
  | fault e =>
    rw [hcp] at hcf
    exact absurd hcf (by simp [Outcome.cont_or_failure])

/-- One turn of the search loop on a directory whose candidate is not a
regular file: the run ends with `EXIT_FAILURE`, or the next directory is
tried; no command is executed. -/
theorem search_step_not_regular (h : Host) (g : Globals) (file cmd : Str) (len : Nat)
    (dir : Str) (rest : List Str) (t : Trace)
    (hp : probe h g t.cmds (candidate g dir file) ≠ some .regular) :
    (∃ t1 : Trace, search h g file cmd len (dir :: rest) t = .exit EXIT_FAILURE t1
        ∧ t1.cmds = t.cmds)
    ∨ (∃ t1 : Trace, t1.cmds = t.cmds
        ∧ probe h g t.cmds (candidate g dir file) = some .fail
        ∧ search h g file cmd len (dir :: rest) t = search h g file cmd len rest t1) := by
  rw [search]
  split_ifs with h1 h2
  · left; exact ⟨_, rfl, by simp⟩
  · left; exact ⟨_, rfl, by simp⟩
  · rw [candidate_eq]
    rcases convert_path_cases h g (candidate g dir file) (try_trace g dir file t) t.cmds with
      ⟨c, t1, hc, hcm, hpr⟩ | ⟨t1, hc, hcm, hpr⟩
    · rw [hc]
      simp only [Outcome.bind_cont]
      rw [try_trace_cmds] at hcm
      rw [hcm]
      cases hs : h.stat t.cmds c with
      | fail =>
        right
        exact ⟨t1, hcm, by rw [hpr, hs], rfl⟩
      | other =>
        left
        exact ⟨_, rfl, by simp [hcm]⟩
      | regular =>
        rw [hpr, hs] at hp
        exact absurd rfl hp
    · left
      rw [hc]
      rw [try_trace_cmds] at hcm
      exact ⟨t1, rfl, hcm⟩

/-- While no candidate is a regular file, the search loop executes nothing:
it ends the run with `EXIT_FAILURE` or reaches the rest of the list. -/
theorem search_not_regular (h : Host) (g : Globals) (file cmd : Str) (len : Nat)
    (pre : List Str) :
    ∀ (rest : List Str) (t : Trace),
    (∀ d ∈ pre, probe h g t.cmds (candidate g d file) ≠ some .regular) →
    (∃ t1 : Trace, search h g file cmd len (pre ++ rest) t = .exit EXIT_FAILURE t1
        ∧ t1.cmds = t.cmds)
    ∨ (∃ t1 : Trace, t1.cmds = t.cmds
        ∧ (∀ d ∈ pre, probe h g t.cmds (candidate g d file) = some .fail)
        ∧ search h g file cmd len (pre ++ rest) t = search h g file cmd len rest t1) := by
  induction pre with
  | nil => intro rest t _; right; exact ⟨t, rfl, by simp, rfl⟩
  | cons d pre ih =>
    intro rest t hpre
    rcases search_step_not_regular h g file cmd len d (pre ++ rest) t
        (hpre d (List.mem_cons_self _ _)) with ⟨t1, e1, hc1⟩ | ⟨t1, hc1, hp1, e1⟩
    · left; exact ⟨t1, by rw [List.cons_append, e1], hc1⟩
    · have hpre1 : ∀ x ∈ pre, probe h g t1.cmds (candidate g x file) ≠ some .regular := by
        intro x hx
        rw [hc1]
        exact hpre x (List.mem_cons_of_mem _ hx)
      rcases ih rest t1 hpre1 with ⟨t2, e2, hc2⟩ | ⟨t2, hc2, hp2, e2⟩
      · left; exact ⟨t2, by rw [List.cons_append, e1, e2], by rw [hc2, hc1]⟩
      · right
        refine ⟨t2, by rw [hc2, hc1], ?_, by rw [List.cons_append, e1, e2]⟩
        intro x hx
        rcases List.mem_cons.1 hx with rfl | hx
        · exact hp1
        · rw [← hc1]; exact hp2 x hx

/-- The start of `do_dependency`: it ends the run with `EXIT_FAILURE` before
any command, or enters the search loop over the tokens of `g_altpath`. -/
theorem do_dependency_enters (h : Host) (g : Globals) (cc altpath file : Str) (t : Trace)
    (hcc : g.g_cc = some cc) (ha : g.g_altpath = some altpath) :
    (∃ t1 : Trace, do_dependency h g file t = .exit EXIT_FAILURE t1 ∧ t1.cmds = t.cmds)
    ∨ (∃ (c : Str × Nat) (t1 : Trace), t1.cmds = t.cmds
        ∧ build_command h g file t = .cont c t1
        ∧ do_dependency h g file t = search h g file c.1 c.2 (strtok_all altpath) t1) := by
  have hcf := build_command_cont_or_failure h g cc file t hcc
  have hcm := build_command_cmds h g file t
  unfold do_dependency
  cases hb : build_command h g file t with
  | cont c t1 =>
    right
    rw [hb] at hcm
    exact ⟨c, t1, by simpa using hcm, rfl, by simp [ha]⟩
  | exit c t1 =>
    left
    rw [hb] at hcm hcf
    simp only [Outcome.cont_or_failure] at hcf
    subst hcf
    exact ⟨t1, rfl, by simpa using hcm⟩
  | fault t1 =>
    rw [hb] at hcf
    exact absurd hcf (by simp [Outcome.cont_or_failure])

/-! ### The target option -/

theorem target_option_fits (h : Host) (g : Globals) (objpath file : Str)
    (hfit : (target_text g objpath file).length ≤ h.NAME_MAX + 5) :
    target_option h g objpath file = target_text g objpath file := by
  unfold target_option snprintf
  exact List.take_of_length_le (by unfold target_text at hfit; omega)

/-- C3: with POSIX separators and without Windows-path expansion, when the
text ` -MT D/stem S ` fits `tmp`, the command buffer assembled by
`do_dependency` is the compiler followed by exactly this text, then ` -M `,
the flags and a space; it is assembled whenever it fits `g_command`; every
command handed to `system()` starts with the compiler and this text; and the
stem is the file name without its directory part, cut before its last dot. -/
theorem target_override_in_command (h : Host) (g : Globals) (cc D f : Str) (t : Trace)
    (hcc : g.g_cc = some cc) (hD : g.g_objpath = some D)
    (hposix : g.g_winnative = false) (hnoexp : g.g_winpath = false)
    (hfit : (" -MT ".toList ++ D ++ ['/'] ++ cut_last_dot (basename f) ++ g.g_suffix
      ++ [' ']).length ≤ h.NAME_MAX + 5) :
    (∀ c t1, build_command h g f t = .cont c t1 →
      c.1 = cc ++ (" -MT ".toList ++ D ++ ['/'] ++ cut_last_dot (basename f) ++ g.g_suffix
        ++ [' ']) ++ " -M ".toList ++ g.g_cflags.getD [] ++ [' '])
    ∧ ((cc ++ (" -MT ".toList ++ D ++ ['/'] ++ cut_last_dot (basename f) ++ g.g_suffix
          ++ [' ']) ++ " -M ".toList ++ g.g_cflags.getD []).length < MAX_BUFFER →
        (build_command h g f t).result
          = some (cc ++ (" -MT ".toList ++ D ++ ['/'] ++ cut_last_dot (basename f)
              ++ g.g_suffix ++ [' ']) ++ " -M ".toList ++ g.g_cflags.getD [] ++ [' '],
            (cc ++ (" -MT ".toList ++ D ++ ['/'] ++ cut_last_dot (basename f)
              ++ g.g_suffix ++ [' ']) ++ " -M ".toList ++ g.g_cflags.getD []).length + 1))
    ∧ ((do_dependency h g f t).trace.cmds = t.cmds
        ∨ ∃ e, (do_dependency h g f t).trace.cmds
            = t.cmds ++ [cc ++ (" -MT ".toList ++ D ++ ['/'] ++ cut_last_dot (basename f)
                ++ g.g_suffix ++ [' ']) ++ e])
    ∧ (∀ dir name : Str, name ≠ [] → '/' ∉ name →
        basename (dir ++ '/' :: name) = name ∧ basename name = name)
    ∧ (∀ pre ext : Str, '.' ∉ ext → cut_last_dot (pre ++ '.' :: ext) = pre)
    ∧ (∀ s : Str, '.' ∉ s → cut_last_dot s = s) := by
  have hsep : separator g = '/' := by simp [separator, hposix, hnoexp]
  have htext : target_text g D f
      = " -MT ".toList ++ D ++ ['/'] ++ cut_last_dot (basename f) ++ g.g_suffix ++ [' '] := by
    simp [target_text, hsep]
  have htp : target_part h g f
      = " -MT ".toList ++ D ++ ['/'] ++ cut_last_dot (basename f) ++ g.g_suffix ++ [' '] := by
    rw [← htext]
    simp only [target_part, hD, hnoexp, expansion]
    exact target_option_fits h g D f (by rw [htext]; exact hfit)
  have hfp : flags_part g = g.g_cflags.getD [] := by
    unfold flags_part
    cases g.g_cflags <;> simp [expansion, hnoexp]
  have hx : expand_fits h g f := by
    intro hw; rw [hnoexp] at hw; exact absurd hw (by simp)
  have hcont : ∀ c t1, build_command h g f t = .cont c t1 →
      c.1 = cc ++ (" -MT ".toList ++ D ++ ['/'] ++ cut_last_dot (basename f) ++ g.g_suffix
        ++ [' ']) ++ " -M ".toList ++ g.g_cflags.getD [] ++ [' '] := by
    intro c t1 hb
    have := (build_command_cont h g cc f t hcc hx c t1 hb).1
    rw [this, htp, hfp]
    rfl
  refine ⟨hcont, ?_, ?_, basename_of_name, cut_last_dot_ext, cut_last_dot_none⟩
  · intro hlen
    obtain ⟨t1, _, e1⟩ := build_command_fits h g cc f t hcc hx (by rw [htp, hfp]; exact hlen)
    rw [htp, hfp] at e1
    rw [e1]
    rfl
  · unfold do_dependency
    have hcm := build_command_cmds h g f t
    cases hb : build_command h g f t with
    | exit c t1 => left; rw [hb] at hcm; simpa using hcm
    | fault t1 => left; rw [hb] at hcm; simpa using hcm
    | cont c t1 =>
      rw [hb] at hcm
      simp only [Outcome.trace_cont] at hcm
      simp only [Outcome.bind_cont]
      cases g.g_altpath with
      | none => left; simpa using hcm
      | some altpath =>
        simp only
        rcases search_cmds h g f c.1 c.2 (strtok_all altpath) t1 with e | ⟨e, he⟩
        · left; rw [e, hcm]
        · right
          refine ⟨" -M ".toList ++ g.g_cflags.getD [] ++ [' '] ++ e, ?_⟩
          rw [he, hcm, hcont c t1 hb]
          simp

/-- C3 at `--obj-path /out --obj-suffix .obj` and the file `src/foo.c`: the
target is `/out/foo.obj`. -/
theorem target_override_in_command_witness :
    (build_command host_demo globals_demo "src/foo.c".toList Trace.empty).result
      = some ("gcc -MT /out/foo.obj  -M  ".toList, 26) :=
  (target_override_in_command host_demo globals_demo "gcc".toList "/out".toList
    "src/foo.c".toList Trace.empty rfl rfl rfl rfl (by decide)).2.1 (by decide)

/-! ### A file that is found -/

/-- The search finds the file: the directories before `d` are skipped and the
command with the expanded candidate of `d` is executed. -/
theorem do_dependency_found (h : Host) (g : Globals) (altpath f : Str) (t t1 : Trace)
    (c : Str × Nat) (pre post : List Str) (d : Str)
    (hb : build_command h g f t = .cont c t1)
    (ha : g.g_altpath = some altpath) (hl : strtok_all altpath = pre ++ d :: post)
    (hpre : ∀ x ∈ pre, path_fits g x f ∧ probe h g t.cmds (candidate g x f) = some .fail)
    (hd : path_fits g d f ∧ probe h g t.cmds (candidate g d f) = some .regular)
    (hlen : c.2 + (expansion g.g_winpath (candidate g d f)).length < MAX_BUFFER) :
    (do_dependency h g f t).trace.cmds
      = t.cmds ++ [c.1 ++ expansion g.g_winpath (candidate g d f)]
    ∧ (system_ok h (h.system t.cmds (c.1 ++ expansion g.g_winpath (candidate g d f))) →
        (do_dependency h g f t).result = some ())
    ∧ (¬ system_ok h (h.system t.cmds (c.1 ++ expansion g.g_winpath (candidate g d f))) →
        (do_dependency h g f t).status = some EXIT_FAILURE) := by
  have hcm : t1.cmds = t.cmds := by
    have := build_command_cmds h g f t
    rw [hb] at this
    simpa using this
  obtain ⟨t2, hc2, e2⟩ := search_skip_all h g f c.1 c.2 pre (d :: post) t1
    (by rw [hcm]; exact hpre)
  obtain ⟨t3, hc3, e3⟩ := search_regular h g f c.1 c.2 d post t2 hd.1
    (by rw [hc2, hcm]; exact hd.2)
  have hdd : do_dependency h g f t = execute h g c.1 c.2 (candidate g d f) t3 := by
    unfold do_dependency
    rw [hb]
    simp only [Outcome.bind_cont, ha, hl]
    rw [e2, e3]
  have hex := execute_runs h g c.1 c.2 (candidate g d f) t3 hd.1.2 hlen
  rw [hc3, hc2, hcm] at hex
  rw [hdd]
  refine ⟨hex.1, ?_, ?_⟩
  · intro hok
    obtain ⟨t4, e4⟩ := hex.2.1 hok
    rw [e4]; rfl
  · intro hbad
    obtain ⟨t4, e4⟩ := hex.2.2 hbad
    rw [e4]; rfl

/-! ### The command and the resolved path -/

/-- C4 (amended): when the strings fit their buffers and the search stops at
the directory `d` (the candidates before it are absent, the candidate of `d`
is a regular file), the one command handed to `system()` is the compiler,
the expanded ` -MT ` text exactly when an object directory is configured,
` -M `, the expanded flags (nothing when there are none), a space and the
expanded candidate path, in this order and with no other text; expansion is
the identity outside Windows-path mode. -/
theorem command_handed_to_system (h : Host) (g : Globals) (cc altpath f : Str) (t : Trace)
    (pre post : List Str) (d : Str)
    (hcc : g.g_cc = some cc)
    (htmp : ∀ D, g.g_objpath = some D → (target_text g D f).length ≤ h.NAME_MAX + 5)
    (hxt : g.g_winpath = true → ∀ D, g.g_objpath = some D →
      (expand_spec (target_text g D f)).length < MAX_EXPAND)
    (hxf : g.g_winpath = true → ∀ fl, g.g_cflags = some fl →
      (expand_spec fl).length < MAX_EXPAND)
    (ha : g.g_altpath = some altpath) (hl : strtok_all altpath = pre ++ d :: post)
    (hpre : ∀ x ∈ pre, path_fits g x f ∧ probe h g t.cmds (candidate g x f) = some .fail)
    (hd : path_fits g d f ∧ probe h g t.cmds (candidate g d f) = some .regular)
    (hlen : (cc
        ++ (match g.g_objpath with
            | some D => expansion g.g_winpath (target_text g D f)
            | none => [])
        ++ " -M ".toList
        ++ (match g.g_cflags with
            | some fl => expansion g.g_winpath fl
            | none => [])
        ++ [' '] ++ expansion g.g_winpath (candidate g d f)).length < MAX_BUFFER) :
    (do_dependency h g f t).trace.cmds
      = t.cmds ++ [cc
        ++ (match g.g_objpath with
            | some D => expansion g.g_winpath (target_text g D f)
            | none => [])
        ++ " -M ".toList
        ++ (match g.g_cflags with
            | some fl => expansion g.g_winpath fl
            | none => [])
        ++ [' '] ++ expansion g.g_winpath (candidate g d f)]
    ∧ (g.g_winpath = false →
        (do_dependency h g f t).trace.cmds
          = t.cmds ++ [cc
            ++ (match g.g_objpath with
                | some D => target_text g D f
                | none => [])
            ++ " -M ".toList ++ g.g_cflags.getD [] ++ [' '] ++ candidate g d f]) := by
  have htp : target_part h g f
      = (match g.g_objpath with
          | some D => expansion g.g_winpath (target_text g D f)
          | none => []) := by
    unfold target_part
    cases ho : g.g_objpath with
    | none => rfl
    | some D => simp only [target_option_fits h g D f (htmp D ho)]
  have hfp : flags_part g
      = (match g.g_cflags with
          | some fl => expansion g.g_winpath fl
          | none => []) := rfl
  have hx : expand_fits h g f := by
    intro hw
    refine ⟨fun D ho => ?_, fun fl hf => hxf hw fl hf⟩
    rw [target_option_fits h g D f (htmp D ho)]
    exact hxt hw D ho
  have hm : " -M ".toList = moption := rfl
  rw [← htp, ← hfp, hm] at hlen
  simp only [List.length_append, moption_length, List.length_singleton] at hlen
  have hlen1 : (cc ++ target_part h g f ++ moption ++ flags_part g).length < MAX_BUFFER := by
    simp only [List.length_append, moption_length]
    omega
  obtain ⟨t1, _, hb⟩ := build_command_fits h g cc f t hcc hx hlen1
  have hfound := do_dependency_found h g altpath f t t1 _ pre post d hb ha hl hpre hd
    (by simp only [List.length_append, moption_length]; omega)
  have hcmd := hfound.1
  simp only [htp, hfp, ← hm] at hcmd
  refine ⟨hcmd, ?_⟩
  intro hw
  rw [hcmd, hw]
  cases g.g_objpath <;> cases g.g_cflags <;> simp [expansion]

/-- C4 (amended) at `--obj-path /out --obj-suffix .obj gcc -- -- src/foo.c`
with the search directories `d1 d2`, the file being in `d2`. -/
theorem command_handed_to_system_witness :
    (do_dependency host_demo globals_demo "src/foo.c".toList Trace.empty).trace.cmds
      = ["gcc -MT /out/foo.obj  -M  d2/src/foo.c".toList] :=
  (command_handed_to_system host_demo globals_demo "gcc".toList "d1 d2".toList
    "src/foo.c".toList Trace.empty ["d1".toList] [] "d2".toList rfl (by decide) (by decide)
    (by decide) rfl (by decide) (by decide) (by decide) (by decide)).1

/-- C4 fails in Windows-path mode at `--winpath cl -- -Ia\\b -- a.c` (one
backslash in the flag): the command holds the flag and the path with every
backslash doubled, not the flag and the resolved path themselves. -/
theorem command_in_windows_path_mode :
    (do_dependency host_win globals_win "a.c".toList Trace.empty).trace.cmds
      = ["cl -M -Ia".toList ++ [BSLASH, BSLASH] ++ "b .".toList ++ [BSLASH, BSLASH]
          ++ "a.c".toList]
    ∧ (do_dependency host_win globals_win "a.c".toList Trace.empty).trace.cmds
      ≠ ["cl".toList ++ " -M ".toList ++ ("-Ia".toList ++ [BSLASH, 'b']) ++ [' ']
          ++ candidate globals_win ".".toList "a.c".toList] := by
  decide

/-- C5 (amended): when the command buffer was assembled, every directory up
to `d` and its candidate fit `g_path` (and convert, in Windows-path mode),
the candidates of the directories before `d` are absent, the candidate of
`d` is a regular file and the command with the expanded candidate fits
`g_command`, then `do_dependency` hands to `system()` the command buffer
followed by the expanded candidate of `d` (the candidate itself outside
Windows-path mode), whatever directories follow `d`; the search does not
fail: the call returns exactly when the value of `system()` passes the test,
and exits with `EXIT_FAILURE` otherwise. -/
theorem search_resolves_first_regular (h : Host) (g : Globals) (altpath f : Str)
    (t t1 : Trace) (c : Str × Nat) (pre post : List Str) (d : Str)
    (hb : build_command h g f t = .cont c t1)
    (ha : g.g_altpath = some altpath) (hl : strtok_all altpath = pre ++ d :: post)
    (hpre : ∀ x ∈ pre, path_fits g x f ∧ probe h g t.cmds (candidate g x f) = some .fail)
    (hd : path_fits g d f ∧ probe h g t.cmds (candidate g d f) = some .regular)
    (hlen : c.2 + (expansion g.g_winpath (candidate g d f)).length < MAX_BUFFER) :
    (do_dependency h g f t).trace.cmds
      = t.cmds ++ [c.1 ++ expansion g.g_winpath (candidate g d f)]
    ∧ (g.g_winpath = false →
        (do_dependency h g f t).trace.cmds = t.cmds ++ [c.1 ++ candidate g d f])
    ∧ (system_ok h (h.system t.cmds (c.1 ++ expansion g.g_winpath (candidate g d f))) →
        (do_dependency h g f t).result = some ())
    ∧ (¬ system_ok h (h.system t.cmds (c.1 ++ expansion g.g_winpath (candidate g d f))) →
        (do_dependency h g f t).status = some EXIT_FAILURE) := by
  have hfound := do_dependency_found h g altpath f t t1 c pre post d hb ha hl hpre hd hlen
  refine ⟨hfound.1, ?_, hfound.2.1, hfound.2.2⟩
  intro hw
  rw [hfound.1, hw]
  rfl

/-- C5 (amended) at the search directories `d0 d2 d1`, the file `a.c` being
absent from `d0`, a regular file in `d2` and a directory in `d1`. -/
theorem search_resolves_first_regular_witness :
    (do_dependency host_dir
        { globals_two_dirs with g_altpath := some "d0 d2 d1".toList } "a.c".toList
        Trace.empty).trace.cmds
      = ["gcc -M  d2/a.c".toList] :=
  (search_resolves_first_regular host_dir
    { globals_two_dirs with g_altpath := some "d0 d2 d1".toList } "d0 d2 d1".toList
    "a.c".toList Trace.empty Trace.empty ("gcc -M  ".toList, 8) ["d0".toList] ["d1".toList]
    "d2".toList (by decide) rfl (by decide) (by decide) (by decide) (by decide)).1

set_option maxRecDepth 100000 in
/-- C5 fails when a directory before the one that holds the file is too long
for `g_path` (the search ends with `EXIT_FAILURE` and no command, although
the candidate of the first directory is absent and that of `d2` is a regular
file), and in Windows-path mode (the path appended to the command has its
backslash doubled, so it is not the candidate of `d2`). -/
theorem search_fails_or_expands :
    (host_dir.stat [] (candidate globals_long_dir (List.replicate MAX_PATH 'x') "a.c".toList)
        = StatRes.fail
      ∧ host_dir.stat [] (candidate globals_long_dir "d2".toList "a.c".toList)
        = StatRes.regular
      ∧ (do_dependency host_dir globals_long_dir "a.c".toList Trace.empty).status
        = some EXIT_FAILURE
      ∧ (do_dependency host_dir globals_long_dir "a.c".toList Trace.empty).trace.cmds = [])
    ∧ (probe host_win globals_win_two_dirs []
          (candidate globals_win_two_dirs "d1".toList "a.c".toList) = some StatRes.fail
      ∧ probe host_win globals_win_two_dirs []
          (candidate globals_win_two_dirs "d2".toList "a.c".toList) = some StatRes.regular
      ∧ candidate globals_win_two_dirs "d2".toList "a.c".toList
        = "d2".toList ++ [BSLASH] ++ "a.c".toList
      ∧ (do_dependency host_win globals_win_two_dirs "a.c".toList Trace.empty).trace.cmds
        = ["cl -M  ".toList ++ ("d2".toList ++ [BSLASH, BSLASH] ++ "a.c".toList)]) := by
  decide

/-! ### A file that is absent or not regular -/

theorem status_of_exit {α : Type} (o : Outcome α) (t1 : Trace)
    (e : o = .exit EXIT_FAILURE t1) : o.status = some EXIT_FAILURE := by
  rw [e]; rfl

/-- When no candidate can be opened as anything, `do_dependency` ends the run
with `EXIT_FAILURE` and executes nothing. -/
theorem do_dependency_all_absent (h : Host) (g : Globals) (cc altpath f : Str) (t : Trace)
    (hcc : g.g_cc = some cc) (ha : g.g_altpath = some altpath)
    (habs : ∀ d ∈ strtok_all altpath, ∀ r,
      probe h g t.cmds (candidate g d f) = some r → r = .fail) :
    ∃ t1 : Trace, do_dependency h g f t = .exit EXIT_FAILURE t1 ∧ t1.cmds = t.cmds := by
  rcases do_dependency_enters h g cc altpath f t hcc ha with ⟨t1, e1, hc1⟩ | ⟨c, t1, hc1, _, e1⟩
  · exact ⟨t1, e1, hc1⟩
  · have hnr : ∀ d ∈ strtok_all altpath,
        probe h g t1.cmds (candidate g d f) ≠ some .regular := by
      intro d hd hp
      rw [hc1] at hp
      exact absurd (habs d hd _ hp) (by simp)
    rcases search_not_regular h g f c.1 c.2 (strtok_all altpath) [] t1 hnr with
      ⟨t2, e2, hc2⟩ | ⟨t2, hc2, _, e2⟩
    · rw [List.append_nil] at e2
      exact ⟨t2, by rw [e1, e2], by rw [hc2, hc1]⟩
    · rw [List.append_nil] at e2
      refine ⟨_, by rw [e1, e2, search], ?_⟩
      simp [hc2, hc1]

set_option linter.unusedVariables false in
/-- C6 (amended): on a run that makes no access outside a buffer, when no
candidate path exists, `do_dependency` ends the run with the non-zero status
`EXIT_FAILURE` and `system()` is called neither for this file nor for a
later one; when moreover the expansions of the `-MT` text and of the flags
fit `g_expand`, the command buffer and every candidate path fit their
buffers (and every candidate converts, in Windows-path mode), the last thing
written is the "not found" message, which contains the file name, on
standard output.  The hypothesis `hin` keeps the statement to the runs that
the model describes; the proof does not use it. -/
theorem absent_file_ends_run (h : Host) (g : Globals) (cc altpath f : Str) (t : Trace)
    (hcc : g.g_cc = some cc) (ha : g.g_altpath = some altpath)
    (hin : (do_dependency h g f t).in_bounds)
    (habs : ∀ d ∈ strtok_all altpath, ∀ r,
      probe h g t.cmds (candidate g d f) = some r → r = .fail) :
    (do_dependency h g f t).status = some EXIT_FAILURE
    ∧ EXIT_FAILURE ≠ 0
    ∧ (do_dependency h g f t).trace.cmds = t.cmds
    ∧ (∀ rest, (main_loop h g (f :: rest) t).status = some EXIT_FAILURE
        ∧ (main_loop h g (f :: rest) t).trace.cmds = t.cmds)
    ∧ (expand_fits h g f →
        (cc ++ target_part h g f ++ moption ++ flags_part g).length < MAX_BUFFER →
        (∀ d ∈ strtok_all altpath,
          path_fits g d f ∧ probe h g t.cmds (candidate g d f) = some .fail) →
        (do_dependency h g f t).trace.out.getLast?
          = some (Stream.stdout, not_found_message f))
    ∧ f <:+: not_found_message f := by
  obtain ⟨t1, e1, hc1⟩ := do_dependency_all_absent h g cc altpath f t hcc ha habs
  refine ⟨by rw [e1]; rfl, by decide, by rw [e1]; exact hc1, ?_, ?_, ?_⟩
  · intro rest
    rw [main_loop, e1]
    exact ⟨rfl, hc1⟩
  · intro hx hlen hfit
    obtain ⟨t2, hc2, hb⟩ := build_command_fits h g cc f t hcc hx hlen
    obtain ⟨t3, _, e3⟩ := search_skip_all h g f
      (cc ++ target_part h g f ++ moption ++ flags_part g ++ [' '])
      ((cc ++ target_part h g f ++ moption ++ flags_part g).length + 1)
      (strtok_all altpath) [] t2 (by rw [hc2]; exact hfit)
    rw [List.append_nil] at e3
    unfold do_dependency
    rw [hb]
    simp only [Outcome.bind_cont, ha, e3, search, Outcome.trace_exit, Trace.print,
      not_found_message]
    simp
  · exact ⟨"# ERROR: File ".toList ++ [DQUOTE],
      [DQUOTE] ++ " not found at any location".toList ++ [NL], by
        simp [not_found_message]⟩

/-- C6 (amended) at the search directories `d1 d2` on a host without files:
the run stays inside the buffers, ends with `EXIT_FAILURE` and its last line
is the "not found" message. -/
theorem absent_file_ends_run_witness :
    (do_dependency host_none globals_two_dirs "a.c".toList Trace.empty).in_bounds
    ∧ (do_dependency host_none globals_two_dirs "a.c".toList Trace.empty).status
        = some EXIT_FAILURE
    ∧ (do_dependency host_none globals_two_dirs "a.c".toList Trace.empty).trace.out.getLast?
        = some (Stream.stdout, not_found_message "a.c".toList) :=
  ⟨by decide,
    (absent_file_ends_run host_none globals_two_dirs "gcc".toList "d1 d2".toList "a.c".toList
      Trace.empty rfl rfl (by decide) (by decide)).1,
    (absent_file_ends_run host_none globals_two_dirs "gcc".toList "d1 d2".toList "a.c".toList
      Trace.empty rfl rfl (by decide) (by decide)).2.2.2.2.1
      (fun hw => absurd hw (by decide)) (by decide) (by decide)⟩

set_option maxRecDepth 100000 in
/-- C6 fails when a search directory is too long for `g_path`: no candidate
exists, the run stays inside the buffers and ends with `EXIT_FAILURE`, but
the only message written is the length diagnostic on standard error, not the
"not found" message. -/
theorem absent_file_without_message :
    (do_dependency host_none globals_long_dir "a.c".toList Trace.empty).status
      = some EXIT_FAILURE
    ∧ (do_dependency host_none globals_long_dir "a.c".toList Trace.empty).in_bounds
    ∧ (do_dependency host_none globals_long_dir "a.c".toList Trace.empty).trace.out.map
        Prod.fst = [Stream.stderr]
    ∧ (Stream.stdout, not_found_message "a.c".toList)
        ∉ (do_dependency host_none globals_long_dir "a.c".toList Trace.empty).trace.out := by
  decide

set_option linter.unusedVariables false in
/-- C7: on a run that makes no access outside a buffer, when the first
candidate path on which `stat` succeeds is not a regular file,
`do_dependency` ends the run with the non-zero status `EXIT_FAILURE` and
hands nothing to `system()`, whatever the later search directories contain.
The compiler and the search directories are set, as they are whenever
`parse_args` has returned.  The hypothesis `hin` keeps the statement to the
runs that the model describes; the proof does not use it. -/
theorem not_regular_ends_run (h : Host) (g : Globals) (cc altpath f : Str) (t : Trace)
    (pre post : List Str) (d : Str)
    (hcc : g.g_cc = some cc) (ha : g.g_altpath = some altpath)
    (hin : (do_dependency h g f t).in_bounds)
    (hl : strtok_all altpath = pre ++ d :: post)
    (hpre : ∀ x ∈ pre, ∀ r, probe h g t.cmds (candidate g x f) = some r → r = .fail)
    (hd : probe h g t.cmds (candidate g d f) = some .other) :
    (do_dependency h g f t).status = some EXIT_FAILURE
    ∧ EXIT_FAILURE ≠ 0
    ∧ (do_dependency h g f t).trace.cmds = t.cmds := by
  have key : ∃ t1 : Trace, do_dependency h g f t = .exit EXIT_FAILURE t1
      ∧ t1.cmds = t.cmds := by
    rcases do_dependency_enters h g cc altpath f t hcc ha with
      ⟨t1, e1, hc1⟩ | ⟨c, t1, hc1, _, e1⟩
    · exact ⟨t1, e1, hc1⟩
    · rw [hl] at e1
      have hnr : ∀ x ∈ pre, probe h g t1.cmds (candidate g x f) ≠ some .regular := by
        intro x hx hp
        rw [hc1] at hp
        exact absurd (hpre x hx _ hp) (by simp)
      rcases search_not_regular h g f c.1 c.2 pre (d :: post) t1 hnr with
        ⟨t2, e2, hc2⟩ | ⟨t2, hc2, _, e2⟩
      · exact ⟨t2, by rw [e1, e2], by rw [hc2, hc1]⟩
      · have hd2 : probe h g t2.cmds (candidate g d f) ≠ some .regular := by
          rw [hc2, hc1, hd]; simp
        rcases search_step_not_regular h g f c.1 c.2 d post t2 hd2 with
          ⟨t3, e3, hc3⟩ | ⟨t3, _, hp3, _⟩
        · exact ⟨t3, by rw [e1, e2, e3], by rw [hc3, hc2, hc1]⟩
        · rw [hc2, hc1, hd] at hp3
          simp at hp3
  obtain ⟨t1, e1, hc1⟩ := key
  exact ⟨by rw [e1]; rfl, by decide, by rw [e1]; exact hc1⟩

/-- C7 at the search directories `d1 d2`, where `d1/a.c` is a directory and
`d2/a.c` a regular file. -/
theorem not_regular_ends_run_witness :
    (do_dependency host_dir globals_two_dirs "a.c".toList Trace.empty).in_bounds
    ∧ (do_dependency host_dir globals_two_dirs "a.c".toList Trace.empty).status
        = some EXIT_FAILURE
    ∧ EXIT_FAILURE ≠ 0
    ∧ (do_dependency host_dir globals_two_dirs "a.c".toList Trace.empty).trace.cmds = [] :=
  ⟨by decide,
    not_regular_ends_run host_dir globals_two_dirs "gcc".toList "d1 d2".toList "a.c".toList
      Trace.empty [] ["d2".toList] "d1".toList rfl rfl (by decide) (by decide) (by decide)
      (by decide)⟩

/-! ### Segments of the command line -/

theorem segments_from_ne_nil (items : List Item) : ∀ cur, segments_from cur items ≠ [] := by
  induction items with
  | nil => intro cur; simp [segments_from]
  | cons it rest ih =>
    intro cur
    cases it <;> simp [segments_from, ih]

theorem append_join_opt (cur : List Str) (tok : Str) :
    append (join_opt cur) tok = join_opt (cur ++ [tok]) := by
  rw [← foldl_append_none, ← foldl_append_none, List.foldl_append]
  rfl

theorem join_opt_isSome (cur : List Str) : (join_opt cur).isSome = true ↔ cur ≠ [] := by
  unfold join_opt
  split_ifs with h <;> simp [h]

theorem join_opt_eq_none (cur : List Str) : join_opt cur = none ↔ cur = [] := by
  unfold join_opt
  split_ifs with h <;> simp [h]

/-- The loop of `parse_args` over a command line that it scans to the end:
`done` are the segments closed so far, `cur` the current one. -/
theorem parse_items_segments (progname : Str) (items : List Item) :
    ∀ (done : List (List Str)) (cur : List Str) (g : Globals) (t : Trace),
    scans_to_end items →
    g.g_cflags = done.getLast?.bind join_opt →
    g.g_cc = done.dropLast.getLast?.bind join_opt →
    ∃ g1 : Globals,
      parse_items progname items (join_opt cur) g t
        = .cont (((done ++ segments_from cur items).getLast?).bind join_opt, g1) t
      ∧ g1.g_cflags = (done ++ segments_from cur items).dropLast.getLast?.bind join_opt
      ∧ g1.g_cc = (done ++ segments_from cur items).dropLast.dropLast.getLast?.bind join_opt := by
  induction items with
  | nil =>
    intro done cur g t _ hf hc
    refine ⟨g, ?_, ?_, ?_⟩
    · simp [parse_items, segments_from]
    · simpa [segments_from, List.dropLast_concat] using hf
    · simpa [segments_from, List.dropLast_concat] using hc
  | cons it rest ih =>
    intro done cur g t hs hf hc
    have hs1 : scans_to_end rest := fun i hi => hs i (List.mem_cons_of_mem _ hi)
    cases it with
    | sep =>
      have h1 := ih (done ++ [cur]) [] { g with g_cc := g.g_cflags, g_cflags := join_opt cur } t
        hs1 (by simp) (by simpa [List.dropLast_concat] using hf)
      have e : done ++ [cur] ++ segments_from [] rest = done ++ segments_from cur (.sep :: rest) := by
        simp [segments_from]
      rw [e] at h1
      have e2 : join_opt ([] : List Str) = none := rfl
      rw [e2] at h1
      simpa [parse_items] using h1
    | debug =>
      obtain ⟨g1, h1⟩ := ih done cur { g with g_debug := g.g_debug + 1 } t hs1 hf hc
      exact ⟨g1, by simpa [parse_items, segments_from, segment_step] using h1⟩
    | dep_path val =>
      by_cases hcur : cur = []
      · subst hcur
        have h1 := ih done [] { g with g_altpath := append g.g_altpath val } t hs1 hf hc
        simpa [parse_items, segments_from, segment_step, join_opt] using h1
      · have h1 := ih done (cur ++ [val]) g t hs1 hf hc
        rw [← append_join_opt] at h1
        simpa [parse_items, segments_from, segment_step, hcur, (join_opt_isSome cur).2 hcur]
          using h1
    | obj_path val =>
      obtain ⟨g1, h1⟩ := ih done cur { g with g_objpath := some val } t hs1 hf hc
      exact ⟨g1, by simpa [parse_items, segments_from, segment_step] using h1⟩
    | obj_suffix val =>
      obtain ⟨g1, h1⟩ := ih done cur { g with g_suffix := val } t hs1 hf hc
      exact ⟨g1, by simpa [parse_items, segments_from, segment_step] using h1⟩
    | winnative =>
      obtain ⟨g1, h1⟩ := ih done cur { g with g_winnative := true } t hs1 hf hc
      exact ⟨g1, by simpa [parse_items, segments_from, segment_step] using h1⟩
    | winpath =>
      obtain ⟨g1, h1⟩ := ih done cur { g with g_winpath := true } t hs1 hf hc
      exact ⟨g1, by simpa [parse_items, segments_from, segment_step] using h1⟩
    | help => exact absurd (hs _ (List.mem_cons_self _ _)) (by simp [Item.stops])
    | missing opt => exact absurd (hs _ (List.mem_cons_self _ _)) (by simp [Item.stops])
    | plain tok =>
      have h1 := ih done (cur ++ [tok]) g t hs1 hf hc
      rw [← append_join_opt] at h1
      simpa [parse_items, segments_from, segment_step] using h1

/-- The loop of `parse_args` from the initial globals: files, flags and
compiler are the last three segments. -/
theorem parse_loop_segments (progname : Str) (argv : List Str)
    (hs : scans_to_end (decode argv)) :
    ∃ g1 : Globals,
      parse_loop progname argv none Globals.init Trace.empty
        = .cont ((files_segment (decode argv)).bind join_opt, g1) Trace.empty
      ∧ g1.g_cflags = (flags_segment (decode argv)).bind join_opt
      ∧ g1.g_cc = (compiler_segment (decode argv)).bind join_opt := by
  have h := parse_items_segments progname (decode argv) [] [] Globals.init Trace.empty hs
    (by simp [Globals.init]) (by simp [Globals.init])
  have e2 : join_opt ([] : List Str) = none := rfl
  rw [e2] at h
  simpa [parse_loop_decode, files_segment, flags_segment, compiler_segment, segments] using h

theorem strong_list_induction {α : Type} {P : List α → Prop}
    (step : ∀ l, (∀ l1, l1.length < l.length → P l1) → P l) : ∀ l, P l := by
  intro l
  generalize hn : l.length = n
  induction n using Nat.strong_induction_on generalizing l with
  | _ n ih =>
    apply step
    intro l1 h1
    exact ih l1.length (hn ▸ h1) l1 rfl

theorem decode_append (rest : List Str) :
    ∀ pre : List Str, (∀ opt, Item.missing opt ∉ decode pre) →
    decode (pre ++ rest) = decode pre ++ decode rest := by
  intro pre
  induction pre using strong_list_induction with
  | step pre ih =>
    intro hm
    cases pre with
    | nil => simp [decode]
    | cons arg p =>
      rw [List.cons_append, decode_cons, decode_cons]
      rw [decode_cons] at hm
      have ihp : (∀ opt, Item.missing opt ∉ decode p) →
          decode (p ++ rest) = decode p ++ decode rest := ih p (by simp)
      split_ifs at hm ⊢ with h1 h2 h3 h4 h5 h6 h7 h8
      all_goals
        first
          | (rw [ihp (fun o ho => hm o (List.mem_cons_of_mem _ ho))]; rfl)
          | (cases p with
              | nil => exact absurd (List.mem_singleton.2 rfl) (hm arg)
              | cons v p1 =>
                simp only [List.cons_append]
                rw [ih p1 (by simp; omega) (fun o ho => hm o (List.mem_cons_of_mem _ ho))])

theorem token_of_mem_decode : ∀ (l : List Str) (it : Item), it ∈ decode l → it.token ∈ l := by
  intro l
  induction l using strong_list_induction with
  | step l ih =>
    intro it hit
    cases l with
    | nil => simp [decode] at hit
    | cons arg p =>
      rw [decode_cons] at hit
      have ihp : it ∈ decode p → it.token ∈ arg :: p :=
        fun hp => List.mem_cons_of_mem _ (ih p (by simp) it hp)
      split_ifs at hit with h1 h2 h3 h4 h5 h6 h7 h8
      all_goals
        first
          | (rcases List.mem_cons.1 hit with e | hp
             · subst e; simp [Item.token, *]
             · exact ihp hp)
          | (cases p with
              | nil =>
                rw [List.mem_singleton.1 hit]
                simp [Item.token]
              | cons v p1 =>
                rcases List.mem_cons.1 hit with e | hp
                · subst e; simp [Item.token, *]
                · exact List.mem_cons_of_mem _ (List.mem_cons_of_mem _
                    (ih p1 (by simp; omega) it hp)))

theorem is_usage_error_status {α : Type} (progname : Str) (o : Outcome α)
    (h : is_usage_error progname o) : o.status = some EXIT_FAILURE := by
  obtain ⟨msg, t, rfl⟩ := h
  rfl

theorem show_usage_cmds {α : Type} (progname : Str) (msg : Option Str) (code : Int) (t : Trace) :
    (show_usage progname msg code t : Outcome α).trace.cmds = t.cmds := by
  cases msg <;> simp [show_usage]

/-- Without `--help` and without a separator, the loop stops at an option
that misses its value or ends with no compiler. -/
theorem parse_items_no_sep (progname : Str) (items : List Item) :
    ∀ (args : Option Str) (g : Globals) (t : Trace),
    Item.sep ∉ items → Item.help ∉ items →
    (∃ opt, parse_items progname items args g t
        = show_usage progname (some ("ERROR: Missing argument to ".toList ++ opt)) EXIT_FAILURE t)
    ∨ (∃ r : Option Str × Globals, parse_items progname items args g t = .cont r t
        ∧ r.2.g_cc = g.g_cc) := by
  induction items with
  | nil => intro args g t _ _; exact Or.inr ⟨(args, g), rfl, rfl⟩
  | cons it rest ih =>
    intro args g t hs hh
    have hs1 : Item.sep ∉ rest := fun h => hs (List.mem_cons_of_mem _ h)
    have hh1 : Item.help ∉ rest := fun h => hh (List.mem_cons_of_mem _ h)
    cases it with
    | sep => exact absurd (List.mem_cons_self _ _) hs
    | help => exact absurd (List.mem_cons_self _ _) hh
    | missing opt => exact Or.inl ⟨opt, rfl⟩
    | debug => exact ih args { g with g_debug := g.g_debug + 1 } t hs1 hh1
    | dep_path val =>
      cases args with
      | none => exact ih none { g with g_altpath := append g.g_altpath val } t hs1 hh1
      | some a => exact ih (append (some a) val) g t hs1 hh1
    | obj_path val => exact ih args { g with g_objpath := some val } t hs1 hh1
    | obj_suffix val => exact ih args { g with g_suffix := val } t hs1 hh1
    | winnative => exact ih args { g with g_winnative := true } t hs1 hh1
    | winpath => exact ih args { g with g_winpath := true } t hs1 hh1
    | plain tok => exact ih (append args tok) g t hs1 hh1

/-- An option that misses its value, met after items that the loop scans to
the end, ends the run with the usage error that names it. -/
theorem parse_items_missing (progname : Str) (opt : Str) (items : List Item) :
    ∀ (args : Option Str) (g : Globals) (t : Trace),
    scans_to_end items →
    parse_items progname (items ++ [.missing opt]) args g t
      = show_usage progname (some ("ERROR: Missing argument to ".toList ++ opt)) EXIT_FAILURE t := by
  induction items with
  | nil => intro args g t _; rfl
  | cons it rest ih =>
    intro args g t hs
    have hs1 : scans_to_end rest := fun i hi => hs i (List.mem_cons_of_mem _ hi)
    cases it with
    | help => exact absurd (hs _ (List.mem_cons_self _ _)) (by simp [Item.stops])
    | missing o => exact absurd (hs _ (List.mem_cons_self _ _)) (by simp [Item.stops])
    | dep_path val =>
      cases args with
      | none => simpa [parse_items] using ih none _ t hs1
      | some a => simpa [parse_items] using ih _ g t hs1
    | sep => simpa [parse_items] using ih _ _ t hs1
    | debug => simpa [parse_items] using ih _ _ t hs1
    | obj_path val => simpa [parse_items] using ih _ _ t hs1
    | obj_suffix val => simpa [parse_items] using ih _ _ t hs1
    | winnative => simpa [parse_items] using ih _ _ t hs1
    | winpath => simpa [parse_items] using ih _ _ t hs1
    | plain tok => simpa [parse_items] using ih _ _ t hs1

/-- The first `--help`, met before any option that misses its value, ends
the run with the usage text and `exit(EXIT_SUCCESS)`. -/
theorem parse_items_help (progname : Str) (items : List Item) :
    ∀ (args : Option Str) (g : Globals) (t : Trace),
    (∀ opt, Item.missing opt ∉ items) → Item.help ∈ items →
    parse_items progname items args g t = show_usage progname none EXIT_SUCCESS t := by
  induction items with
  | nil => intro args g t _ h; simp at h
  | cons it rest ih =>
    intro args g t hm hh
    have hm1 : ∀ opt, Item.missing opt ∉ rest := fun o h => hm o (List.mem_cons_of_mem _ h)
    cases it with
    | help => rfl
    | missing o => exact absurd (List.mem_cons_self _ _) (hm o)
    | dep_path val =>
      have hh1 : Item.help ∈ rest := by simpa using hh
      cases args with
      | none => simpa [parse_items] using ih none _ t hm1 hh1
      | some a => simpa [parse_items] using ih _ g t hm1 hh1
    | sep => exact (by simpa [parse_items] using ih _ _ t hm1 (by simpa using hh))
    | debug => exact (by simpa [parse_items] using ih _ _ t hm1 (by simpa using hh))
    | obj_path val => exact (by simpa [parse_items] using ih _ _ t hm1 (by simpa using hh))
    | obj_suffix val => exact (by simpa [parse_items] using ih _ _ t hm1 (by simpa using hh))
    | winnative => exact (by simpa [parse_items] using ih _ _ t hm1 (by simpa using hh))
    | winpath => exact (by simpa [parse_items] using ih _ _ t hm1 (by simpa using hh))
    | plain tok => exact (by simpa [parse_items] using ih _ _ t hm1 (by simpa using hh))

theorem scans_to_end_iff (items : List Item) :
    scans_to_end items ↔ Item.help ∉ items ∧ ∀ opt, Item.missing opt ∉ items := by
  constructor
  · intro h
    exact ⟨fun hh => absurd (h _ hh) (by simp [Item.stops]),
      fun o ho => absurd (h _ ho) (by simp [Item.stops])⟩
  · rintro ⟨h1, h2⟩ it hit
    cases it <;> simp_all [Item.stops]

theorem no_dangling_iff (items : List Item) :
    no_dangling items ↔ ∀ opt, Item.missing opt ∉ items := by
  constructor
  · intro h o ho
    exact absurd (h _ ho) (by simp [Item.dangling])
  · intro h it hit
    cases it <;> simp_all [Item.dangling]

theorem parse_finish_eq (progname : Str) (args : Option Str) (g0 : Globals) (t : Trace) :
    parse_finish progname args g0 t =
    if g0.g_cc.isNone then
      show_usage progname (some "ERROR: No compiler specified".toList) EXIT_FAILURE
        (finish_trace args g0 t)
    else if args.isNone then
      .exit EXIT_SUCCESS ((finish_trace args g0 t).print .stdout
        ("# No files specified for dependency generataion".toList ++ [NL]))
    else if g0.g_winnative && g0.g_winpath then
      show_usage progname (some "ERROR: Both --winnative and --winpath makes no sense".toList)
        EXIT_FAILURE (finish_trace args g0 t)
    else
      .cont (finish_globals args g0) (finish_trace args g0 t) := by
  unfold parse_finish finish_trace finish_globals
  cases h : g0.g_altpath <;> simp [h]

@[simp]
theorem finish_trace_cmds (args : Option Str) (g0 : Globals) (t : Trace) :
    (finish_trace args g0 t).cmds = t.cmds := by
  unfold finish_trace
  split_ifs <;> simp

theorem decode_value_option (opt : Str) (h : opt ∈ value_options) :
    decode [opt] = [.missing opt] := by
  simp only [value_options, List.mem_cons, List.mem_singleton, List.not_mem_nil, or_false] at h
  rcases h with h | h | h <;> subst h <;> decide

/-- C11: on a command line where no `--help` is reached, `parse_args` ends
with a usage error and the non-zero status `EXIT_FAILURE` when no token is
`--`, and also when the last token is `--dep-path`, `--obj-path` or
`--obj-suffix` in option position (the tokens before it decode without a
dangling option); in the second case the message names the option. -/
theorem no_separator_or_dangling_option_is_usage_error (argv : List Str)
    (hhelp : Item.help ∉ decode argv.tail) :
    ("--".toList ∉ argv.tail →
      is_usage_error (argv.headD []) (parse_args argv Globals.init Trace.empty)
      ∧ (parse_args argv Globals.init Trace.empty).status = some EXIT_FAILURE)
    ∧ (∀ (pre : List Str) (opt : Str), argv.tail = pre ++ [opt] → opt ∈ value_options →
        no_dangling (decode pre) →
        parse_args argv Globals.init Trace.empty
          = show_usage (argv.headD []) (some ("ERROR: Missing argument to ".toList ++ opt))
              EXIT_FAILURE Trace.empty
        ∧ (parse_args argv Globals.init Trace.empty).status = some EXIT_FAILURE)
    ∧ EXIT_FAILURE ≠ 0 := by
  refine ⟨?_, ?_, by decide⟩
  · intro hsep
    have hs : Item.sep ∉ decode argv.tail := fun hm => hsep (token_of_mem_decode _ _ hm)
    have hu : is_usage_error (argv.headD []) (parse_args argv Globals.init Trace.empty) := by
      unfold parse_args
      rw [parse_loop_decode]
      rcases parse_items_no_sep (argv.headD []) (decode argv.tail) none Globals.init Trace.empty
        hs hhelp with ⟨opt, ho⟩ | ⟨r, hr, hcc⟩
      · rw [ho]
        exact ⟨_, Trace.empty, rfl⟩
      · rw [hr, Outcome.bind_cont, parse_finish_eq]
        have : r.2.g_cc = none := hcc
        rw [this]
        exact ⟨_, _, rfl⟩
    exact ⟨hu, is_usage_error_status _ _ hu⟩
  · intro pre opt hargv hopt hpre0
    have hpre := (no_dangling_iff _).1 hpre0
    have hd : decode argv.tail = decode pre ++ [.missing opt] := by
      rw [hargv, decode_append _ _ hpre, decode_value_option opt hopt]
    have hsc : scans_to_end (decode pre) :=
      (scans_to_end_iff _).2 ⟨fun hm => hhelp (by rw [hd]; exact List.mem_append_left _ hm), hpre⟩
    have e : parse_args argv Globals.init Trace.empty
        = show_usage (argv.headD []) (some ("ERROR: Missing argument to ".toList ++ opt))
            EXIT_FAILURE Trace.empty := by
      unfold parse_args
      rw [parse_loop_decode, hd, parse_items_missing _ _ _ _ _ _ hsc]
      rfl
    exact ⟨e, by rw [e]; rfl⟩

/-- C11 at `mkdeps gcc -I. a.c` (no separator) and at
`mkdeps gcc -- --dep-path --obj-path --obj-path`, where the first `--obj-path`
is the value of `--dep-path` and the last one misses its value. -/
theorem no_separator_or_dangling_option_is_usage_error_witness :
    Item.help ∉ decode ["gcc".toList, "-I.".toList, "a.c".toList]
    ∧ "--".toList ∉ ["gcc".toList, "-I.".toList, "a.c".toList]
    ∧ (parse_args ["mkdeps".toList, "gcc".toList, "-I.".toList, "a.c".toList]
        Globals.init Trace.empty).status = some EXIT_FAILURE
    ∧ "--obj-path".toList ∈ value_options
    ∧ no_dangling (decode ["gcc".toList, "--".toList, "--dep-path".toList, "--obj-path".toList])
    ∧ (parse_args ["mkdeps".toList, "gcc".toList, "--".toList, "--dep-path".toList,
        "--obj-path".toList, "--obj-path".toList] Globals.init Trace.empty).status
        = some EXIT_FAILURE :=
  ⟨by decide, by decide,
    ((no_separator_or_dangling_option_is_usage_error
      ["mkdeps".toList, "gcc".toList, "-I.".toList, "a.c".toList] (by decide)).1 (by decide)).2,
    by decide, by decide,
    ((no_separator_or_dangling_option_is_usage_error
      ["mkdeps".toList, "gcc".toList, "--".toList, "--dep-path".toList,
        "--obj-path".toList, "--obj-path".toList] (by decide)).2.1
      ["gcc".toList, "--".toList, "--dep-path".toList, "--obj-path".toList]
      "--obj-path".toList rfl (by decide) (by decide)).2⟩

/-- C12: on a command line with no option that misses its value, whose
compiler segment is not empty and whose last segment holds no file token,
the program exits with status 0 and never calls `system()`. -/
theorem no_file_token_exits_zero (h : Host) (argv : List Str)
    (hm0 : no_dangling (decode argv.tail))
    (hcc : (compiler_segment (decode argv.tail)).bind join_opt ≠ none)
    (hfiles : files_segment (decode argv.tail) = some []) :
    (main h argv).status = some EXIT_SUCCESS ∧ EXIT_SUCCESS = 0
    ∧ (main h argv).trace.cmds = [] := by
  have hm := (no_dangling_iff _).1 hm0
  refine ⟨?_, rfl, ?_⟩
  all_goals
    unfold main parse_args
    rw [parse_loop_decode]
    by_cases hh : Item.help ∈ decode argv.tail
    · rw [parse_items_help _ _ _ _ _ hm hh]
      rfl
    · obtain ⟨g1, hl, _, hc⟩ := parse_loop_segments (argv.headD []) argv.tail
        ((scans_to_end_iff _).2 ⟨hh, hm⟩)
      rw [parse_loop_decode] at hl
      rw [hl, hfiles, Outcome.bind_cont, parse_finish_eq]
      have hc1 : g1.g_cc.isNone = false := by
        rw [hc]
        cases hx : (compiler_segment (decode argv.tail)).bind join_opt with
        | none => exact absurd hx hcc
        | some x => rfl
      simp [hc1, join_opt, Outcome.status, Trace.empty]

/-- C12 at `mkdeps gcc -- -I. --`: compiler and flags, no file. -/
theorem no_file_token_exits_zero_witness :
    no_dangling (decode ["gcc".toList, "--".toList, "-I.".toList, "--".toList])
    ∧ (main host_demo ["mkdeps".toList, "gcc".toList, "--".toList, "-I.".toList,
        "--".toList]).status = some 0
    ∧ (main host_demo ["mkdeps".toList, "gcc".toList, "--".toList, "-I.".toList,
        "--".toList]).trace.cmds = [] :=
  ⟨by decide,
    (no_file_token_exits_zero host_demo
      ["mkdeps".toList, "gcc".toList, "--".toList, "-I.".toList, "--".toList]
      (by decide) (by decide) (by decide)).1,
    (no_file_token_exits_zero host_demo
      ["mkdeps".toList, "gcc".toList, "--".toList, "-I.".toList, "--".toList]
      (by decide) (by decide) (by decide)).2.2⟩

/-! ### The last three segments and the default search directory -/

theorem segments_from_length (items : List Item) :
    ∀ cur, (segments_from cur items).length = items.count Item.sep + 1 := by
  induction items with
  | nil => intro cur; rfl
  | cons it rest ih =>
    intro cur
    cases it <;> simp [segments_from, ih]

theorem show_usage_msg_inj {α : Type} (progname m1 m2 : Str) (c1 c2 : Int) (t1 t2 : Trace)
    (h : (show_usage progname (some m1) c1 t1 : Outcome α)
      = show_usage progname (some m2) c2 t2) : m1 = m2 := by
  simp only [show_usage, Outcome.exit.injEq] at h
  have ho := congrArg Trace.out h.2
  simp only [Trace.errs, List.map_cons, List.map_nil, List.append_assoc] at ho
  have h2 := (List.append_inj' ho rfl).2
  simp only [List.cons_append, List.nil_append, List.cons.injEq, Prod.mk.injEq, true_and] at h2
  exact List.append_cancel_right h2.1

theorem compiler_segment_eq_none (items : List Item) :
    compiler_segment items = none ↔ (segments items).length < 3 := by
  unfold compiler_segment
  rw [List.getLast?_eq_none_iff, ← List.length_eq_zero, List.length_dropLast,
    List.length_dropLast]
  omega

theorem bind_join_opt_eq_none (o : Option (List Str)) :
    o.bind join_opt = none ↔ o = none ∨ o = some [] := by
  cases o with
  | none => simp
  | some s => simp [join_opt_eq_none]

theorem finish_globals_fields (args : Option Str) (g0 : Globals) :
    (finish_globals args g0).g_files = args ∧ (finish_globals args g0).g_cflags = g0.g_cflags
    ∧ (finish_globals args g0).g_cc = g0.g_cc
    ∧ (finish_globals args g0).g_altpath = some (g0.g_altpath.getD ['.']) := by
  unfold finish_globals
  cases h : g0.g_altpath <;> simp [h]

theorem search_dirs_no_dep_path (items : List Item) (hno : no_dep_path items) :
    ∀ acc, search_dirs items acc = [] := by
  induction items with
  | nil => intro acc; rfl
  | cons it rest ih =>
    intro acc
    have h1 : no_dep_path rest := fun i hi => hno i (List.mem_cons_of_mem _ hi)
    cases it with
    | dep_path val => exact absurd (hno _ (List.mem_cons_self _ _)) (by simp [Item.is_dep_path])
    | _ => simp [search_dirs, ih h1]

theorem no_dep_path_of_tokens (l : List Str) (h : "--dep-path".toList ∉ l) :
    no_dep_path (decode l) := by
  intro it hit
  cases it with
  | dep_path val => exact absurd (token_of_mem_decode l _ hit) h
  | _ => rfl

/-- C19 (as stated) fails twice.  On `mkdeps cc -- -O2 --dep-path inc -- a.c`
the ordinary tokens split into the segments `cc`, `-O2`, `a.c`, yet the
flags after `parse_args` are `-O2 inc`, not `-O2`.  And on `mkdeps --help`
there is no separator (`k = 0 < 2`), yet `parse_args` prints the usage text
and exits with `EXIT_SUCCESS`: it does not report "No compiler specified". -/
theorem flags_segment_takes_dep_path_value :
    plain_segments (decode ["cc".toList, "--".toList, "-O2".toList, "--dep-path".toList,
        "inc".toList, "--".toList, "a.c".toList])
      = [["cc".toList], ["-O2".toList], ["a.c".toList]]
    ∧ (parse_args ["mkdeps".toList, "cc".toList, "--".toList, "-O2".toList,
        "--dep-path".toList, "inc".toList, "--".toList, "a.c".toList]
        Globals.init Trace.empty).result.map Globals.g_cflags = some (some "-O2 inc".toList)
    ∧ join_opt ["-O2".toList] = some "-O2".toList
    ∧ plain_segments (decode ["--help".toList]) = [[]]
    ∧ (parse_args ["mkdeps".toList, "--help".toList] Globals.init Trace.empty).status
        = some EXIT_SUCCESS := by
  decide

/-- C19 (amended): on a command line that `parse_args` scans to the end (no
`--help`, no option that misses its value), the `k` separators split the
accumulated tokens (the ordinary tokens, and the values of the `--dep-path`
options met while the segment is not empty) into `k + 1` segments; when the
loop ends the file list is the last segment, the flags the one before and
the compiler the one before that, and so they are when `parse_args`
returns; `parse_args` reports "No compiler specified" with `EXIT_FAILURE`
exactly when there are fewer than three segments (`k < 2`) or the compiler
segment is empty. -/
theorem parse_args_last_three_segments (argv : List Str)
    (hs : scans_to_end (decode argv.tail)) :
    (segments (decode argv.tail)).length = (decode argv.tail).count Item.sep + 1
    ∧ (∃ g1 : Globals,
        parse_loop (argv.headD []) argv.tail none Globals.init Trace.empty
          = .cont ((files_segment (decode argv.tail)).bind join_opt, g1) Trace.empty
        ∧ g1.g_cflags = (flags_segment (decode argv.tail)).bind join_opt
        ∧ g1.g_cc = (compiler_segment (decode argv.tail)).bind join_opt)
    ∧ (∀ (g : Globals) (t : Trace), parse_args argv Globals.init Trace.empty = .cont g t →
        g.g_files = (files_segment (decode argv.tail)).bind join_opt
        ∧ g.g_cflags = (flags_segment (decode argv.tail)).bind join_opt
        ∧ g.g_cc = (compiler_segment (decode argv.tail)).bind join_opt)
    ∧ ((∃ t : Trace, parse_args argv Globals.init Trace.empty
          = show_usage (argv.headD []) (some "ERROR: No compiler specified".toList)
              EXIT_FAILURE t)
        ↔ ((segments (decode argv.tail)).length < 3
            ∨ compiler_segment (decode argv.tail) = some [])) := by
  obtain ⟨g1, hl, hfl, hcc⟩ := parse_loop_segments (argv.headD []) argv.tail hs
  have hpa : parse_args argv Globals.init Trace.empty
      = parse_finish (argv.headD []) ((files_segment (decode argv.tail)).bind join_opt) g1
          Trace.empty := by
    unfold parse_args
    rw [hl, Outcome.bind_cont]
  refine ⟨segments_from_length _ _, ⟨g1, hl, hfl, hcc⟩, ?_, ?_⟩
  · intro g t hret
    rw [hpa, parse_finish_eq] at hret
    split_ifs at hret with h1 h2 h3
    · simp [show_usage] at hret
    · simp [show_usage] at hret
    · simp only [Outcome.cont.injEq] at hret
      obtain ⟨hg, _⟩ := hret
      have hf := finish_globals_fields ((files_segment (decode argv.tail)).bind join_opt) g1
      rw [hg] at hf
      exact ⟨hf.1, hf.2.1.trans hfl, hf.2.2.1.trans hcc⟩
  · rw [← compiler_segment_eq_none, ← bind_join_opt_eq_none, ← hcc, hpa, parse_finish_eq]
    constructor
    · rintro ⟨t, ht⟩
      by_contra hne
      have h1 : g1.g_cc.isNone = false := by
        cases hx : g1.g_cc with
        | none => exact absurd hx hne
        | some x => rfl
      rw [h1] at ht
      simp only [Bool.false_eq_true, if_false] at ht
      split_ifs at ht with h2 h3
      · simp [show_usage] at ht
        exact absurd ht.1 (by decide)
      · exact absurd (show_usage_msg_inj _ _ _ _ _ _ _ ht) (by decide)
      · simp [show_usage] at ht
    · intro hn
      rw [hn]
      exact ⟨_, rfl⟩

/-- C19 (amended) at `mkdeps A -- B -- C -- f`, which yields the files `f`, the
flags `C` and the compiler `B`, and at `mkdeps gcc -- a.c`, a single `--`,
which is a usage error. -/
theorem parse_args_last_three_segments_witness :
    scans_to_end (decode ["A".toList, "--".toList, "B".toList, "--".toList, "C".toList,
        "--".toList, "f".toList])
    ∧ (some "f".toList = (files_segment (decode ["A".toList, "--".toList, "B".toList,
          "--".toList, "C".toList, "--".toList, "f".toList])).bind join_opt
      ∧ some "C".toList = (flags_segment (decode ["A".toList, "--".toList, "B".toList,
          "--".toList, "C".toList, "--".toList, "f".toList])).bind join_opt
      ∧ some "B".toList = (compiler_segment (decode ["A".toList, "--".toList, "B".toList,
          "--".toList, "C".toList, "--".toList, "f".toList])).bind join_opt)
    ∧ scans_to_end (decode ["gcc".toList, "--".toList, "a.c".toList])
    ∧ (parse_args ["mkdeps".toList, "gcc".toList, "--".toList, "a.c".toList]
        Globals.init Trace.empty).status = some EXIT_FAILURE :=
  ⟨by decide,
    (parse_args_last_three_segments ["mkdeps".toList, "A".toList, "--".toList, "B".toList,
      "--".toList, "C".toList, "--".toList, "f".toList] (by decide)).2.2.1
      globals_abc Trace.empty (by decide),
    by decide,
    is_usage_error_status "mkdeps".toList _
      (Exists.elim ((parse_args_last_three_segments
          ["mkdeps".toList, "gcc".toList, "--".toList, "a.c".toList] (by decide)).2.2.2.2
          (Or.inl (by decide)))
        (fun t ht => ⟨_, t, ht⟩))⟩

theorem build_command_stat (h : Host) (stat2 : List Str → Str → StatRes) (g : Globals)
    (file : Str) (t : Trace) :
    build_command { h with stat := stat2 } g file t = build_command h g file t := rfl

theorem convert_path_stat (h : Host) (stat2 : List Str → Str → StatRes) (g : Globals)
    (path : Str) (t : Trace) :
    convert_path { h with stat := stat2 } g path t = convert_path h g path t := rfl

theorem execute_stat (h : Host) (stat2 : List Str → Str → StatRes) (g : Globals)
    (g_command : Str) (cmdlen : Nat) (g_path : Str) (t : Trace) :
    execute { h with stat := stat2 } g g_command cmdlen g_path t
      = execute h g g_command cmdlen g_path t := rfl

theorem with_separator_dot (g : Globals) : with_separator g ['.'] = ['.', separator g] := by
  have : separator g ≠ '.' := by
    unfold separator
    split_ifs <;> decide
  simp [with_separator, Ne.symm this]

/-- With the single search directory `.`, the outcome of the search depends
on `stat` only through its answer for the one candidate path. -/
theorem search_dot_stat (h : Host) (stat2 : List Str → Str → StatRes) (g : Globals)
    (file g_command : Str) (cmdlen : Nat) (t : Trace)
    (hst : ∀ (cmds : List Str) (p : Str) (ta tb : Trace),
      convert_path h g ('.' :: separator g :: file) ta = .cont p tb →
      stat2 cmds p = h.stat cmds p) :
    search { h with stat := stat2 } g file g_command cmdlen [['.']] t
      = search h g file g_command cmdlen [['.']] t := by
  simp only [search, convert_path_stat, execute_stat, with_separator_dot]
  split_ifs with h1 h2
  · rfl
  · rfl
  · cases hc : convert_path h g (['.', separator g] ++ file) (try_trace g ['.'] file t) with
    | exit c t1 => rfl
    | fault t1 => rfl
    | cont p t1 =>
      simp only [Outcome.bind_cont]
      rw [hst t1.cmds p _ _ hc]

/-- C13: when no `--dep-path` option is on the command line and `parse_args`
returns, the search-directory list is the single directory `.`; so the
candidate path of a file is `.`, the separator and the file name, the search
loop of `do_dependency` runs over that one directory, and the outcome of
`do_dependency` depends on `stat` only through its answer for that path. -/
theorem no_dep_path_searches_current_directory (h : Host) (argv : List Str) (g : Globals)
    (t : Trace) (hno : no_dep_path (decode argv.tail))
    (hret : parse_args argv Globals.init Trace.empty = .cont g t) :
    g.g_altpath = some ['.'] ∧ strtok_all ['.'] = [['.']]
    ∧ (∀ file, candidate g ['.'] file = '.' :: separator g :: file)
    ∧ (∀ file t0, do_dependency h g file t0
        = (build_command h g file t0).bind fun c t1 => search h g file c.1 c.2 [['.']] t1)
    ∧ (∀ (stat2 : List Str → Str → StatRes) (file : Str) (t0 : Trace),
        (∀ (cmds : List Str) (p : Str) (ta tb : Trace),
          convert_path h g ('.' :: separator g :: file) ta = .cont p tb →
          stat2 cmds p = h.stat cmds p) →
        do_dependency { h with stat := stat2 } g file t0 = do_dependency h g file t0) := by
  have ha : g.g_altpath = some ['.'] := by
    unfold parse_args at hret
    rw [parse_loop_decode] at hret
    cases hl : parse_items (argv.headD []) (decode argv.tail) none Globals.init Trace.empty with
    | exit c t0 => rw [hl] at hret; simp at hret
    | fault t0 => rw [hl] at hret; simp at hret
    | cont r t0 =>
      rw [hl, Outcome.bind_cont] at hret
      have h1 := parse_items_altpath _ _ _ _ _ _ _ hl
      rw [search_dirs_no_dep_path _ hno] at h1
      rw [parse_finish_cont _ _ _ _ _ _ hret]
      simp only [List.foldl_nil, Globals.init] at h1
      simp [h1]
  have hd : strtok_all ['.'] = [['.']] := by decide
  have hdep : ∀ (hh : Host) file t0, do_dependency hh g file t0
      = (build_command hh g file t0).bind fun c t1 => search hh g file c.1 c.2 [['.']] t1 := by
    intro hh file t0
    unfold do_dependency
    rw [ha]
    simp only [hd]
  refine ⟨ha, hd, ?_, hdep h, ?_⟩
  · intro file
    have : separator g ≠ '.' := by
      unfold separator
      split_ifs <;> decide
    simp [candidate, Ne.symm this]
  · intro stat2 file t0 hst
    rw [hdep, hdep, build_command_stat]
    congr 1
    funext c t1
    exact search_dot_stat h stat2 g file c.1 c.2 t1 hst

/-- C13 at `mkdeps A -- B -- C -- f`: the search directories are `.`. -/
theorem no_dep_path_searches_current_directory_witness :
    no_dep_path (decode ["A".toList, "--".toList, "B".toList, "--".toList, "C".toList,
        "--".toList, "f".toList])
    ∧ globals_abc.g_altpath = some ['.'] :=
  ⟨by decide,
    (no_dep_path_searches_current_directory host_demo
      ["mkdeps".toList, "A".toList, "--".toList, "B".toList, "--".toList, "C".toList,
        "--".toList, "f".toList] globals_abc Trace.empty (by decide) (by decide)).1⟩

/-! ### The result of system, long targets, the not-found message and dequote_path -/

theorem execute_one_command (h : Host) (g : Globals) (cmd : Str) (len : Nat) (p : Str)
    (t : Trace) : one_command h t.cmds (execute h g cmd len p t) := by
  have hcf := do_expand_cont_or_failure g.g_winpath p t
  have hcm := do_expand_cmds g.g_winpath p t
  unfold execute
  cases hx : do_expand g.g_winpath p t with
  | exit c t1 =>
    rw [hx] at hcf hcm
    exact ⟨hcf, Or.inl (by simpa using hcm)⟩
  | fault t1 => rw [hx] at hcf; exact hcf.elim
  | cont e t1 =>
    rw [hx] at hcm
    have ht1 : t1.cmds = t.cmds := by simpa using hcm
    simp only [Outcome.bind_cont]
    by_cases h1 : len + e.length ≥ MAX_BUFFER
    · rw [if_pos h1]
      exact ⟨rfl, Or.inl (by simp [ht1])⟩
    · rw [if_neg h1]
      by_cases hd : g.g_debug ≠ 0
      · simp only [hd, if_true, Trace.print_cmds, Trace.access_cmds, ht1, ne_eq, not_false_eq_true]
        split_ifs with h2 h3
        · exact ⟨rfl, Or.inr ⟨cmd ++ e, by simp [ht1], not_not.2 h2⟩⟩
        · exact ⟨rfl, Or.inr ⟨cmd ++ e, by simp [ht1], not_not.2 h2⟩⟩
        · exact ⟨cmd ++ e, by simp [ht1], h2⟩
      · simp only [hd, if_false, Trace.print_cmds, Trace.access_cmds, ht1]
        split_ifs with h2 h3
        · exact ⟨rfl, Or.inr ⟨cmd ++ e, by simp [ht1], not_not.2 h2⟩⟩
        · exact ⟨rfl, Or.inr ⟨cmd ++ e, by simp [ht1], not_not.2 h2⟩⟩
        · exact ⟨cmd ++ e, by simp [ht1], h2⟩

theorem search_one_command (h : Host) (g : Globals) (file cmd : Str) (len : Nat)
    (paths : List Str) : ∀ t, one_command h t.cmds (search h g file cmd len paths t) := by
  induction paths with
  | nil => intro t; exact ⟨rfl, Or.inl (by simp)⟩
  | cons path rest ih =>
    intro t
    rw [search]
    split_ifs
    · exact ⟨rfl, Or.inl (by simp)⟩
    · exact ⟨rfl, Or.inl (by simp [sep_trace_cmds])⟩
    · have hcf := convert_path_cont_or_failure h g (with_separator g path ++ file)
        (try_trace g path file t)
      have hcm := convert_path_cmds h g (with_separator g path ++ file)
        (try_trace g path file t)
      cases hc : convert_path h g (with_separator g path ++ file) (try_trace g path file t) with
      | exit c t1 =>
        rw [hc] at hcf hcm
        exact ⟨hcf, Or.inl (by simpa using hcm)⟩
      | fault t1 => rw [hc] at hcf; exact hcf.elim
      | cont conv t4 =>
        rw [hc] at hcm
        have ht4 : t4.cmds = t.cmds := by simpa using hcm
        simp only [Outcome.bind_cont]
        cases h.stat t4.cmds conv with
        | fail => simpa [ht4] using ih t4
        | other => exact ⟨rfl, Or.inl (by simp [ht4])⟩
        | regular => simpa [ht4] using execute_one_command h g cmd len _ t4

/-- One call of `do_dependency` runs at most one command: it returns after
exactly one, whose result passed the test, or it ends the run with
`EXIT_FAILURE`. -/
theorem do_dependency_one_command (h : Host) (g : Globals) (cc altpath file : Str) (t : Trace)
    (hcc : g.g_cc = some cc) (ha : g.g_altpath = some altpath) :
    one_command h t.cmds (do_dependency h g file t) := by
  rcases do_dependency_enters h g cc altpath file t hcc ha with ⟨t1, e, hc⟩ | ⟨c, t1, hc, _, e⟩
  · rw [e]
    exact ⟨rfl, Or.inl hc⟩
  · rw [e, ← hc]
    exact search_one_command h g file c.1 c.2 _ t1

theorem WEXITSTATUS_eq (ret : Int) : WEXITSTATUS ret = (ret.toNat >>> 8) &&& 255 := by
  unfold WEXITSTATUS
  rw [Nat.shiftRight_eq_div_pow]
  exact (Nat.and_pow_two_sub_one_eq_mod _ 8).symm

/-- C16 (as stated) fails: on a host where `WEXITSTATUS` is defined and
`system()` returns 9, the wait status of a compiler killed by signal 9, the
exit-status byte is 0, `do_dependency` returns and `main` returns
`EXIT_SUCCESS`. -/
theorem signal_death_passes_the_test :
    host_signal.have_WEXITSTATUS = true
    ∧ host_signal.system [] "gcc -M  ./a.c".toList = 9
    ∧ WEXITSTATUS 9 = 0
    ∧ (do_dependency host_signal globals_plain "a.c".toList Trace.empty).result = some ()
    ∧ (do_dependency host_signal globals_plain "a.c".toList Trace.empty).trace.cmds
        = ["gcc -M  ./a.c".toList]
    ∧ (main host_signal ["mkdeps".toList, "gcc".toList, "--".toList, "--".toList,
        "a.c".toList]).result = some EXIT_SUCCESS := by
  decide

/-- C16 (amended): when `do_dependency` has handed a command to `system()`,
it returns exactly when the value `ret` that `system()` gave is not negative
and, where `WEXITSTATUS` is defined, its exit-status byte `(ret >> 8) & 0xff`
is 0; otherwise it ends the run with `EXIT_FAILURE`.  So 0 lets processing
continue, and so does every other value that passes this test. -/
theorem system_result_test (h : Host) (g : Globals) (cc altpath file command : Str)
    (t : Trace) (hcc : g.g_cc = some cc) (ha : g.g_altpath = some altpath)
    (hrun : (do_dependency h g file t).trace.cmds = t.cmds ++ [command]) :
    ((do_dependency h g file t).result = some ()
      ↔ ¬ (h.system t.cmds command < 0
            ∨ (h.have_WEXITSTATUS = true
                ∧ ((h.system t.cmds command).toNat >>> 8) &&& 255 ≠ 0)))
    ∧ ((do_dependency h g file t).status = some EXIT_FAILURE
      ↔ (h.system t.cmds command < 0
            ∨ (h.have_WEXITSTATUS = true
                ∧ ((h.system t.cmds command).toNat >>> 8) &&& 255 ≠ 0)))
    ∧ (h.system t.cmds command = 0 → (do_dependency h g file t).result = some ())
    ∧ EXIT_FAILURE ≠ 0 := by
  have hone := do_dependency_one_command h g cc altpath file t hcc ha
  have hz : h.system t.cmds command = 0 →
      ¬ (h.system t.cmds command < 0
            ∨ (h.have_WEXITSTATUS = true
                ∧ ((h.system t.cmds command).toNat >>> 8) &&& 255 ≠ 0)) := by
    intro h0
    rw [h0]
    simp
  cases hd : do_dependency h g file t with
  | fault t1 => rw [hd] at hone; exact hone.elim
  | cont u t1 =>
    rw [hd] at hone hrun
    obtain ⟨c, hc, hok⟩ := hone
    have hcc2 : c = command := by
      have h2 : t.cmds ++ [c] = t.cmds ++ [command] := hc.symm.trans hrun
      simpa using h2
    subst hcc2
    unfold system_ok at hok
    rw [WEXITSTATUS_eq] at hok
    refine ⟨⟨fun _ => hok, fun _ => rfl⟩, ⟨fun hx => ?_, fun hx => absurd hx hok⟩,
      fun _ => rfl, by decide⟩
    simp [Outcome.status] at hx
  | exit code t1 =>
    rw [hd] at hone hrun
    obtain ⟨hcode, hcm⟩ := hone
    rcases hcm with hsame | ⟨c, hc, hbad⟩
    · have h2 : t.cmds = t.cmds ++ [command] := hsame.symm.trans hrun
      have h3 := congrArg List.length h2
      simp at h3
    · have hcc2 : c = command := by
        have h2 : t.cmds ++ [c] = t.cmds ++ [command] := hc.symm.trans hrun
        simpa using h2
      subst hcc2
      unfold system_ok at hbad
      rw [WEXITSTATUS_eq] at hbad
      refine ⟨⟨fun hx => ?_, fun hx => absurd hx hbad⟩,
        ⟨fun _ => not_not.1 hbad, fun _ => by rw [hcode]; rfl⟩,
        fun h0 => absurd (hz h0) hbad, by decide⟩
      simp [Outcome.result] at hx

/-- C16 (amended) at the file `a.c` on a host where every command is killed by
signal 9: the command is run and the test decides the outcome. -/
theorem system_result_test_witness :
    globals_plain.g_cc = some "gcc".toList ∧ globals_plain.g_altpath = some ".".toList
    ∧ (do_dependency host_signal globals_plain "a.c".toList Trace.empty).trace.cmds
        = Trace.empty.cmds ++ ["gcc -M  ./a.c".toList]
    ∧ ((do_dependency host_signal globals_plain "a.c".toList Trace.empty).result = some ()
      ↔ ¬ (host_signal.system Trace.empty.cmds "gcc -M  ./a.c".toList < 0
            ∨ (host_signal.have_WEXITSTATUS = true
                ∧ ((host_signal.system Trace.empty.cmds "gcc -M  ./a.c".toList).toNat >>> 8)
                    &&& 255 ≠ 0))) :=
  ⟨rfl, rfl, by decide,
    (system_result_test host_signal globals_plain "gcc".toList ".".toList "a.c".toList
      "gcc -M  ./a.c".toList Trace.empty rfl rfl (by decide)).1⟩

set_option maxRecDepth 100000 in
/-- C14 (code): with `NAME_MAX = 255` and an object directory of 300
characters the `-MT` text has 310 characters; `snprintf` keeps the first 260
of them in `tmp` without any test, and `do_dependency` runs the command with
the shortened target (255 characters of the directory, no object name) and
returns, with no message.  In general `tmp` receives the first `NAME_MAX + 5`
characters of the `-MT` text. -/
theorem long_target_is_cut_silently :
    (target_text globals_long_objpath (List.replicate 300 'o') "a.c".toList).length = 310
    ∧ host_demo.NAME_MAX + 6 = 261
    ∧ (do_dependency host_demo globals_long_objpath "a.c".toList Trace.empty).result = some ()
    ∧ (do_dependency host_demo globals_long_objpath "a.c".toList Trace.empty).trace.cmds
        = ["gcc -MT ".toList ++ List.replicate 255 'o' ++ " -M  ./a.c".toList]
    ∧ (do_dependency host_demo globals_long_objpath "a.c".toList Trace.empty).trace.out = []
    ∧ ∀ (h : Host) (g : Globals) (objpath file : Str),
        target_option h g objpath file = (target_text g objpath file).take (h.NAME_MAX + 5) :=
  ⟨by decide, by decide, by decide, by decide, by decide, fun _ _ _ _ => rfl⟩

theorem with_next_cons (c : Char) (rest : Str) :
    with_next (c :: rest) = (c, rest.head?) :: with_next rest := by
  cases rest <;> simp [with_next]

theorem dequote_spec_nil : dequote_spec [] = [] := rfl

theorem quoting_count_nil : quoting_count [] = 0 := rfl

theorem dequote_spec_cons (c : Char) (rest : Str) :
    dequote_spec (c :: rest)
      = if is_quoting (c, rest.head?) then dequote_spec rest else c :: dequote_spec rest := by
  unfold dequote_spec
  rw [with_next_cons]
  by_cases h : is_quoting (c, rest.head?) = true <;> simp [List.filter_cons, h]

theorem quoting_count_cons (c : Char) (rest : Str) :
    quoting_count (c :: rest)
      = (if is_quoting (c, rest.head?) then 1 else 0) + quoting_count rest := by
  unfold quoting_count
  rw [with_next_cons]
  by_cases h : is_quoting (c, rest.head?) = true <;> simp [List.filter_cons, h, Nat.add_comm]

theorem is_quoting_iff (c : Char) (rest : Str) :
    is_quoting (c, rest.head?) = true
    ↔ ¬ (c ≠ BSLASH ∨ (rest.head? ≠ some ' ' ∧ rest.head? ≠ some '(' ∧ rest.head? ≠ some ')')) := by
  simp only [is_quoting, decide_eq_true_eq]
  tauto

/-- The loop of `dequote_path`: when the dequoted text is shorter than
`MAX_PATH` the loop reads the whole source, and otherwise it stops with
source left or with the counter at `MAX_PATH`. -/
theorem dequote_loop_spec (src : Str) :
    ∀ (dest : Str) (len : Nat) (quoted : Bool), len = dest.length →
    (((dest ++ dequote_spec src).length < MAX_PATH →
        dequote_loop src dest len quoted
          = ([], dest ++ dequote_spec src, (dest ++ dequote_spec src).length,
              quoted || decide (quoting_count src ≠ 0)))
    ∧ ((dest ++ dequote_spec src).length ≥ MAX_PATH →
        (dequote_loop src dest len quoted).1 ≠ []
        ∨ (dequote_loop src dest len quoted).2.2.1 ≥ MAX_PATH)) := by
  induction src with
  | nil =>
    intro dest len quoted hlen
    subst hlen
    simp [dequote_loop, dequote_spec_nil, quoting_count_nil]
  | cons c rest ih =>
    intro dest len quoted hlen
    subst hlen
    rw [dequote_spec_cons, quoting_count_cons]
    by_cases hq : is_quoting (c, rest.head?) = true
    · have hk := (is_quoting_iff c rest).1 hq
      simp only [hq, if_true]
      have h1 := ih dest dest.length true rfl
      constructor
      · intro hfit
        have hl : dest.length < MAX_PATH := by
          simp only [List.length_append] at hfit
          omega
        rw [dequote_loop, if_pos hl, if_neg hk, (h1.1 hfit)]
        simp
      · intro hbig
        by_cases hl : dest.length < MAX_PATH
        · rw [dequote_loop, if_pos hl, if_neg hk]
          exact h1.2 hbig
        · rw [dequote_loop, if_neg hl]
          left
          simp
    · have hk : c ≠ BSLASH ∨ (rest.head? ≠ some ' ' ∧ rest.head? ≠ some '('
          ∧ rest.head? ≠ some ')') := by
        by_contra hn
        exact hq ((is_quoting_iff c rest).2 hn)
      simp only [hq, if_false, Bool.false_eq_true]
      have h1 := ih (dest ++ [c]) (dest.length + 1) quoted (by simp)
      have e : dest ++ [c] ++ dequote_spec rest = dest ++ c :: dequote_spec rest := by simp
      rw [e] at h1
      constructor
      · intro hfit
        have hl : dest.length < MAX_PATH := by
          simp only [List.length_append] at hfit
          omega
        rw [dequote_loop, if_pos hl, if_pos hk, (h1.1 hfit)]
        simp
      · intro hbig
        by_cases hl : dest.length < MAX_PATH
        · rw [dequote_loop, if_pos hl, if_pos hk]
          exact h1.2 hbig
        · rw [dequote_loop, if_neg hl]
          left
          simp

theorem dequote_spec_length (s : Str) :
    (dequote_spec s).length + quoting_count s = s.length := by
  induction s with
  | nil => rfl
  | cons c rest ih =>
    rw [dequote_spec_cons, quoting_count_cons]
    split_ifs <;> simp <;> omega

/-- C18: `dequote_path` produces the path without its quoting backslashes
(those immediately followed by a space, `(` or `)`), every other character
kept in order, and returns `true` exactly when there was at least one such
backslash; it ends the run with `EXIT_FAILURE` exactly when that text has
`MAX_PATH` characters or more.  Every character of the path is either kept
or a counted backslash. -/
theorem dequote_path_removes_quoting_backslashes (winpath : Str) (t : Trace) :
    dequote_path winpath t
      = (if (dequote_spec winpath).length ≥ MAX_PATH then
          .exit EXIT_FAILURE (t.print .stderr ("# ERROR: Path truncated".toList ++ [NL]))
        else
          .cont (decide (quoting_count winpath ≠ 0), dequote_spec winpath)
            (t.access .g_dequoted (dequote_spec winpath).length MAX_PATH))
    ∧ ((dequote_path winpath t).status = some EXIT_FAILURE
        ↔ (dequote_spec winpath).length ≥ MAX_PATH)
    ∧ ((dequote_path winpath t).result
          = some (decide (quoting_count winpath ≠ 0), dequote_spec winpath)
        ↔ (dequote_spec winpath).length < MAX_PATH)
    ∧ (dequote_spec winpath).length + quoting_count winpath = winpath.length := by
  have hmain : dequote_path winpath t
      = (if (dequote_spec winpath).length ≥ MAX_PATH then
          .exit EXIT_FAILURE (t.print .stderr ("# ERROR: Path truncated".toList ++ [NL]))
        else
          .cont (decide (quoting_count winpath ≠ 0), dequote_spec winpath)
            (t.access .g_dequoted (dequote_spec winpath).length MAX_PATH)) := by
    have hl := dequote_loop_spec winpath [] 0 false rfl
    simp only [List.nil_append, Bool.false_or] at hl
    unfold dequote_path
    by_cases hbig : (dequote_spec winpath).length ≥ MAX_PATH
    · rw [if_pos hbig]
      have h2 := hl.2 hbig
      rcases hr : dequote_loop winpath [] 0 false with ⟨src, dest, len, quoted⟩
      rw [hr] at h2
      simp only at h2 ⊢
      rw [if_pos h2]
    · rw [if_neg hbig]
      have h2 := hl.1 (by omega)
      rw [h2]
      simp only
      rw [if_neg (by simpa using hbig)]
  refine ⟨hmain, ?_, ?_, ?_⟩
  · rw [hmain]
    split_ifs with h <;> simp [Outcome.status, h]
  · rw [hmain]
    split_ifs with h
    · simp [Outcome.result]; omega
    · simp [Outcome.result]; omega
  · exact dequote_spec_length winpath

/-! ### The loop of main -/

theorem main_loop_cons (h : Host) (g : Globals) (file : Str) (rest : List Str) (t : Trace) :
    main_loop h g (file :: rest) t
      = (do_dependency h g file t).bind fun _ t1 => main_loop h g rest t1 := rfl

theorem main_loop_steps (h : Host) (g : Globals) (cc altpath : Str)
    (hcc : g.g_cc = some cc) (ha : g.g_altpath = some altpath) (files : List Str) :
    ∀ t : Trace, ∃ cs : List Str,
      file_by_file h g files t (processed h g files t) cs (main_loop h g files t)
      ∧ (main_loop h g files t).trace.cmds = t.cmds ++ cs := by
  induction files with
  | nil => intro t; exact ⟨[], file_by_file.all_done t, by simp [main_loop]⟩
  | cons file rest ih =>
    intro t
    have hone := do_dependency_one_command h g cc altpath file t hcc ha
    rw [main_loop_cons]
    unfold processed
    cases hd : do_dependency h g file t with
    | fault t1 => rw [hd] at hone; exact hone.elim
    | cont u t1 =>
      rw [hd] at hone
      obtain ⟨c, hc, hok⟩ := hone
      obtain ⟨cs, hrun, hcs⟩ := ih t1
      refine ⟨c :: cs, file_by_file.file_ok file rest t t1 c _ cs _ hd hc hok hrun, ?_⟩
      simp only [Outcome.bind_cont]
      rw [hcs, hc]
      simp
    | exit code t1 =>
      rw [hd] at hone
      obtain ⟨hcode, hcm⟩ := hone
      subst hcode
      simp only [Outcome.bind_exit, Outcome.trace_exit]
      rcases hcm with hsame | ⟨c, hc, hbad⟩
      · exact ⟨[], file_by_file.file_failed file rest t t1 [] hd (by simp [hsame]) (Or.inl rfl),
          by simp [hsame]⟩
      · exact ⟨[c], file_by_file.file_failed file rest t t1 [c] hd hc (Or.inr ⟨c, rfl, hbad⟩),
          hc⟩

theorem main_loop_status (h : Host) (g : Globals) (cc altpath : Str)
    (hcc : g.g_cc = some cc) (ha : g.g_altpath = some altpath) (files : List Str) :
    ∀ t : Trace, processed h g files t ≤ files.length
      ∧ ((main_loop h g files t).result = some () ↔ processed h g files t = files.length)
      ∧ ((main_loop h g files t).status = some EXIT_FAILURE
          ↔ processed h g files t < files.length) := by
  induction files with
  | nil => intro t; simp [main_loop, processed, Outcome.result, Outcome.status]
  | cons file rest ih =>
    intro t
    have hone := do_dependency_one_command h g cc altpath file t hcc ha
    rw [main_loop_cons]
    unfold processed
    cases hd : do_dependency h g file t with
    | fault t1 => rw [hd] at hone; exact hone.elim
    | cont u t1 =>
      obtain ⟨h1, h2, h3⟩ := ih t1
      simp only [Outcome.bind_cont, List.length_cons]
      exact ⟨by omega, by rw [h2]; omega, by rw [h3]; omega⟩
    | exit code t1 =>
      rw [hd] at hone
      obtain ⟨hcode, _⟩ := hone
      subst hcode
      simp [Outcome.result, Outcome.status]

set_option linter.unusedVariables false in
/-- C15: for every host (every behaviour of `stat` and `system`) and every
file list, on a run that makes no access outside a buffer, the loop of
`main` takes the files in the listed order: the first `processed` files are
processed without failure and run one command each, the next file (if any)
fails and ends the run with `EXIT_FAILURE` after at most its own command,
and no command is run for a later file; the loop returns exactly when every
file was processed without failure, and then `main` returns
`EXIT_SUCCESS = 0`.  The hypotheses on `in_bounds` keep the statement to the
runs that the model describes; the proof does not use them. -/
theorem files_are_processed_in_order (h : Host) (g : Globals) (cc altpath : Str)
    (hcc : g.g_cc = some cc) (ha : g.g_altpath = some altpath) (files : List Str) (t : Trace)
    (hin : (main_loop h g files t).in_bounds) :
    file_by_file h g files t (processed h g files t)
      ((main_loop h g files t).trace.cmds.drop t.cmds.length) (main_loop h g files t)
    ∧ (main_loop h g files t).trace.cmds
        = t.cmds ++ (main_loop h g files t).trace.cmds.drop t.cmds.length
    ∧ processed h g files t ≤ files.length
    ∧ ((main_loop h g files t).result = some () ↔ processed h g files t = files.length)
    ∧ ((main_loop h g files t).status = some EXIT_FAILURE
        ↔ processed h g files t < files.length)
    ∧ (∀ (argv : List Str) (t0 : Trace) (fs : Str),
        parse_args argv Globals.init Trace.empty = .cont g t0 → g.g_files = some fs →
        (main h argv).in_bounds →
        ((main h argv).result = some EXIT_SUCCESS
          ↔ processed h g (strtok_all fs) t0 = (strtok_all fs).length)
        ∧ ((main h argv).status = some EXIT_FAILURE
          ↔ processed h g (strtok_all fs) t0 < (strtok_all fs).length)
        ∧ (main h argv).trace.cmds = (main_loop h g (strtok_all fs) t0).trace.cmds)
    ∧ EXIT_SUCCESS = 0 ∧ EXIT_FAILURE ≠ 0 := by
  obtain ⟨cs, hrun, hcs⟩ := main_loop_steps h g cc altpath hcc ha files t
  have hdrop : (main_loop h g files t).trace.cmds.drop t.cmds.length = cs := by
    rw [hcs, List.drop_left]
  have hst := main_loop_status h g cc altpath hcc ha files t
  refine ⟨by rw [hdrop]; exact hrun, by rw [hdrop]; exact hcs, hst.1, hst.2.1, hst.2.2, ?_,
    rfl, by decide⟩
  intro argv t0 fs hret hfs _
  have hs0 := main_loop_status h g cc altpath hcc ha (strtok_all fs) t0
  unfold main
  rw [hret, Outcome.bind_cont]
  simp only [hfs]
  rw [← hs0.2.1, ← hs0.2.2]
  cases main_loop h g (strtok_all fs) t0 <;>
    simp [Outcome.result, Outcome.status, Outcome.bind, Outcome.trace]

/-- C15 at the files `a.c zzz.c b.c`, where `zzz.c` does not exist: one
command, for `a.c`, and `EXIT_FAILURE`; and at `a.c b.c`: two commands in
the listed order, and the loop returns.  Both runs stay inside the buffers. -/
theorem files_are_processed_in_order_witness :
    globals_plain.g_cc = some "gcc".toList ∧ globals_plain.g_altpath = some ".".toList
    ∧ (main_loop host_demo globals_plain ["a.c".toList, "zzz.c".toList, "b.c".toList]
        Trace.empty).in_bounds
    ∧ (main_loop host_demo globals_plain ["a.c".toList, "b.c".toList]
        Trace.empty).in_bounds
    ∧ processed host_demo globals_plain ["a.c".toList, "zzz.c".toList, "b.c".toList]
        Trace.empty = 1
    ∧ (main_loop host_demo globals_plain ["a.c".toList, "zzz.c".toList, "b.c".toList]
        Trace.empty).trace.cmds = ["gcc -M  ./a.c".toList]
    ∧ (main_loop host_demo globals_plain ["a.c".toList, "zzz.c".toList, "b.c".toList]
        Trace.empty).status = some EXIT_FAILURE
    ∧ (main_loop host_demo globals_plain ["a.c".toList, "b.c".toList]
        Trace.empty).trace.cmds = ["gcc -M  ./a.c".toList, "gcc -M  ./b.c".toList]
    ∧ (main_loop host_demo globals_plain ["a.c".toList, "b.c".toList]
        Trace.empty).result = some () :=
  ⟨rfl, rfl, by decide, by decide, by decide, by decide,
    (files_are_processed_in_order host_demo globals_plain "gcc".toList ".".toList rfl rfl
      ["a.c".toList, "zzz.c".toList, "b.c".toList] Trace.empty (by decide)).2.2.2.2.1.2
      (by decide),
    by decide,
    (files_are_processed_in_order host_demo globals_plain "gcc".toList ".".toList rfl rfl
      ["a.c".toList, "b.c".toList] Trace.empty (by decide)).2.2.2.1.2 (by decide)⟩

/-! ### Joining and tokenising -/

theorem splitOnP_append_sep (p : Char → Bool) (c : Char) (hc : p c = true) (b : Str) :
    ∀ a : Str, (a ++ c :: b).splitOnP p = a.splitOnP p ++ b.splitOnP p := by
  intro a
  induction a with
  | nil => simp [List.splitOnP_cons, hc]
  | cons x a ih =>
    rw [List.cons_append, List.splitOnP_cons, List.splitOnP_cons, ih]
    by_cases hx : p x = true
    · simp [hx]
    · simp only [hx, Bool.false_eq_true, if_false]
      cases hs : List.splitOnP p a with
      | nil => exact absurd hs (List.splitOnP_ne_nil p a)
      | cons y ys => rfl

theorem pieces_append_space (a b : Str) : pieces (a ++ ' ' :: b) = pieces a ++ pieces b := by
  simp only [pieces, List.splitOn]
  rw [splitOnP_append_sep _ ' ' (by simp), List.filter_append]

theorem pieces_nil : pieces [] = [] := by
  simp [pieces, List.splitOn]

/-- The pieces of the accumulated string are the pieces of its elements, in
order. -/
theorem pieces_join_tokens_flatten (l : List Str) :
    pieces (join_tokens l) = (l.map pieces).flatten := by
  induction l with
  | nil => simp [join_tokens, List.intercalate, pieces_nil]
  | cons a l ih =>
    cases l with
    | nil => simp [join_tokens, List.intercalate]
    | cons b l =>
      have e : join_tokens (a :: b :: l) = a ++ ' ' :: join_tokens (b :: l) := by
        rw [join_tokens_cons, join_tokens_cons]
        simp
      rw [e, pieces_append_space, ih]
      simp

theorem mem_splitOnP_not_sep (p : Char → Bool) :
    ∀ (s : Str) (y : Str), y ∈ s.splitOnP p → ∀ c ∈ y, p c = false := by
  intro s
  induction s with
  | nil => intro y hy c hc; simp [List.splitOnP_nil] at hy; subst hy; simp at hc
  | cons x s ih =>
    intro y hy c hc
    rw [List.splitOnP_cons] at hy
    by_cases hx : p x = true
    · simp only [hx, if_true, List.mem_cons] at hy
      rcases hy with rfl | hy
      · simp at hc
      · exact ih y hy c hc
    · simp only [hx, Bool.false_eq_true, if_false] at hy
      cases hs : List.splitOnP p s with
      | nil => exact absurd hs (List.splitOnP_ne_nil p s)
      | cons z zs =>
        rw [hs] at hy ih
        simp only [List.modifyHead, List.mem_cons] at hy
        rcases hy with rfl | hy
        · rcases List.mem_cons.1 hc with rfl | hc
          · simpa using hx
          · exact ih z (List.mem_cons_self _ _) c hc
        · exact ih y (List.mem_cons_of_mem _ hy) c hc

theorem mem_pieces (x y : Str) (h : y ∈ pieces x) : y ≠ [] ∧ ' ' ∉ y := by
  simp only [pieces, List.mem_filter, List.splitOn] at h
  refine ⟨by simpa [List.isEmpty_iff] using h.2, fun hs => ?_⟩
  have := mem_splitOnP_not_sep _ x y h.1 ' ' hs
  simp at this

theorem pieces_eq_self_iff (l : List Str) :
    (l.map pieces).flatten = l ↔ ∀ x ∈ l, x ≠ [] ∧ ' ' ∉ x := by
  constructor
  · intro h x hx
    rw [← h] at hx
    obtain ⟨ps, hps, hxs⟩ := List.mem_flatten.1 hx
    obtain ⟨z, _, rfl⟩ := List.mem_map.1 hps
    exact mem_pieces z x hxs
  · intro h
    rw [← pieces_join_tokens_flatten, pieces_join_tokens l h]

/-- C20 (as stated) fails in its last part: the file argument ` a.c`, with a
leading space, contains a space, yet the traversal returns the single entry
`a.c` and `main` runs one command for it, not several; and an argument made
of one space gives no entry at all. -/
theorem space_at_an_end_gives_one_entry :
    [" a.c".toList].foldl append none = some " a.c".toList
    ∧ ' ' ∈ " a.c".toList
    ∧ strtok_all " a.c".toList = ["a.c".toList]
    ∧ (main host_demo ["mkdeps".toList, "gcc".toList, "--".toList, "--".toList,
        " a.c".toList]).trace.cmds = ["gcc -M  ./a.c".toList]
    ∧ strtok_all " ".toList = [] := by
  decide

/-- C20 (amended): a list of strings accumulated with `append` is joined by
single spaces, and the `strtok_r` traversal with the delimiter `" "` returns,
in order, the maximal space-free non-empty pieces of its elements; hence it
returns exactly the original list if and only if every element is non-empty
and contains no space.  An element that contains a space is never returned
as itself: it is traversed as its pieces, which are at least two when the
space stands between two parts that each hold a piece. -/
theorem traversal_returns_the_pieces (l : List Str) :
    l.foldl append none = join_opt l
    ∧ strtok_all (join_tokens l) = (l.map pieces).flatten
    ∧ (strtok_all (join_tokens l) = l ↔ ∀ x ∈ l, x ≠ [] ∧ ' ' ∉ x)
    ∧ (∀ x : Str, ' ' ∈ x → strtok_all x = pieces x ∧ x ∉ strtok_all x)
    ∧ (∀ u v : Str, pieces u ≠ [] → pieces v ≠ [] →
        strtok_all (u ++ ' ' :: v) = pieces u ++ pieces v
        ∧ 2 ≤ (strtok_all (u ++ ' ' :: v)).length) := by
  refine ⟨foldl_append_none l, ?_, ?_, ?_, ?_⟩
  · rw [strtok_all_eq, pieces_join_tokens_flatten]
  · rw [strtok_all_eq, pieces_join_tokens_flatten]
    exact pieces_eq_self_iff l
  · intro x hx
    refine ⟨strtok_all_eq x, fun hm => ?_⟩
    rw [strtok_all_eq] at hm
    exact (mem_pieces x x hm).2 hx
  · intro u v hu hv
    rw [strtok_all_eq, pieces_append_space]
    refine ⟨rfl, ?_⟩
    have h1 : 0 < (pieces u).length := List.length_pos.2 hu
    have h2 : 0 < (pieces v).length := List.length_pos.2 hv
    rw [List.length_append]
    omega

/-! ### Where the fatal messages go -/

@[simp]
theorem Trace.print_getLast (t : Trace) (s : Stream) (x : Str) :
    (t.print s x).out.getLast? = some (s, x) := by
  simp [Trace.print]

@[simp]
theorem Trace.access_out (t : Trace) (b : Buffer) (i : Int) (cap : Nat) :
    (t.access b i cap).out = t.out := by
  unfold Trace.access
  split_ifs <;> rfl

@[simp]
theorem Trace.ran_out (t : Trace) (c : Str) : (t.ran c).out = t.out := rfl

theorem Outcome.reported_bind {α β : Type} (o : Outcome α) (f : α → Trace → Outcome β)
    (ho : o.reported) (hf : ∀ a t, (f a t).reported) : (o.bind f).reported := by
  cases o with
  | cont a t => exact hf a t
  | exit c t => exact ho
  | fault t => trivial

theorem Outcome.reported_print {α : Type} (c : Int) (t : Trace) (x : Str) :
    (Outcome.exit c (t.print .stderr x) : Outcome α).reported :=
  fun _ => Or.inl ⟨x, Trace.print_getLast t _ x⟩

theorem show_usage_reported {α : Type} (progname : Str) (msg : Option Str) (code : Int)
    (t : Trace) : (show_usage progname msg code t : Outcome α).reported := by
  intro _
  left
  cases msg <;>
    simp [show_usage, Trace.errs, usage_lines, List.getLast?_append, List.getLast?_cons_cons]

theorem parse_items_reported (progname : Str) (items : List Item) :
    ∀ (args : Option Str) (g : Globals) (t : Trace),
    (parse_items progname items args g t).reported := by
  induction items with
  | nil => intro args g t; trivial
  | cons it rest ih =>
    intro args g t
    cases it with
    | help => exact show_usage_reported _ _ _ _
    | missing opt => exact show_usage_reported _ _ _ _
    | dep_path val =>
      cases args with
      | none => exact ih _ _ _
      | some a => exact ih _ _ _
    | sep => exact ih _ _ _
    | debug => exact ih _ _ _
    | obj_path val => exact ih _ _ _
    | obj_suffix val => exact ih _ _ _
    | winnative => exact ih _ _ _
    | winpath => exact ih _ _ _
    | plain tok => exact ih _ _ _

theorem parse_args_reported (argv : List Str) (g : Globals) (t : Trace) :
    (parse_args argv g t).reported := by
  unfold parse_args
  rw [parse_loop_decode]
  apply Outcome.reported_bind _ _ (parse_items_reported _ _ _ _ _)
  intro r t1
  rw [parse_finish_eq]
  split_ifs
  · exact show_usage_reported _ _ _ _
  · exact fun hne => absurd rfl hne
  · exact show_usage_reported _ _ _ _
  · trivial

theorem do_expand_reported (w : Bool) (s : Str) (t : Trace) : (do_expand w s t).reported := by
  unfold do_expand
  split_ifs
  · simp only
    split_ifs
    · exact Outcome.reported_print _ _ _
    · trivial
  · trivial

theorem dequote_path_reported (p : Str) (t : Trace) : (dequote_path p t).reported := by
  unfold dequote_path
  simp only
  split_ifs
  · exact Outcome.reported_print _ _ _
  · trivial

theorem convert_path_reported (h : Host) (g : Globals) (p : Str) (t : Trace) :
    (convert_path h g p t).reported := by
  unfold convert_path
  split_ifs
  · apply Outcome.reported_bind _ _ (dequote_path_reported p t)
    intro a t1
    simp only
    split_ifs
    all_goals first | exact Outcome.reported_print _ _ _ | trivial
  · trivial

theorem build_command_reported (h : Host) (g : Globals) (file : Str) (t : Trace) :
    (build_command h g file t).reported := by
  unfold build_command
  cases g.g_cc with
  | none => trivial
  | some cc =>
    simp only
    split_ifs
    · exact Outcome.reported_print _ _ _
    · apply Outcome.reported_bind
      · cases g.g_objpath with
        | none => trivial
        | some objpath =>
          simp only
          apply Outcome.reported_bind _ _ (do_expand_reported _ _ _)
          intro a t1
          split_ifs
          · exact Outcome.reported_print _ _ _
          · trivial
      · intro c1 t1
        split_ifs
        · exact Outcome.reported_print _ _ _
        · apply Outcome.reported_bind
          · cases g.g_cflags with
            | none => trivial
            | some cflags =>
              simp only
              apply Outcome.reported_bind _ _ (do_expand_reported _ _ _)
              intro a t2
              split_ifs
              · exact Outcome.reported_print _ _ _
              · trivial
          · intro c3 t3
            trivial

theorem execute_reported (h : Host) (g : Globals) (cmd : Str) (len : Nat) (p : Str)
    (t : Trace) : (execute h g cmd len p t).reported := by
  unfold execute
  apply Outcome.reported_bind _ _ (do_expand_reported _ _ _)
  intro e t5
  simp only
  split_ifs
  all_goals first | exact Outcome.reported_print _ _ _ | trivial

theorem search_reported (h : Host) (g : Globals) (file cmd : Str) (len : Nat)
    (paths : List Str) : ∀ t, (search h g file cmd len paths t).reported := by
  induction paths with
  | nil =>
    intro t _
    exact Or.inr ⟨file, by simp [not_found_message]⟩
  | cons path rest ih =>
    intro t
    rw [search]
    split_ifs
    · exact Outcome.reported_print _ _ _
    · exact Outcome.reported_print _ _ _
    · apply Outcome.reported_bind _ _ (convert_path_reported _ _ _ _)
      intro conv t4
      cases h.stat t4.cmds conv with
      | fail => exact ih t4
      | other => exact Outcome.reported_print _ _ _
      | regular => exact execute_reported _ _ _ _ _ _

theorem main_loop_reported (h : Host) (g : Globals) (files : List Str) :
    ∀ t, (main_loop h g files t).reported := by
  induction files with
  | nil => intro t; trivial
  | cons file rest ih =>
    intro t
    rw [main_loop_cons]
    apply Outcome.reported_bind
    · unfold do_dependency
      apply Outcome.reported_bind _ _ (build_command_reported _ _ _ _)
      intro c t1
      cases g.g_altpath with
      | none => trivial
      | some altpath => exact search_reported _ _ _ _ _ _ _
    · intro _ t1
      exact ih t1

/-- Every way in which the program ends with a non-zero status leaves its
last line on the standard error, except the "not found" line of line 822,
which is on the standard output. -/
theorem main_reported (h : Host) (argv : List Str) : (main h argv).reported := by
  unfold main
  apply Outcome.reported_bind _ _ (parse_args_reported _ _ _)
  intro g t
  cases g.g_files with
  | none => trivial
  | some files =>
    simp only
    apply Outcome.reported_bind _ _ (main_loop_reported _ _ _ _)
    intro _ t1
    trivial

/-- C17 (code): on a host where no file exists, `mkdeps gcc -- -- a.c` ends
with `EXIT_FAILURE` and its whole output is the "not found" line, written to
the standard output: nothing is written to the standard error.  On every
other way to a non-zero status the last line written is on the standard
error. -/
theorem not_found_message_on_stdout :
    (main host_none ["mkdeps".toList, "gcc".toList, "--".toList, "--".toList,
        "a.c".toList]).status = some EXIT_FAILURE
    ∧ EXIT_FAILURE ≠ 0
    ∧ (main host_none ["mkdeps".toList, "gcc".toList, "--".toList, "--".toList,
        "a.c".toList]).trace.out = [(Stream.stdout, not_found_message "a.c".toList)]
    ∧ ∀ (h : Host) (argv : List Str), (main h argv).reported :=
  ⟨by decide, by decide, by decide, main_reported⟩

/-! ### The bounds of g_command and g_path -/

theorem Trace.bounded_empty : Trace.empty.bounded := by
  intro e he
  simp [Trace.empty] at he

theorem Trace.bounded_print (t : Trace) (s : Stream) (x : Str) (ht : t.bounded) :
    (t.print s x).bounded := ht

theorem Trace.bounded_errs (t : Trace) (l : List Str) (ht : t.bounded) :
    (t.errs l).bounded := ht

theorem Trace.bounded_ran (t : Trace) (c : Str) (ht : t.bounded) : (t.ran c).bounded := ht

@[simp]
theorem Trace.bounded_print_iff (t : Trace) (s : Stream) (x : Str) :
    (t.print s x).bounded ↔ t.bounded := Iff.rfl

@[simp]
theorem Trace.bounded_ran_iff (t : Trace) (c : Str) : (t.ran c).bounded ↔ t.bounded := Iff.rfl

@[simp]
theorem Outcome.bounded_cont {α : Type} (a : α) (t : Trace) :
    (Outcome.cont a t).bounded ↔ t.bounded := Iff.rfl

@[simp]
theorem Outcome.bounded_exit {α : Type} (c : Int) (t : Trace) :
    (Outcome.exit c t : Outcome α).bounded ↔ t.bounded := Iff.rfl

@[simp]
theorem Outcome.bounded_fault {α : Type} (t : Trace) :
    (Outcome.fault t : Outcome α).bounded ↔ t.bounded := Iff.rfl

theorem Trace.bounded_access (t : Trace) (b : Buffer) (i : Int) (cap : Nat) (ht : t.bounded)
    (hi : (0 ≤ i ∧ i < cap) ∨ one_past_end (b, i)) : (t.access b i cap).bounded := by
  unfold Trace.access
  split_ifs with hin
  · exact ht
  · intro e he
    simp only [List.mem_append, List.mem_singleton] at he
    rcases he with he | rfl
    · exact ht e he
    · rcases hi with hi | hi
      · exact absurd hi hin
      · exact hi

/-- An access to a buffer other than `g_command` and `g_path`. -/
theorem Trace.bounded_access_other (t : Trace) (b : Buffer) (i : Int) (cap : Nat)
    (ht : t.bounded) (h1 : b ≠ Buffer.g_command) (h2 : b ≠ Buffer.g_path) :
    (t.access b i cap).bounded :=
  Trace.bounded_access t b i cap ht (Or.inr ⟨fun e => absurd e h1, fun e => absurd e h2⟩)

theorem Outcome.bounded_bind {α β : Type} (o : Outcome α) (f : α → Trace → Outcome β)
    (ho : o.bounded) (hf : ∀ a t, t.bounded → (f a t).bounded) : (o.bind f).bounded := by
  cases o with
  | cont a t => exact hf a t ho
  | exit c t => exact ho
  | fault t => exact ho

theorem do_expand_bounded (w : Bool) (s : Str) (t : Trace) (ht : t.bounded) :
    (do_expand w s t).bounded := by
  unfold do_expand
  split_ifs
  · simp only
    split_ifs
    · exact ht
    · simp only [Outcome.bounded, Outcome.trace_cont]
      exact Trace.bounded_access_other _ _ _ _ ht (by simp) (by simp)
  · exact ht

theorem dequote_path_bounded (p : Str) (t : Trace) (ht : t.bounded) :
    (dequote_path p t).bounded := by
  unfold dequote_path
  simp only
  split_ifs
  · exact ht
  · simp only [Outcome.bounded, Outcome.trace_cont]
    exact Trace.bounded_access_other _ _ _ _ ht (by simp) (by simp)

theorem poke_bounded (buf : List (Option Char)) (i : Int) (c : Option Char) (t : Trace)
    (ht : t.bounded) : (poke buf i c t).2.bounded :=
  Trace.bounded_access_other _ _ _ _ ht (by simp) (by simp)

theorem convert_path_bounded (h : Host) (g : Globals) (p : Str) (t : Trace) (ht : t.bounded) :
    (convert_path h g p t).bounded := by
  unfold convert_path
  split_ifs
  · apply Outcome.bounded_bind _ _ (dequote_path_bounded p t ht)
    intro a t1 ht1
    simp only
    split_ifs
    · exact ht1
    · exact ht1
    · exact poke_bounded _ _ _ _ (poke_bounded _ _ _ _ (poke_bounded _ _ _ _ ht1))
    · exact poke_bounded _ _ _ _ ht1
  · exact ht

theorem cmd_ok_bind (lim lim2 : Nat) (o : Outcome (Str × Nat))
    (f : Str × Nat → Trace → Outcome (Str × Nat)) (ho : cmd_ok lim o)
    (hf : ∀ c t, c.1.length = c.2 → c.2 < lim → t.bounded → cmd_ok lim2 (f c t)) :
    cmd_ok lim2 (o.bind f) := by
  cases o with
  | cont c t => exact hf c t ho.1 ho.2.1 ho.2.2
  | exit c t => exact ho
  | fault t => exact ho

theorem cmd_ok_expand (lim : Nat) (w : Bool) (s : Str) (t : Trace) (ht : t.bounded)
    (f : Str → Trace → Outcome (Str × Nat)) (hf : ∀ e t1, t1.bounded → cmd_ok lim (f e t1)) :
    cmd_ok lim ((do_expand w s t).bind f) := by
  have hb := do_expand_bounded w s t ht
  cases hx : do_expand w s t with
  | cont e t1 => rw [hx] at hb; exact hf e t1 hb
  | exit c t1 => rw [hx] at hb; exact hb
  | fault t1 => rw [hx] at hb; exact hb

/-- The first part of `do_dependency`: the only index of `g_command` that it
can reach outside the buffer is `MAX_BUFFER`, and when it returns the counter
is the length of the text, at most `MAX_BUFFER`. -/
theorem build_command_ok (h : Host) (g : Globals) (file : Str) (t : Trace) (ht : t.bounded) :
    cmd_ok (MAX_BUFFER + 1) (build_command h g file t) := by
  unfold build_command
  cases g.g_cc with
  | none => exact ht
  | some cc =>
    simp only
    split_ifs with hcc
    · exact ht
    · have ht0 : (t.access Buffer.g_command cc.length MAX_BUFFER).bounded :=
        Trace.bounded_access _ _ _ _ ht (Or.inl ⟨by omega, by omega⟩)
      apply cmd_ok_bind MAX_BUFFER
      · cases g.g_objpath with
        | none => exact ⟨rfl, by omega, ht0⟩
        | some objpath =>
          simp only
          apply cmd_ok_expand _ _ _ _ ht0
          intro e t1 ht1
          split_ifs with hl
          · exact ht1
          · refine ⟨by simp, by omega,
              Trace.bounded_access _ _ _ _ ht1 (Or.inl ⟨by omega, ?_⟩)⟩
            simp only [List.length_append]
            omega
      · intro c1 t1 hc1 _ ht1
        split_ifs with hl
        · exact ht1
        · have ht2 : (t1.access Buffer.g_command (c1.1 ++ moption).length MAX_BUFFER).bounded := by
            refine Trace.bounded_access _ _ _ _ ht1 (Or.inl ⟨by omega, ?_⟩)
            simp only [List.length_append]
            omega
          apply cmd_ok_bind MAX_BUFFER
          · cases g.g_cflags with
            | none => exact ⟨by simp [hc1], by omega, ht2⟩
            | some cflags =>
              simp only
              apply cmd_ok_expand _ _ _ _ ht2
              intro e t3 ht3
              split_ifs with hl3
              · exact ht3
              · refine ⟨by simp [hc1]; omega, by omega,
                  Trace.bounded_access _ _ _ _ ht3 (Or.inl ⟨by omega, ?_⟩)⟩
                simp only [List.length_append]
                omega
          · intro c3 t3 hc3 hlt ht3
            refine ⟨by simp [hc3], by omega, ?_⟩
            apply Trace.bounded_access
            · exact Trace.bounded_access _ _ _ _ ht3 (Or.inl ⟨by omega, by omega⟩)
            · by_cases hlast : c3.2 + 1 < MAX_BUFFER
              · exact Or.inl ⟨by omega, by omega⟩
              · right
                refine ⟨fun _ => ?_, fun e => by simp at e⟩
                show ((c3.2 + 1 : Nat) : Int) = MAX_BUFFER
                omega

theorem execute_bounded (h : Host) (g : Globals) (cmd : Str) (len : Nat) (p : Str) (t : Trace)
    (ht : t.bounded) (hlen : cmd.length = len) : (execute h g cmd len p t).bounded := by
  unfold execute
  apply Outcome.bounded_bind _ _ (do_expand_bounded _ _ _ ht)
  intro e t5 ht5
  simp only
  have h6 : ¬ (len + e.length ≥ MAX_BUFFER) →
      (t5.access Buffer.g_command (cmd ++ e).length MAX_BUFFER).bounded := by
    intro hfit
    refine Trace.bounded_access _ _ _ _ ht5 (Or.inl ⟨by omega, ?_⟩)
    simp only [List.length_append]
    omega
  by_cases h1 : len + e.length ≥ MAX_BUFFER
  · rw [if_pos h1]
    simpa using ht5
  · rw [if_neg h1]
    have h7 := h6 h1
    split_ifs <;> simpa using h7

theorem with_separator_length (g : Globals) (path : Str) :
    (with_separator g path).length = sep_len g path := by
  unfold with_separator sep_len
  split_ifs <;> simp

/-- The accesses to `g_path` while the separator is added to a directory that
is not empty and shorter than `MAX_PATH`: the only index that can lie outside
the buffer is `MAX_PATH`. -/
theorem sep_trace_bounded (g : Globals) (path : Str) (t : Trace) (ht : t.bounded)
    (hne : path ≠ []) (hlen : path.length < MAX_PATH) : (sep_trace g path t).bounded := by
  have hpos : 0 < path.length := List.length_pos.2 hne
  have h0 : ((t.access Buffer.g_path path.length MAX_PATH).access Buffer.g_path
      ((path.length : Int) - 1) MAX_PATH).bounded :=
    Trace.bounded_access _ _ _ _
      (Trace.bounded_access _ _ _ _ ht (Or.inl ⟨by omega, by omega⟩))
      (Or.inl ⟨by omega, by omega⟩)
  unfold sep_trace
  simp only
  split_ifs
  · apply Trace.bounded_access
    · exact Trace.bounded_access _ _ _ _ h0 (Or.inl ⟨by omega, by omega⟩)
    · by_cases hlast : path.length + 1 < MAX_PATH
      · exact Or.inl ⟨by omega, by omega⟩
      · right
        refine ⟨fun e => by simp at e, fun _ => ?_⟩
        show ((path.length + 1 : Nat) : Int) = MAX_PATH
        omega
  · exact h0

theorem try_trace_bounded (g : Globals) (path file : Str) (t : Trace) (ht : t.bounded)
    (hne : path ≠ []) (hlen : path.length < MAX_PATH)
    (hfit : ¬ (sep_len g path + file.length ≥ MAX_PATH)) :
    (try_trace g path file t).bounded := by
  have h2 : ((sep_trace g path t).access Buffer.g_path
      (with_separator g path ++ file).length MAX_PATH).bounded := by
    refine Trace.bounded_access _ _ _ _ (sep_trace_bounded g path t ht hne hlen)
      (Or.inl ⟨by omega, ?_⟩)
    rw [List.length_append, with_separator_length]
    omega
  unfold try_trace
  simp only
  split_ifs
  · simp only [Trace.bounded_print_iff]
    exact h2
  · exact h2

theorem search_bounded (h : Host) (g : Globals) (file cmd : Str) (len : Nat)
    (hcmd : cmd.length = len) (paths : List Str) (hne : ∀ p ∈ paths, p ≠ []) :
    ∀ t : Trace, t.bounded → (search h g file cmd len paths t).bounded := by
  induction paths with
  | nil => intro t ht; exact ht
  | cons path rest ih =>
    intro t ht
    have hp : path ≠ [] := hne path (List.mem_cons_self _ _)
    have hrest : ∀ p ∈ rest, p ≠ [] := fun p hp => hne p (List.mem_cons_of_mem _ hp)
    rw [search]
    split_ifs with h1 h2
    · exact ht
    · exact sep_trace_bounded g path t ht hp (by omega)
    · apply Outcome.bounded_bind _ _
        (convert_path_bounded _ _ _ _ (try_trace_bounded g path file t ht hp (by omega) h2))
      intro conv t4 ht4
      cases h.stat t4.cmds conv with
      | fail => exact ih hrest t4 ht4
      | other => exact ht4
      | regular => exact execute_bounded _ _ _ _ _ _ ht4 hcmd

/-- Every out-of-bounds access that `do_dependency` makes to `g_command` is
at index `MAX_BUFFER`, and every one to `g_path` at index `MAX_PATH`. -/
theorem do_dependency_bounded (h : Host) (g : Globals) (file : Str) (t : Trace)
    (ht : t.bounded) : (do_dependency h g file t).bounded := by
  have hb := build_command_ok h g file t ht
  unfold do_dependency
  cases hc : build_command h g file t with
  | exit c t1 => rw [hc] at hb; exact hb
  | fault t1 => rw [hc] at hb; exact hb
  | cont c t1 =>
    rw [hc] at hb
    simp only [Outcome.bind_cont]
    cases g.g_altpath with
    | none => exact hb.2.2
    | some altpath =>
      refine search_bounded h g file c.1 c.2 hb.1 _ ?_ t1 hb.2.2
      intro p hp
      rw [strtok_all_eq] at hp
      exact (mem_pieces altpath p hp).1

theorem Trace.keeps_refl (t : Trace) : t.keeps t := fun _ he => he

@[simp]
theorem Trace.keeps_print_iff (t t1 : Trace) (s : Stream) (x : Str) :
    t.keeps (t1.print s x) ↔ t.keeps t1 := Iff.rfl

@[simp]
theorem Trace.keeps_ran_iff (t t1 : Trace) (c : Str) : t.keeps (t1.ran c) ↔ t.keeps t1 :=
  Iff.rfl

@[simp]
theorem Outcome.keeps_cont {α : Type} (t : Trace) (a : α) (t1 : Trace) :
    Outcome.keeps t (Outcome.cont a t1) ↔ t.keeps t1 := Iff.rfl

@[simp]
theorem Outcome.keeps_exit {α : Type} (t : Trace) (c : Int) (t1 : Trace) :
    Outcome.keeps t (Outcome.exit c t1 : Outcome α) ↔ t.keeps t1 := Iff.rfl

@[simp]
theorem Outcome.keeps_fault {α : Type} (t : Trace) (t1 : Trace) :
    Outcome.keeps t (Outcome.fault t1 : Outcome α) ↔ t.keeps t1 := Iff.rfl

theorem Trace.keeps_access (t t1 : Trace) (b : Buffer) (i : Int) (cap : Nat)
    (h : t.keeps t1) : t.keeps (t1.access b i cap) := by
  unfold Trace.access
  split_ifs
  · exact h
  · intro e he
    exact List.mem_append_left _ (h e he)

theorem Outcome.keeps_bind {α β : Type} (t : Trace) (o : Outcome α)
    (f : α → Trace → Outcome β) (ho : Outcome.keeps t o)
    (hf : ∀ a t1, t.keeps t1 → Outcome.keeps t (f a t1)) : Outcome.keeps t (o.bind f) := by
  cases o with
  | cont a t1 => exact hf a t1 ho
  | exit c t1 => exact ho
  | fault t1 => exact ho

theorem do_expand_keeps (t0 : Trace) (w : Bool) (s : Str) (t : Trace) (ht : t0.keeps t) :
    Outcome.keeps t0 (do_expand w s t) := by
  unfold do_expand
  split_ifs
  · simp only
    split_ifs
    · simpa using ht
    · simp only [Outcome.keeps_cont]
      exact Trace.keeps_access _ _ _ _ _ ht
  · exact ht

theorem dequote_path_keeps (t0 : Trace) (p : Str) (t : Trace) (ht : t0.keeps t) :
    Outcome.keeps t0 (dequote_path p t) := by
  unfold dequote_path
  simp only
  split_ifs
  · simpa using ht
  · simp only [Outcome.keeps_cont]
    exact Trace.keeps_access _ _ _ _ _ ht

theorem poke_keeps (t0 : Trace) (buf : List (Option Char)) (i : Int) (c : Option Char)
    (t : Trace) (ht : t0.keeps t) : t0.keeps (poke buf i c t).2 :=
  Trace.keeps_access _ _ _ _ _ ht

theorem convert_path_keeps (t0 : Trace) (h : Host) (g : Globals) (p : Str) (t : Trace)
    (ht : t0.keeps t) : Outcome.keeps t0 (convert_path h g p t) := by
  unfold convert_path
  split_ifs
  · apply Outcome.keeps_bind _ _ _ (dequote_path_keeps t0 p t ht)
    intro a t1 ht1
    simp only
    split_ifs
    · simpa using ht1
    · simpa using ht1
    · exact poke_keeps _ _ _ _ _ (poke_keeps _ _ _ _ _ (poke_keeps _ _ _ _ _ ht1))
    · exact poke_keeps _ _ _ _ _ ht1
  · exact ht

theorem execute_keeps (t0 : Trace) (h : Host) (g : Globals) (cmd : Str) (len : Nat) (p : Str)
    (t : Trace) (ht : t0.keeps t) : Outcome.keeps t0 (execute h g cmd len p t) := by
  unfold execute
  apply Outcome.keeps_bind _ _ _ (do_expand_keeps t0 _ _ _ ht)
  intro e t5 ht5
  simp only
  have h7 : t0.keeps (t5.access Buffer.g_command (cmd ++ e).length MAX_BUFFER) :=
    Trace.keeps_access _ _ _ _ _ ht5
  by_cases h1 : len + e.length ≥ MAX_BUFFER
  · rw [if_pos h1]
    simpa using ht5
  · rw [if_neg h1]
    split_ifs <;> simpa using h7

theorem sep_trace_keeps (t0 : Trace) (g : Globals) (path : Str) (t : Trace)
    (ht : t0.keeps t) : t0.keeps (sep_trace g path t) := by
  unfold sep_trace
  simp only
  split_ifs
  · exact Trace.keeps_access _ _ _ _ _ (Trace.keeps_access _ _ _ _ _
      (Trace.keeps_access _ _ _ _ _ (Trace.keeps_access _ _ _ _ _ ht)))
  · exact Trace.keeps_access _ _ _ _ _ (Trace.keeps_access _ _ _ _ _ ht)

theorem try_trace_keeps (t0 : Trace) (g : Globals) (path file : Str) (t : Trace)
    (ht : t0.keeps t) : t0.keeps (try_trace g path file t) := by
  have h2 : t0.keeps ((sep_trace g path t).access Buffer.g_path
      (with_separator g path ++ file).length MAX_PATH) :=
    Trace.keeps_access _ _ _ _ _ (sep_trace_keeps t0 g path t ht)
  unfold try_trace
  simp only
  split_ifs
  · simpa using h2
  · exact h2

/-- The search loop never forgets an out-of-bounds access. -/
theorem search_keeps (t0 : Trace) (h : Host) (g : Globals) (file cmd : Str) (len : Nat)
    (paths : List Str) :
    ∀ t : Trace, t0.keeps t → Outcome.keeps t0 (search h g file cmd len paths t) := by
  induction paths with
  | nil => intro t ht; simpa [search] using ht
  | cons path rest ih =>
    intro t ht
    rw [search]
    split_ifs
    · simpa using ht
    · simpa using sep_trace_keeps t0 g path t ht
    · apply Outcome.keeps_bind _ _ _
        (convert_path_keeps t0 _ _ _ _ (try_trace_keeps t0 g path file t ht))
      intro conv t4 ht4
      cases h.stat t4.cmds conv with
      | fail => exact ih t4 ht4
      | other => simpa using ht4
      | regular => exact execute_keeps t0 _ _ _ _ _ _ ht4

theorem Outcome.bind_eq_cont {α β : Type} (o : Outcome α) (f : α → Trace → Outcome β)
    (b : β) (t : Trace) (h : o.bind f = .cont b t) :
    ∃ a t0, o = .cont a t0 ∧ f a t0 = .cont b t := by
  cases o with
  | cont a t0 => exact ⟨a, t0, rfl, h⟩
  | exit c t0 => simp at h
  | fault t0 => simp at h

theorem Trace.access_past_end (t : Trace) (b : Buffer) (cap : Nat) :
    (b, (cap : Int)) ∈ (t.access b (cap : Int) cap).oob := by
  unfold Trace.access
  rw [if_neg (by omega)]
  simp

/-- Whenever the first part of `do_dependency` returns with the counter at
`MAX_BUFFER`, it has stored the terminator at `g_command[MAX_BUFFER]`. -/
theorem build_command_terminator (h : Host) (g : Globals) (file : Str) (t : Trace)
    (c : Str × Nat) (t1 : Trace) (hb : build_command h g file t = .cont c t1)
    (hfull : c.2 = MAX_BUFFER) : (Buffer.g_command, (MAX_BUFFER : Int)) ∈ t1.oob := by
  unfold build_command at hb
  cases hcc : g.g_cc with
  | none => rw [hcc] at hb; simp at hb
  | some cc =>
    rw [hcc] at hb
    simp only at hb
    split_ifs at hb with h1
    obtain ⟨c1, t2, _, hb⟩ := Outcome.bind_eq_cont _ _ _ _ hb
    split_ifs at hb with h2
    obtain ⟨c3, t3, _, hb⟩ := Outcome.bind_eq_cont _ _ _ _ hb
    simp only [Outcome.cont.injEq] at hb
    obtain ⟨hc, ht⟩ := hb
    rw [← hc] at hfull
    simp only at hfull
    rw [← ht, hfull]
    exact Trace.access_past_end _ _ _

theorem execute_full (h : Host) (g : Globals) (cmd : Str) (len : Nat) (p : Str) (t : Trace)
    (hlen : len ≥ MAX_BUFFER) :
    (execute h g cmd len p t).status = some EXIT_FAILURE
    ∧ (execute h g cmd len p t).trace.cmds = t.cmds := by
  have hcf := do_expand_cont_or_failure g.g_winpath p t
  have hcm := do_expand_cmds g.g_winpath p t
  unfold execute
  cases hx : do_expand g.g_winpath p t with
  | exit c t1 =>
    rw [hx] at hcf hcm
    have hc : c = EXIT_FAILURE := hcf
    subst hc
    exact ⟨rfl, by simpa using hcm⟩
  | fault t1 => rw [hx] at hcf; exact hcf.elim
  | cont e t1 =>
    rw [hx] at hcm
    simp only [Outcome.bind_cont]
    rw [if_pos (by omega)]
    exact ⟨rfl, by simpa using hcm⟩

/-- With the counter at `MAX_BUFFER` or more the search loop ends the run
with `EXIT_FAILURE` and runs no command. -/
theorem search_full (h : Host) (g : Globals) (file cmd : Str) (len : Nat)
    (hlen : len ≥ MAX_BUFFER) (paths : List Str) :
    ∀ t : Trace, (search h g file cmd len paths t).status = some EXIT_FAILURE
      ∧ (search h g file cmd len paths t).trace.cmds = t.cmds := by
  induction paths with
  | nil => intro t; exact ⟨rfl, by simp [search]⟩
  | cons path rest ih =>
    intro t
    rw [search]
    split_ifs
    · exact ⟨rfl, by simp⟩
    · exact ⟨rfl, by simp [sep_trace_cmds]⟩
    · have hcf := convert_path_cont_or_failure h g (with_separator g path ++ file)
        (try_trace g path file t)
      have hcm := convert_path_cmds h g (with_separator g path ++ file)
        (try_trace g path file t)
      cases hc : convert_path h g (with_separator g path ++ file) (try_trace g path file t) with
      | exit c t1 =>
        rw [hc] at hcf hcm
        have hc2 : c = EXIT_FAILURE := hcf
        subst hc2
        exact ⟨rfl, by simpa using hcm⟩
      | fault t1 => rw [hc] at hcf; exact hcf.elim
      | cont conv t4 =>
        rw [hc] at hcm
        have ht4 : t4.cmds = t.cmds := by simpa using hcm
        simp only [Outcome.bind_cont]
        cases h.stat t4.cmds conv with
        | fail => rw [← ht4]; exact ih t4
        | other => exact ⟨rfl, by simp [ht4]⟩
        | regular => rw [← ht4]; exact execute_full h g cmd len _ t4 hlen

/-- When the compiler, the `-MT` part, ` -M ` and the flags make up exactly
`MAX_BUFFER - 1` characters, every length test passes, the space is stored at
`g_command[MAX_BUFFER - 1]` and its terminator at `g_command[MAX_BUFFER]`;
the run goes on into the search loop and only then ends with `EXIT_FAILURE`. -/
theorem do_dependency_terminator_past_end (h : Host) (g : Globals) (cc altpath file : Str)
    (t : Trace) (hcc : g.g_cc = some cc) (ha : g.g_altpath = some altpath)
    (hx : expand_fits h g file)
    (hlen : (cc ++ target_part h g file ++ moption ++ flags_part g).length + 1 = MAX_BUFFER) :
    (Buffer.g_command, (MAX_BUFFER : Int)) ∈ (do_dependency h g file t).trace.oob
    ∧ (do_dependency h g file t).status = some EXIT_FAILURE
    ∧ (do_dependency h g file t).trace.cmds = t.cmds := by
  obtain ⟨t1, hc1, hb⟩ := build_command_fits h g cc file t hcc hx (by omega)
  have hmem := build_command_terminator h g file t _ t1 hb hlen
  unfold do_dependency
  rw [hb]
  simp only [Outcome.bind_cont, ha]
  have hs := search_full h g file
    (cc ++ target_part h g file ++ moption ++ flags_part g ++ [' '])
    ((cc ++ target_part h g file ++ moption ++ flags_part g).length + 1) (by omega)
    (strtok_all altpath) t1
  refine ⟨?_, hs.1, by rw [hs.2, hc1]⟩
  exact search_keeps t1 h g file _ _ _ t1 (Trace.keeps_refl t1) _ hmem

/-- A directory of `MAX_PATH - 1` characters that does not end with the
separator passes the test of line 710; the separator is stored at
`g_path[MAX_PATH - 1]` and its terminator at `g_path[MAX_PATH]`, and only
then the test of line 734 ends the run. -/
theorem search_separator_past_end (h : Host) (g : Globals) (file cmd : Str) (len : Nat)
    (dir : Str) (rest : List Str) (t : Trace) (hlen : dir.length + 1 = MAX_PATH)
    (hsep : dir.getLast? ≠ some (separator g)) :
    (Buffer.g_path, (MAX_PATH : Int)) ∈ (search h g file cmd len (dir :: rest) t).trace.oob
    ∧ (search h g file cmd len (dir :: rest) t).status = some EXIT_FAILURE
    ∧ (search h g file cmd len (dir :: rest) t).trace.cmds = t.cmds := by
  have hs : sep_len g dir = MAX_PATH := by
    unfold sep_len
    rw [if_pos hsep, hlen]
  have hmem : (Buffer.g_path, (MAX_PATH : Int)) ∈ (sep_trace g dir t).oob := by
    unfold sep_trace
    simp only
    rw [if_pos hsep]
    have e : ((dir.length + 1 : Nat) : Int) = (MAX_PATH : Int) := by rw [hlen]
    rw [e]
    exact Trace.access_past_end _ _ _
  rw [search, if_neg (by omega), if_pos (by omega)]
  exact ⟨hmem, rfl, by simp [sep_trace_cmds]⟩

theorem replicate_is_word (n : Nat) (c : Char) (hn : 0 < n) (hc : c ≠ ' ') :
    strtok_all (List.replicate n c) = [List.replicate n c] := by
  rw [strtok_all_eq]
  apply pieces_word
  · intro e
    have := congrArg List.length e
    simp at this
    omega
  · intro x hx
    rw [(List.mem_replicate.1 hx).2]
    exact hc

theorem replicate_getLast (n : Nat) (c d : Char) (hcd : c ≠ d) :
    (List.replicate n c).getLast? ≠ some d := by
  intro e
  have hm := List.mem_of_getLast?_eq_some e
  exact hcd (List.mem_replicate.1 hm).2.symm

/-- C21 (code): with a compiler string of `MAX_BUFFER - 5` characters, no
object directory and no flags, every length test of `do_dependency` passes
with the counter at `MAX_BUFFER - 1`; the space is stored at
`g_command[MAX_BUFFER - 1]` and its terminator at `g_command[MAX_BUFFER]`,
past the end of the buffer, and the run goes on into the search loop with
`MAX_BUFFER` characters of command text before it ends with `EXIT_FAILURE`.
The same happens whenever the first part returns with the counter at
`MAX_BUFFER`; every other access to `g_command` is inside the buffer. -/
theorem terminator_after_space_past_end :
    ((Buffer.g_command, (MAX_BUFFER : Int))
        ∈ (do_dependency host_demo globals_full_command "a.c".toList Trace.empty).trace.oob
      ∧ (do_dependency host_demo globals_full_command "a.c".toList Trace.empty).status
          = some EXIT_FAILURE
      ∧ (do_dependency host_demo globals_full_command "a.c".toList Trace.empty).trace.cmds = [])
    ∧ (build_command host_demo globals_full_command "a.c".toList Trace.empty).result
        = some (List.replicate (MAX_BUFFER - 5) 'c' ++ " -M  ".toList, MAX_BUFFER)
    ∧ (∀ (h : Host) (g : Globals) (file : Str) (t : Trace) (c : Str × Nat) (t1 : Trace),
        build_command h g file t = .cont c t1 → c.2 = MAX_BUFFER →
        (Buffer.g_command, (MAX_BUFFER : Int)) ∈ t1.oob)
    ∧ (∀ (h : Host) (g : Globals) (file : Str),
        ∀ e ∈ (do_dependency h g file Trace.empty).trace.oob,
          e.1 = Buffer.g_command → e.2 = MAX_BUFFER) := by
  have hx : expand_fits host_demo globals_full_command "a.c".toList := by
    intro hw
    exact absurd hw (by decide)
  have hlen : (List.replicate (MAX_BUFFER - 5) 'c'
      ++ target_part host_demo globals_full_command "a.c".toList ++ moption
      ++ flags_part globals_full_command).length + 1 = MAX_BUFFER := by
    have h1 : target_part host_demo globals_full_command "a.c".toList = [] := rfl
    have h2 : flags_part globals_full_command = [] := rfl
    rw [h1, h2]
    simp only [List.append_nil, List.length_append, List.length_replicate, moption_length]
    decide
  refine ⟨do_dependency_terminator_past_end host_demo globals_full_command
      (List.replicate (MAX_BUFFER - 5) 'c') ".".toList "a.c".toList Trace.empty rfl rfl hx hlen,
    ?_, build_command_terminator, ?_⟩
  · obtain ⟨t1, _, hb⟩ := build_command_fits host_demo globals_full_command
      (List.replicate (MAX_BUFFER - 5) 'c') "a.c".toList Trace.empty rfl hx (by omega)
    rw [hb]
    have h1 : target_part host_demo globals_full_command "a.c".toList = [] := rfl
    have h2 : flags_part globals_full_command = [] := rfl
    rw [hlen, h1, h2]
    simp [Outcome.result, moption]
  · intro h g file e he
    exact (do_dependency_bounded h g file Trace.empty Trace.bounded_empty e he).1

/-- C22 (code): a search directory of `MAX_PATH - 1` characters that does
not end with the separator passes the test of line 710; `do_dependency`
stores the separator at `g_path[MAX_PATH - 1]` and its terminator at
`g_path[MAX_PATH]`, past the end of the buffer, and only then the test of
line 734 ends the run with `EXIT_FAILURE`.  This holds for every such
directory; every other access to `g_path` is inside the buffer. -/
theorem separator_terminator_past_end :
    ((Buffer.g_path, (MAX_PATH : Int))
        ∈ (do_dependency host_demo globals_full_dir "a.c".toList Trace.empty).trace.oob
      ∧ (do_dependency host_demo globals_full_dir "a.c".toList Trace.empty).status
          = some EXIT_FAILURE
      ∧ (do_dependency host_demo globals_full_dir "a.c".toList Trace.empty).trace.cmds = [])
    ∧ (∀ (h : Host) (g : Globals) (file cmd : Str) (len : Nat) (dir : Str) (rest : List Str)
        (t : Trace), dir.length + 1 = MAX_PATH → dir.getLast? ≠ some (separator g) →
        (Buffer.g_path, (MAX_PATH : Int))
          ∈ (search h g file cmd len (dir :: rest) t).trace.oob
        ∧ (search h g file cmd len (dir :: rest) t).status = some EXIT_FAILURE)
    ∧ (∀ (h : Host) (g : Globals) (file : Str),
        ∀ e ∈ (do_dependency h g file Trace.empty).trace.oob,
          e.1 = Buffer.g_path → e.2 = MAX_PATH) := by
  refine ⟨?_, ?_, ?_⟩
  · have hx : expand_fits host_demo globals_full_dir "a.c".toList := by
      intro hw
      exact absurd hw (by decide)
    obtain ⟨t1, hc1, hb⟩ := build_command_fits host_demo globals_full_dir "gcc".toList
      "a.c".toList Trace.empty rfl hx (by decide)
    have hs := search_separator_past_end host_demo globals_full_dir "a.c".toList
      ("gcc".toList ++ target_part host_demo globals_full_dir "a.c".toList ++ moption
        ++ flags_part globals_full_dir ++ [' '])
      (("gcc".toList ++ target_part host_demo globals_full_dir "a.c".toList ++ moption
        ++ flags_part globals_full_dir).length + 1)
      (List.replicate (MAX_PATH - 1) 'x') [] t1
      (by rw [List.length_replicate]; decide)
      (replicate_getLast _ 'x' _ (by decide))
    have hd : do_dependency host_demo globals_full_dir "a.c".toList Trace.empty
        = search host_demo globals_full_dir "a.c".toList
            ("gcc".toList ++ target_part host_demo globals_full_dir "a.c".toList ++ moption
              ++ flags_part globals_full_dir ++ [' '])
            (("gcc".toList ++ target_part host_demo globals_full_dir "a.c".toList ++ moption
              ++ flags_part globals_full_dir).length + 1)
            [List.replicate (MAX_PATH - 1) 'x'] t1 := by
      unfold do_dependency
      rw [hb]
      have ha : globals_full_dir.g_altpath = some (List.replicate (MAX_PATH - 1) 'x') := rfl
      simp only [Outcome.bind_cont, ha]
      rw [replicate_is_word _ _ (by decide) (by decide)]
    rw [hd]
    exact ⟨hs.1, hs.2.1, by rw [hs.2.2, hc1]; rfl⟩
  · intro h g file cmd len dir rest t hlen hsep
    have hs := search_separator_past_end h g file cmd len dir rest t hlen hsep
    exact ⟨hs.1, hs.2.1⟩
  · intro h g file e he
    exact (do_dependency_bounded h g file Trace.empty Trace.bounded_empty e he).2

end Mkdeps
